import Mathlib

/-!
A verification development for the f319 incremental crawl engine
(`f319_hybrid_crawler.py`, `database.py`, `config.py`).

The store (PostgreSQL behind the `Database` class) is modelled as two in-memory
tables plus a failure flag; the page source and HTML extraction are cut at the
boundary the code itself uses: a numbered page either fails all fetch retries or
yields the ordered list of extracted posts.  The engine
(`collect_thread_posts` and its helpers) is translated statement by statement,
and every externally visible action (page fetch, per-page collection result,
batch flush, watermark read/update) is recorded in an event trace so that
ordering properties can be stated about runs.
-/

namespace F319

/-- Extracted post record: the `PostData` dataclass (f319_hybrid_crawler.py 42-49). -/
structure PostData where
  id : String
  thread_id : String
  author : String
  author_link : String
  post_date : Int
  content : String
deriving Repr, DecidableEq

/-- One row of the `f319_list` table (database.py 45-58): thread metadata plus the
nullable watermark column `last_post_id`. -/
structure ThreadRow where
  id : String
  title : String
  author : String
  start_date : String
  last_post_date : String
  link : String
  views : String
  replies : String
  last_post_id : Option String
deriving Repr, DecidableEq

/-- The dict handed to `Database.insert_f319_list` (no `last_post_id` key). -/
structure ThreadInsert where
  id : String
  title : String
  author : String
  start_date : String
  last_post_date : String
  link : String
  views : String
  replies : String
deriving Repr, DecidableEq

/-- Store state: the two tables, plus a flag modelling a connection on which every
statement raises `psycopg2.Error` (each `Database` method catches that error at its
own boundary). -/
structure DB where
  threads : List ThreadRow
  posts : List PostData
  failing : Bool
deriving Repr, DecidableEq

/-- `Database.post_exists` (database.py 137-145): `SELECT 1 FROM f319_post WHERE id = %s`;
on a store error it returns False. -/
def post_exists (db : DB) (pid : String) : Bool :=
  if db.failing then false else db.posts.any (fun p => p.id == pid)

/-- `Database.get_last_post_id` (database.py 147-157): a missing row and a NULL column
both come back as None; on a store error None. -/
def get_last_post_id (db : DB) (tid : String) : Option String :=
  if db.failing then none
  else
    match db.threads.find? (fun t => t.id == tid) with
    | some t => t.last_post_id
    | none => none

/-- The row function of the UPDATE: set `last_post_id` on the row with the target id. -/
def setWmRow (tid pid : String) (t : ThreadRow) : ThreadRow :=
  if t.id == tid then { t with last_post_id := some pid } else t

/-- `Database.update_last_post_id` (database.py 159-168): one UPDATE of the
`last_post_id` column, success is `rowcount > 0`; on a store error `(db, false)`. -/
def update_last_post_id (db : DB) (tid : String) (pid : String) : DB × Bool :=
  if db.failing then (db, false)
  else if db.threads.any (fun t => t.id == tid) then
    ({ db with threads := db.threads.map (setWmRow tid pid) }, true)
  else (db, false)

/-- The row-at-a-time meaning of `INSERT .. ON CONFLICT (id) DO NOTHING` over a VALUES
list: a row is appended iff its id is not yet in the table (earlier rows of the same
batch included), and `cursor.rowcount` counts the appended rows. -/
def insertPostsGo : DB → List PostData → DB × Nat
  | db, [] => (db, 0)
  | db, p :: rest =>
    if db.posts.any (fun q => q.id == p.id) then insertPostsGo db rest
    else
      let r := insertPostsGo { db with posts := db.posts ++ [p] } rest
      (r.1, r.2 + 1)

/-- `Database.batch_insert_posts` (database.py 170-195): empty batch short-circuits to 0;
a store error is caught and reported as 0 rows affected. -/
def batch_insert_posts (db : DB) (ps : List PostData) : DB × Nat :=
  if ps.isEmpty then (db, 0)
  else if db.failing then (db, 0)
  else insertPostsGo db ps

/-- `Database.insert_f319_list` (database.py 97-110): `ON CONFLICT (id) DO NOTHING`; a
clash on the UNIQUE `link` column raises `psycopg2.Error`, which is caught and reported
as False.  A freshly inserted row has NULL `last_post_id`. -/
def insert_f319_list (db : DB) (d : ThreadInsert) : DB × Bool :=
  if db.failing then (db, false)
  else if db.threads.any (fun t => t.id == d.id) then (db, false)
  else if db.threads.any (fun t => t.link == d.link) then (db, false)
  else ({ db with threads := db.threads ++
      [⟨d.id, d.title, d.author, d.start_date, d.last_post_date,
        d.link, d.views, d.replies, none⟩] }, true)

/-- Modelled from the spec: `containerExists(locator) -> bool`.  The crawler calls
`Database.thread_exists_by_link` (f319_hybrid_crawler.py 346 and 445) but that method is
absent from src/database.py; the spec describes it as a container-existence check keyed
by the canonical locator (the UNIQUE `link` column of `f319_list`). -/
def thread_exists_by_link (db : DB) (link : String) : Bool :=
  if db.failing then false else db.threads.any (fun t => t.link == link)

/-- Maximal leading digit run of a character list. -/
def digitRun : List Char → List Char
  | [] => []
  | c :: rest => if c.isDigit then c :: digitRun rest else []

/-- `re.search` for the regex dot-digits: the first '.' immediately followed by a digit
wins, and the capture group is the maximal digit run after that dot. -/
def findDotDigits : List Char → Option (List Char)
  | [] => none
  | c :: rest =>
    if c == '.' && !(digitRun rest).isEmpty then some (digitRun rest)
    else findDotDigits rest

/-- `F319HybridCrawler._extract_thread_id` (f319_hybrid_crawler.py 118-120). -/
def extract_thread_id (url : String) : String :=
  match findDotDigits url.data with
  | some run => String.mk run
  | none => "unknown_thread_id"

/-- Independent check: does the character list contain a '.' immediately followed by a
digit anywhere? -/
def hasDotDigit : List Char → Bool
  | [] => false
  | [_] => false
  | a :: b :: rest => (a == '.' && b.isDigit) || hasDotDigit (b :: rest)

/-- Python truthiness of an optional string: None and the empty string are falsy. -/
def optTruthy : Option String → Bool
  | none => false
  | some s => !(s == "")

/-- `str.strip()`: drop leading and trailing whitespace. -/
def trimChars (cs : List Char) : List Char :=
  ((cs.dropWhile Char.isWhitespace).reverse.dropWhile Char.isWhitespace).reverse

/-- Truthiness of `post_data.content.strip()`. -/
def contentNonempty (p : PostData) : Bool := !(trimChars p.content.data).isEmpty

/-- `str.replace("thread-", "")` (f319_hybrid_crawler.py 446): every occurrence of the
pattern is removed, left to right. -/
def dropThreadPrefixes : List Char → List Char
  | 't' :: 'h' :: 'r' :: 'e' :: 'a' :: 'd' :: '-' :: rest => dropThreadPrefixes rest
  | c :: rest => c :: dropThreadPrefixes rest
  | [] => []

/-- The guard `last_post_id and post_data.id == last_post_id`
(f319_hybrid_crawler.py 310). -/
def isBoundary (lastPostId : Option String) (pid : String) : Bool :=
  match lastPostId with
  | none => false
  | some l => !(l == "") && pid == l

/-- `_extract_post_data` stamps each post with the enclosing thread id (line 237). -/
def stampThread (tid : String) (p : PostData) : PostData := { p with thread_id := tid }

/-- The tuple `_collect_posts_from_page` returns (f319_hybrid_crawler.py 288-291). -/
structure PageResult where
  posts_list : List PostData
  old_posts_count : Nat
  found_last_post : Bool
deriving Repr, DecidableEq

/-- The per-post loop of `_collect_posts_from_page` (f319_hybrid_crawler.py 305-333):
`acc` and `old` carry `posts_list` and `old_posts_count`. -/
def collectGo (db : DB) (lastPostId : Option String) :
    List PostData → List PostData → Nat → PageResult
  | [], acc, old => ⟨acc, old, false⟩
  | p :: rest, acc, old =>
    if contentNonempty p then
      if isBoundary lastPostId p.id then ⟨acc, old, true⟩
      else if post_exists db p.id then collectGo db lastPostId rest acc (old + 1)
      else collectGo db lastPostId rest (acc ++ [p]) 0
    else collectGo db lastPostId rest acc old

/-- `F319HybridCrawler._collect_posts_from_page` (f319_hybrid_crawler.py 288-338):
extraction stamps each post with the thread id (line 237), the page's post list is
reversed (line 303), then each post is classified in that traversal order. -/
def collect_posts_from_page (db : DB) (page : List PostData) (tid : String)
    (lastPostId : Option String) : PageResult :=
  collectGo db lastPostId ((page.map (stampThread tid)).reverse) [] 0

/-- The slice of `CrawlerConfig` the engine reads.  `batch_size` is from config.py 39.
Modelled from the spec: `enable_thread_date_filter` and `thread_start_date` are read by
the crawler (f319_hybrid_crawler.py 272, 280, 500-501) but are absent from
src/config.py; the spec lists an optional creation-date cutoff and its enable flag. -/
structure Config where
  batch_size : Nat
  enable_thread_date_filter : Bool
  thread_start_date : String
deriving Repr, DecidableEq

/-- Externally visible actions of a container traversal, in order. -/
inductive Ev where
  | fetch (page : Nat) (ok : Bool)
  | getWatermark (tid : String) (found : Option String)
  | pageCollect (page : Nat) (collected : List PostData)
  | flushBatch (batch : List PostData) (inserted : Nat)
  | setWatermark (tid : String) (pid : String) (ok : Bool)
deriving Repr, DecidableEq

/-- Mutable state of `collect_thread_posts` between page iterations. -/
structure CState where
  db : DB
  buffer : List PostData
  newest_post_id : Option String
  last_crawled_post_id : Option String
  total : Nat
  stopped : Bool
  trace : List Ev
deriving Repr, DecidableEq

/-- `posts_list[0]['id']` when the list is nonempty, else the previous value
(lines 375-376 and 408-409). -/
def headIdOr (l : List PostData) (o : Option String) : Option String :=
  match l with
  | [] => o
  | p :: _ => some p.id

/-- The repeated pattern of lines 380-387, 418-425 and 427-434: one batch insert, then a
watermark update when the tracked id is truthy.  Returns the new store, the inserted
count and the emitted events. -/
def flushWm (tid : String) (db : DB) (batch : List PostData) (wm : Option String) :
    DB × Nat × List Ev :=
  let fl := batch_insert_posts db batch
  if optTruthy wm then
    let pid := wm.getD ""
    let up := update_last_post_id fl.1 tid pid
    (up.1, fl.2, [Ev.flushBatch batch fl.2, Ev.setWatermark tid pid up.2])
  else (fl.1, fl.2, [Ev.flushBatch batch fl.2])

/-- One iteration of the forward page loop (f319_hybrid_crawler.py 364-387). -/
def fwdStep (cfg : Config) (tid : String) (web : Nat → Option (List PostData))
    (st : CState) (page : Nat) : CState :=
  match web page with
  | none => { st with trace := st.trace ++ [Ev.fetch page false] }
  | some pagePosts =>
    let r := collect_posts_from_page st.db pagePosts tid none
    let lastCrawled := headIdOr r.posts_list st.last_crawled_post_id
    let buffer := st.buffer ++ r.posts_list
    let trace := st.trace ++ [Ev.fetch page true, Ev.pageCollect page r.posts_list]
    if cfg.batch_size ≤ buffer.length then
      let fw := flushWm tid st.db (buffer.take cfg.batch_size) lastCrawled
      { st with db := fw.1, buffer := buffer.drop cfg.batch_size,
                last_crawled_post_id := lastCrawled, total := st.total + fw.2.1,
                trace := trace ++ fw.2.2 }
    else
      { st with buffer := buffer, last_crawled_post_id := lastCrawled, trace := trace }

/-- The update `if not newest_post_id and posts_list: newest_post_id = posts_list[0]['id']`
(lines 408-409). -/
def revNewest (newest : Option String) (l : List PostData) : Option String :=
  if !optTruthy newest then headIdOr l newest else newest

/-- One iteration of the reverse page loop (f319_hybrid_crawler.py 393-425); once the
boundary post has been seen the remaining pages are skipped
(`should_stop` / `break`). -/
def revStep (cfg : Config) (tid : String) (web : Nat → Option (List PostData))
    (lastPostId : Option String) (st : CState) (page : Nat) : CState :=
  if st.stopped then st
  else
    match web page with
    | none => { st with trace := st.trace ++ [Ev.fetch page false] }
    | some pagePosts =>
      let r := collect_posts_from_page st.db pagePosts tid lastPostId
      let newest := revNewest st.newest_post_id r.posts_list
      let buffer := st.buffer ++ r.posts_list
      let trace := st.trace ++ [Ev.fetch page true, Ev.pageCollect page r.posts_list]
      if r.found_last_post then
        { st with buffer := buffer, newest_post_id := newest, stopped := true,
                  trace := trace }
      else if cfg.batch_size ≤ buffer.length then
        let fw := flushWm tid st.db (buffer.take cfg.batch_size) newest
        { st with db := fw.1, buffer := buffer.drop cfg.batch_size,
                  newest_post_id := newest, total := st.total + fw.2.1,
                  trace := trace ++ fw.2.2 }
      else
        { st with buffer := buffer, newest_post_id := newest, trace := trace }

/-- Runs a page loop body over the listed page numbers, left to right. -/
def runPages (step : CState → Nat → CState) : List Nat → CState → CState
  | [], st => st
  | p :: ps, st => runPages step ps (step st p)

/-- The tail of `collect_thread_posts` (f319_hybrid_crawler.py 427-434): flush whatever
remains in the buffer, then one final watermark update. -/
def finalFlush (tid : String) (thread_exists : Bool) (st : CState) : CState :=
  if st.buffer.isEmpty then st
  else
    let finalPid := if thread_exists then st.newest_post_id else st.last_crawled_post_id
    let fw := flushWm tid st.db st.buffer finalPid
    { st with db := fw.1, total := st.total + fw.2.1, trace := st.trace ++ fw.2.2 }

/-- Lines 345-348: the caller-provided `is_new_thread` overrides the locator lookup. -/
def threadExistsFlag (db0 : DB) (url : String) (isNewThread : Option Bool) : Bool :=
  match isNewThread with
  | none => thread_exists_by_link db0 url
  | some b => !b

/-- Result of one container traversal: final store, `total_collected`, event trace. -/
structure CrawlResult where
  db : DB
  total : Nat
  trace : List Ev
deriving Repr, DecidableEq

/-- `F319HybridCrawler.collect_thread_posts` (f319_hybrid_crawler.py 340-438).
`web` abstracts `_fetch_page` plus item extraction: for each page number, either the
ordered extracted posts of that page or none when all fetch retries fail.  `totalPages`
stands for the `_get_total_pages` result read off the freshly fetched first page.  The
initial fetch of the bare thread url is the fetch of page 1. -/
def collect_thread_posts (cfg : Config) (db0 : DB) (url : String)
    (isNewThread : Option Bool) (web : Nat → Option (List PostData))
    (totalPages : Nat) : CrawlResult :=
  let tid := extract_thread_id url
  let texists := threadExistsFlag db0 url isNewThread
  match web 1 with
  | none => ⟨db0, 0, [Ev.fetch 1 false]⟩
  | some _ =>
    if !texists then
      let st0 : CState := ⟨db0, [], none, none, 0, false, [Ev.fetch 1 true]⟩
      let st1 := runPages (fwdStep cfg tid web) (List.range' 1 totalPages) st0
      let st2 := finalFlush tid texists st1
      ⟨st2.db, st2.total, st2.trace⟩
    else
      let lp := get_last_post_id db0 tid
      let st0 : CState :=
        ⟨db0, [], none, none, 0, false, [Ev.fetch 1 true, Ev.getWatermark tid lp]⟩
      let st1 := runPages (revStep cfg tid web lp) (List.range' 1 totalPages).reverse st0
      let st2 := finalFlush tid texists st1
      ⟨st2.db, st2.total, st2.trace⟩

/-- Page numbers of all fetch attempts in a trace. -/
def fetchPages (tr : List Ev) : List Nat :=
  tr.filterMap (fun e => match e with | Ev.fetch p _ => some p | _ => none)

/-- Page numbers of all pages that were actually processed for items. -/
def collectPages (tr : List Ev) : List Nat :=
  tr.filterMap (fun e => match e with | Ev.pageCollect p _ => some p | _ => none)

/-- The per-page collected lists, in processing order. -/
def collectLists (tr : List Ev) : List (List PostData) :=
  tr.filterMap (fun e => match e with | Ev.pageCollect _ c => some c | _ => none)

/-- The submitted batches of all flushes, in order. -/
def flushBatches (tr : List Ev) : List (List PostData) :=
  tr.filterMap (fun e => match e with | Ev.flushBatch b _ => some b | _ => none)

/-- The submitted sizes of all flushes, in order. -/
def flushSizes (tr : List Ev) : List Nat :=
  (flushBatches tr).map List.length

/-- The values written by the watermark updates of a trace, in order. -/
def wmPids (tr : List Ev) : List String :=
  tr.filterMap (fun e => match e with | Ev.setWatermark _ pid _ => some pid | _ => none)

/-- The container identities targeted by watermark reads and updates. -/
def wmTargets (tr : List Ev) : List String :=
  tr.filterMap (fun e =>
    match e with
    | Ev.getWatermark t _ => some t
    | Ev.setWatermark t _ _ => some t
    | _ => none)

/-- A parsed `datetime` as far as the thread-date formats populate one. -/
structure DateTimeM where
  year : Nat
  month : Nat
  day : Nat
  hour : Nat
  minute : Nat
deriving Repr, DecidableEq

/-- `datetime` comparison on the populated fields (lexicographic). -/
def dtLe (a b : DateTimeM) : Bool :=
  if a.year ≠ b.year then decide (a.year < b.year)
  else if a.month ≠ b.month then decide (a.month < b.month)
  else if a.day ≠ b.day then decide (a.day < b.day)
  else if a.hour ≠ b.hour then decide (a.hour < b.hour)
  else decide (a.minute ≤ b.minute)

/-- Value of a decimal digit character. -/
def digitVal (c : Char) : Nat := c.toNat - 48

/-- One numeric `strptime` field: a two-digit read is taken when the two-digit value is
admissible for the field, otherwise a one-digit read when admissible (this mirrors the
alternation CPython compiles for `%d`, `%m`, `%H`, `%M`, where every following literal is
a non-digit). -/
def parseField (two1 : Nat → Bool) (one1 : Nat → Bool) :
    List Char → Option (Nat × List Char)
  | c1 :: c2 :: rest =>
    if c1.isDigit && c2.isDigit && two1 (digitVal c1 * 10 + digitVal c2) then
      some (digitVal c1 * 10 + digitVal c2, rest)
    else if c1.isDigit && one1 (digitVal c1) then some (digitVal c1, c2 :: rest)
    else none
  | [c1] => if c1.isDigit && one1 (digitVal c1) then some (digitVal c1, []) else none
  | [] => none

/-- `%d`: two digits in 01..31, or one digit 1..9. -/
def fieldDay : List Char → Option (Nat × List Char) :=
  parseField (fun v => 1 ≤ v && v ≤ 31) (fun v => 1 ≤ v)

/-- `%m`: two digits in 01..12, or one digit 1..9. -/
def fieldMonth : List Char → Option (Nat × List Char) :=
  parseField (fun v => 1 ≤ v && v ≤ 12) (fun v => 1 ≤ v)

/-- `%H`: two digits in 00..23, or one digit. -/
def fieldHour : List Char → Option (Nat × List Char) :=
  parseField (fun v => v ≤ 23) (fun _ => true)

/-- `%M`: two digits in 00..59, or one digit. -/
def fieldMinute : List Char → Option (Nat × List Char) :=
  parseField (fun v => v ≤ 59) (fun _ => true)

/-- `%Y`: exactly four digits. -/
def fieldYear : List Char → Option (Nat × List Char)
  | a :: b :: c :: d :: rest =>
    if a.isDigit && b.isDigit && c.isDigit && d.isDigit then
      some (digitVal a * 1000 + digitVal b * 100 + digitVal c * 10 + digitVal d, rest)
    else none
  | _ => none

/-- One exact literal character of the format. -/
def parseChar (ch : Char) : List Char → Option (List Char)
  | c :: rest => if c == ch then some rest else none
  | [] => none

/-- A whitespace literal in a `strptime` format matches one or more whitespace chars. -/
def parseSpaces1 : List Char → Option (List Char)
  | c :: rest => if c.isWhitespace then some (rest.dropWhile Char.isWhitespace) else none
  | [] => none

/-- Day count of a month, Gregorian, as `datetime.__new__` validates it. -/
def daysInMonth (y m : Nat) : Nat :=
  if m = 2 then (if y % 4 = 0 && (y % 100 ≠ 0 || y % 400 = 0) then 29 else 28)
  else if m = 4 || m = 6 || m = 9 || m = 11 then 30
  else 31

/-- The `datetime` constructor check that survives the field regexes: the year is at
least 1 and the day fits the month. -/
def mkDateTime (y m d h mi : Nat) : Option DateTimeM :=
  if 1 ≤ y && 1 ≤ d && d ≤ daysInMonth y m then some ⟨y, m, d, h, mi⟩ else none

/-- `datetime.strptime` against one of the four thread-date formats: day-sep-month-sep-
4-digit-year, optionally followed by a comma, whitespace and hour:minute; the whole
string must be consumed. -/
def parseFmt (sep : Char) (withTime : Bool) (cs : List Char) : Option DateTimeM := do
  let (d, cs) ← fieldDay cs
  let cs ← parseChar sep cs
  let (m, cs) ← fieldMonth cs
  let cs ← parseChar sep cs
  let (y, cs) ← fieldYear cs
  if withTime then
    let cs ← parseChar ',' cs
    let cs ← parseSpaces1 cs
    let (h, cs) ← fieldHour cs
    let cs ← parseChar ':' cs
    let (mi, cs) ← fieldMinute cs
    if cs.isEmpty then mkDateTime y m d h mi else none
  else
    if cs.isEmpty then mkDateTime y m d 0 0 else none

/-- `F319HybridCrawler._parse_thread_date` (f319_hybrid_crawler.py 248-267): the input is
stripped, then the four formats are tried in order; every failure falls through and the
overall failure is None. -/
def parse_thread_date (s : String) : Option DateTimeM :=
  let cs := trimChars s.data
  match parseFmt '/' true cs with
  | some dt => some dt
  | none =>
    match parseFmt '/' false cs with
    | some dt => some dt
    | none =>
      match parseFmt '-' true cs with
      | some dt => some dt
      | none => parseFmt '-' false cs

/-- Line 280: the configured cutoff is parsed with the single format `%d/%m/%Y` and is
not stripped; a parse failure raises and is absorbed by the surrounding except. -/
def parse_start_date (s : String) : Option DateTimeM :=
  parseFmt '/' false s.data

/-- `F319HybridCrawler._is_thread_after_start_date` (f319_hybrid_crawler.py 270-284):
filter disabled, unparsable thread date and unparsable cutoff all accept; otherwise the
thread is accepted iff its creation datetime is on or after the cutoff. -/
def is_thread_after_start_date (cfg : Config) (threadStartDate : String) : Bool :=
  if !cfg.enable_thread_date_filter then true
  else
    match parse_thread_date threadStartDate with
    | none => true
    | some dt =>
      match parse_start_date cfg.thread_start_date with
      | none => true
      | some sdt => dtLe sdt dt

/-- The `ThreadData` dataclass (f319_hybrid_crawler.py 30-39). -/
structure ThreadData where
  id : String
  title : String
  author : String
  start_date : String
  last_post_date : String
  link : String
  views : String
  replies : String
deriving Repr, DecidableEq

/-- The candidate filter of `collect_today_threads` (f319_hybrid_crawler.py 591-606): a
successfully extracted thread is queued iff its link is usable and it passes the
creation-date filter. -/
def threads_to_crawl (cfg : Config) (cands : List ThreadData) : List ThreadData :=
  cands.filter (fun t => !(t.link == "NA") && is_thread_after_start_date cfg t.start_date)

/-- `F319HybridCrawler._crawl_single_thread` (f319_hybrid_crawler.py 440-491), reduced to
its store effects: compute newness by locator, upsert the thread row (the id is the
dataclass id with every "thread-" removed), then crawl the posts. -/
def crawl_single_thread (cfg : Config) (db : DB)
    (web : String → Nat → Option (List PostData)) (totN : String → Nat)
    (t : ThreadData) : DB × Nat :=
  let is_new := !(thread_exists_by_link db t.link)
  let nid := String.mk (dropThreadPrefixes t.id.data)
  let ins := insert_f319_list db
    ⟨nid, t.title, t.author, t.start_date, t.last_post_date, t.link, t.views, t.replies⟩
  let r := collect_thread_posts cfg ins.1 t.link (some is_new) (web t.link) (totN t.link)
  (r.db, r.total)

/-- Sequentialised processing of the queued threads, recording each processed locator. -/
def runAccepted (cfg : Config) (web : String → Nat → Option (List PostData))
    (totN : String → Nat) : List ThreadData → DB → Nat → List String →
    DB × Nat × List String
  | [], db, tot, links => (db, tot, links)
  | t :: ts, db, tot, links =>
    let r := crawl_single_thread cfg db web totN t
    runAccepted cfg web totN ts r.1 (tot + r.2) (links ++ [t.link])

/-- The per-listing-page body of `collect_today_threads` (f319_hybrid_crawler.py
576-643), cut at the extracted candidate list: filter the candidates, then crawl each
accepted thread.  Returns the final store, the collected total and the locators that
were processed (in submission order; the worker pool is sequentialised). -/
def collect_today_threads (cfg : Config) (db : DB)
    (web : String → Nat → Option (List PostData)) (totN : String → Nat)
    (cands : List ThreadData) : DB × Nat × List String :=
  runAccepted cfg web totN (threads_to_crawl cfg cands) db 0 []

/-! Decomposition lemmas: one equation per control-flow branch of the engine, used by
all the run-level proofs below. -/

lemma flushWm_wm (tid : String) (db : DB) (batch : List PostData) {wm : Option String}
    (h : optTruthy wm = true) :
    flushWm tid db batch wm =
      ((update_last_post_id (batch_insert_posts db batch).1 tid (wm.getD "")).1,
       (batch_insert_posts db batch).2,
       [Ev.flushBatch batch (batch_insert_posts db batch).2,
        Ev.setWatermark tid (wm.getD "")
          (update_last_post_id (batch_insert_posts db batch).1 tid (wm.getD "")).2]) := by
  unfold flushWm
  rw [if_pos h]

lemma flushWm_nowm (tid : String) (db : DB) (batch : List PostData) {wm : Option String}
    (h : optTruthy wm = false) :
    flushWm tid db batch wm =
      ((batch_insert_posts db batch).1, (batch_insert_posts db batch).2,
       [Ev.flushBatch batch (batch_insert_posts db batch).2]) := by
  unfold flushWm
  rw [if_neg (by simp [h])]

lemma flushWm_events (tid : String) (db : DB) (batch : List PostData) (wm : Option String) :
    (flushWm tid db batch wm).2.2 =
      Ev.flushBatch batch (batch_insert_posts db batch).2 ::
        (if optTruthy wm then
          [Ev.setWatermark tid (wm.getD "")
            (update_last_post_id (batch_insert_posts db batch).1 tid (wm.getD "")).2]
         else []) := by
  unfold flushWm
  split <;> rfl

lemma fwdStep_none (cfg : Config) (tid : String) (web : Nat → Option (List PostData))
    (st : CState) (p : Nat) (h : web p = none) :
    fwdStep cfg tid web st p = { st with trace := st.trace ++ [Ev.fetch p false] } := by
  unfold fwdStep
  rw [h]

lemma fwdStep_small (cfg : Config) (tid : String) (web : Nat → Option (List PostData))
    (st : CState) (p : Nat) (pp : List PostData) (h : web p = some pp)
    (hlen : ¬ cfg.batch_size ≤
      (st.buffer ++ (collect_posts_from_page st.db pp tid none).posts_list).length) :
    fwdStep cfg tid web st p =
      { st with
          buffer := st.buffer ++ (collect_posts_from_page st.db pp tid none).posts_list,
          last_crawled_post_id :=
            headIdOr (collect_posts_from_page st.db pp tid none).posts_list
              st.last_crawled_post_id,
          trace := st.trace ++
            [Ev.fetch p true,
             Ev.pageCollect p (collect_posts_from_page st.db pp tid none).posts_list] } := by
  unfold fwdStep
  rw [h]
  dsimp only
  rw [if_neg hlen]

lemma fwdStep_flush (cfg : Config) (tid : String) (web : Nat → Option (List PostData))
    (st : CState) (p : Nat) (pp : List PostData) (h : web p = some pp)
    (hlen : cfg.batch_size ≤
      (st.buffer ++ (collect_posts_from_page st.db pp tid none).posts_list).length) :
    fwdStep cfg tid web st p =
      { st with
          db := (flushWm tid st.db
            ((st.buffer ++ (collect_posts_from_page st.db pp tid none).posts_list).take
              cfg.batch_size)
            (headIdOr (collect_posts_from_page st.db pp tid none).posts_list
              st.last_crawled_post_id)).1,
          buffer := (st.buffer ++
            (collect_posts_from_page st.db pp tid none).posts_list).drop cfg.batch_size,
          last_crawled_post_id :=
            headIdOr (collect_posts_from_page st.db pp tid none).posts_list
              st.last_crawled_post_id,
          total := st.total + (flushWm tid st.db
            ((st.buffer ++ (collect_posts_from_page st.db pp tid none).posts_list).take
              cfg.batch_size)
            (headIdOr (collect_posts_from_page st.db pp tid none).posts_list
              st.last_crawled_post_id)).2.1,
          trace := st.trace ++
            [Ev.fetch p true,
             Ev.pageCollect p (collect_posts_from_page st.db pp tid none).posts_list] ++
            (flushWm tid st.db
              ((st.buffer ++ (collect_posts_from_page st.db pp tid none).posts_list).take
                cfg.batch_size)
              (headIdOr (collect_posts_from_page st.db pp tid none).posts_list
                st.last_crawled_post_id)).2.2 } := by
  unfold fwdStep
  rw [h]
  dsimp only
  rw [if_pos hlen]

lemma revStep_stopped (cfg : Config) (tid : String) (web : Nat → Option (List PostData))
    (lp : Option String) (st : CState) (p : Nat) (h : st.stopped = true) :
    revStep cfg tid web lp st p = st := by
  unfold revStep
  rw [if_pos h]

lemma revStep_none (cfg : Config) (tid : String) (web : Nat → Option (List PostData))
    (lp : Option String) (st : CState) (p : Nat) (h0 : st.stopped = false)
    (h : web p = none) :
    revStep cfg tid web lp st p = { st with trace := st.trace ++ [Ev.fetch p false] } := by
  unfold revStep
  rw [if_neg (by simp [h0]), h]

lemma revStep_boundary (cfg : Config) (tid : String) (web : Nat → Option (List PostData))
    (lp : Option String) (st : CState) (p : Nat) (pp : List PostData)
    (h0 : st.stopped = false) (h : web p = some pp)
    (hf : (collect_posts_from_page st.db pp tid lp).found_last_post = true) :
    revStep cfg tid web lp st p =
      { st with
          buffer := st.buffer ++ (collect_posts_from_page st.db pp tid lp).posts_list,
          newest_post_id :=
            revNewest st.newest_post_id (collect_posts_from_page st.db pp tid lp).posts_list,
          stopped := true,
          trace := st.trace ++
            [Ev.fetch p true,
             Ev.pageCollect p (collect_posts_from_page st.db pp tid lp).posts_list] } := by
  unfold revStep
  rw [if_neg (by simp [h0]), h]
  dsimp only
  rw [if_pos hf]

lemma revStep_flush (cfg : Config) (tid : String) (web : Nat → Option (List PostData))
    (lp : Option String) (st : CState) (p : Nat) (pp : List PostData)
    (h0 : st.stopped = false) (h : web p = some pp)
    (hf : (collect_posts_from_page st.db pp tid lp).found_last_post = false)
    (hlen : cfg.batch_size ≤
      (st.buffer ++ (collect_posts_from_page st.db pp tid lp).posts_list).length) :
    revStep cfg tid web lp st p =
      { st with
          db := (flushWm tid st.db
            ((st.buffer ++ (collect_posts_from_page st.db pp tid lp).posts_list).take
              cfg.batch_size)
            (revNewest st.newest_post_id
              (collect_posts_from_page st.db pp tid lp).posts_list)).1,
          buffer := (st.buffer ++
            (collect_posts_from_page st.db pp tid lp).posts_list).drop cfg.batch_size,
          newest_post_id :=
            revNewest st.newest_post_id (collect_posts_from_page st.db pp tid lp).posts_list,
          total := st.total + (flushWm tid st.db
            ((st.buffer ++ (collect_posts_from_page st.db pp tid lp).posts_list).take
              cfg.batch_size)
            (revNewest st.newest_post_id
              (collect_posts_from_page st.db pp tid lp).posts_list)).2.1,
          trace := st.trace ++
            [Ev.fetch p true,
             Ev.pageCollect p (collect_posts_from_page st.db pp tid lp).posts_list] ++
            (flushWm tid st.db
              ((st.buffer ++ (collect_posts_from_page st.db pp tid lp).posts_list).take
                cfg.batch_size)
              (revNewest st.newest_post_id
                (collect_posts_from_page st.db pp tid lp).posts_list)).2.2 } := by
  unfold revStep
  rw [if_neg (by simp [h0]), h]
  dsimp only
  rw [if_neg (by simp [hf]), if_pos hlen]

lemma revStep_small (cfg : Config) (tid : String) (web : Nat → Option (List PostData))
    (lp : Option String) (st : CState) (p : Nat) (pp : List PostData)
    (h0 : st.stopped = false) (h : web p = some pp)
    (hf : (collect_posts_from_page st.db pp tid lp).found_last_post = false)
    (hlen : ¬ cfg.batch_size ≤
      (st.buffer ++ (collect_posts_from_page st.db pp tid lp).posts_list).length) :
    revStep cfg tid web lp st p =
      { st with
          buffer := st.buffer ++ (collect_posts_from_page st.db pp tid lp).posts_list,
          newest_post_id :=
            revNewest st.newest_post_id (collect_posts_from_page st.db pp tid lp).posts_list,
          trace := st.trace ++
            [Ev.fetch p true,
             Ev.pageCollect p (collect_posts_from_page st.db pp tid lp).posts_list] } := by
  unfold revStep
  rw [if_neg (by simp [h0]), h]
  dsimp only
  rw [if_neg (by simp [hf]), if_neg hlen]

lemma finalFlush_empty (tid : String) (te : Bool) (st : CState)
    (h : st.buffer.isEmpty = true) :
    finalFlush tid te st = st := by
  unfold finalFlush
  rw [if_pos h]

lemma finalFlush_ne (tid : String) (te : Bool) (st : CState)
    (h : st.buffer.isEmpty = false) :
    finalFlush tid te st =
      { st with
          db := (flushWm tid st.db st.buffer
            (if te then st.newest_post_id else st.last_crawled_post_id)).1,
          total := st.total + (flushWm tid st.db st.buffer
            (if te then st.newest_post_id else st.last_crawled_post_id)).2.1,
          trace := st.trace ++ (flushWm tid st.db st.buffer
            (if te then st.newest_post_id else st.last_crawled_post_id)).2.2 } := by
  unfold finalFlush
  rw [if_neg (by simp [h])]

lemma collect_none (cfg : Config) (db0 : DB) (url : String) (isNew : Option Bool)
    (web : Nat → Option (List PostData)) (N : Nat) (h : web 1 = none) :
    collect_thread_posts cfg db0 url isNew web N = ⟨db0, 0, [Ev.fetch 1 false]⟩ := by
  unfold collect_thread_posts
  dsimp only
  rw [h]

lemma collect_fwd (cfg : Config) (db0 : DB) (url : String) (isNew : Option Bool)
    (web : Nat → Option (List PostData)) (N : Nat) (s : List PostData)
    (h : web 1 = some s) (hte : threadExistsFlag db0 url isNew = false) :
    collect_thread_posts cfg db0 url isNew web N =
      ⟨(finalFlush (extract_thread_id url) false
          (runPages (fwdStep cfg (extract_thread_id url) web) (List.range' 1 N)
            ⟨db0, [], none, none, 0, false, [Ev.fetch 1 true]⟩)).db,
       (finalFlush (extract_thread_id url) false
          (runPages (fwdStep cfg (extract_thread_id url) web) (List.range' 1 N)
            ⟨db0, [], none, none, 0, false, [Ev.fetch 1 true]⟩)).total,
       (finalFlush (extract_thread_id url) false
          (runPages (fwdStep cfg (extract_thread_id url) web) (List.range' 1 N)
            ⟨db0, [], none, none, 0, false, [Ev.fetch 1 true]⟩)).trace⟩ := by
  unfold collect_thread_posts
  dsimp only
  rw [h, hte]
  rfl

lemma collect_rev (cfg : Config) (db0 : DB) (url : String) (isNew : Option Bool)
    (web : Nat → Option (List PostData)) (N : Nat) (s : List PostData)
    (h : web 1 = some s) (hte : threadExistsFlag db0 url isNew = true) :
    collect_thread_posts cfg db0 url isNew web N =
      ⟨(finalFlush (extract_thread_id url) true
          (runPages
            (revStep cfg (extract_thread_id url) web
              (get_last_post_id db0 (extract_thread_id url)))
            (List.range' 1 N).reverse
            ⟨db0, [], none, none, 0, false,
             [Ev.fetch 1 true,
              Ev.getWatermark (extract_thread_id url)
                (get_last_post_id db0 (extract_thread_id url))]⟩)).db,
       (finalFlush (extract_thread_id url) true
          (runPages
            (revStep cfg (extract_thread_id url) web
              (get_last_post_id db0 (extract_thread_id url)))
            (List.range' 1 N).reverse
            ⟨db0, [], none, none, 0, false,
             [Ev.fetch 1 true,
              Ev.getWatermark (extract_thread_id url)
                (get_last_post_id db0 (extract_thread_id url))]⟩)).total,
       (finalFlush (extract_thread_id url) true
          (runPages
            (revStep cfg (extract_thread_id url) web
              (get_last_post_id db0 (extract_thread_id url)))
            (List.range' 1 N).reverse
            ⟨db0, [], none, none, 0, false,
             [Ev.fetch 1 true,
              Ev.getWatermark (extract_thread_id url)
                (get_last_post_id db0 (extract_thread_id url))]⟩)).trace⟩ := by
  unfold collect_thread_posts
  dsimp only
  rw [h, hte]
  rfl


/-! Generic run lemmas. -/

lemma runPages_invariant (step : CState → Nat → CState) (P : CState → Prop)
    (hstep : ∀ st p, P st → P (step st p)) :
    ∀ ps st, P st → P (runPages step ps st) := by
  intro ps
  induction ps with
  | nil => intro st h; simpa [runPages] using h
  | cons p ps ih => intro st h; simpa [runPages] using ih _ (hstep st p h)

lemma wmTargets_append (xs ys : List Ev) :
    wmTargets (xs ++ ys) = wmTargets xs ++ wmTargets ys := by
  simp [wmTargets, List.filterMap_append]

lemma wmTargets_subset_aux {tr evs : List Ev} {tid : String}
    (h : ∀ x ∈ wmTargets tr, x = tid) (h2 : ∀ x ∈ wmTargets evs, x = tid) :
    ∀ x ∈ wmTargets (tr ++ evs), x = tid := by
  intro x hx
  rw [wmTargets_append] at hx
  rcases List.mem_append.mp hx with hx | hx
  · exact h x hx
  · exact h2 x hx

lemma wmTargets_flushWm (tid : String) (db : DB) (batch : List PostData)
    (wm : Option String) : ∀ x ∈ wmTargets (flushWm tid db batch wm).2.2, x = tid := by
  rw [flushWm_events]
  split <;> simp [wmTargets]

lemma wmTargets_fwdStep (cfg : Config) (tid : String) (web : Nat → Option (List PostData))
    (st : CState) (p : Nat) (h : ∀ x ∈ wmTargets st.trace, x = tid) :
    ∀ x ∈ wmTargets (fwdStep cfg tid web st p).trace, x = tid := by
  cases hw : web p with
  | none =>
    rw [fwdStep_none cfg tid web st p hw]
    exact wmTargets_subset_aux h (by simp [wmTargets])
  | some pp =>
    by_cases hlen : cfg.batch_size ≤
        (st.buffer ++ (collect_posts_from_page st.db pp tid none).posts_list).length
    · rw [fwdStep_flush cfg tid web st p pp hw hlen]
      dsimp only
      simp only [List.append_assoc]
      refine wmTargets_subset_aux h ?_
      intro x hx
      rw [wmTargets_append] at hx
      rcases List.mem_append.mp hx with hx | hx
      · simp [wmTargets] at hx
      · exact wmTargets_flushWm _ _ _ _ x hx
    · rw [fwdStep_small cfg tid web st p pp hw hlen]
      exact wmTargets_subset_aux h (by simp [wmTargets])

lemma wmTargets_revStep (cfg : Config) (tid : String) (web : Nat → Option (List PostData))
    (lp : Option String) (st : CState) (p : Nat) (h : ∀ x ∈ wmTargets st.trace, x = tid) :
    ∀ x ∈ wmTargets (revStep cfg tid web lp st p).trace, x = tid := by
  by_cases h0 : st.stopped = true
  · rw [revStep_stopped cfg tid web lp st p h0]; exact h
  · replace h0 : st.stopped = false := by simpa using h0
    cases hw : web p with
    | none =>
      rw [revStep_none cfg tid web lp st p h0 hw]
      exact wmTargets_subset_aux h (by simp [wmTargets])
    | some pp =>
      by_cases hf : (collect_posts_from_page st.db pp tid lp).found_last_post = true
      · rw [revStep_boundary cfg tid web lp st p pp h0 hw hf]
        exact wmTargets_subset_aux h (by simp [wmTargets])
      · replace hf : (collect_posts_from_page st.db pp tid lp).found_last_post = false := by
          simpa using hf
        by_cases hlen : cfg.batch_size ≤
            (st.buffer ++ (collect_posts_from_page st.db pp tid lp).posts_list).length
        · rw [revStep_flush cfg tid web lp st p pp h0 hw hf hlen]
          dsimp only
          simp only [List.append_assoc]
          refine wmTargets_subset_aux h ?_
          intro x hx
          rw [wmTargets_append] at hx
          rcases List.mem_append.mp hx with hx | hx
          · simp [wmTargets] at hx
          · exact wmTargets_flushWm _ _ _ _ x hx
        · rw [revStep_small cfg tid web lp st p pp h0 hw hf hlen]
          exact wmTargets_subset_aux h (by simp [wmTargets])

lemma wmTargets_finalFlush (tid : String) (te : Bool) (st : CState)
    (h : ∀ x ∈ wmTargets st.trace, x = tid) :
    ∀ x ∈ wmTargets (finalFlush tid te st).trace, x = tid := by
  by_cases hb : st.buffer.isEmpty = true
  · rw [finalFlush_empty tid te st hb]; exact h
  · replace hb : st.buffer.isEmpty = false := by simpa using hb
    rw [finalFlush_ne tid te st hb]
    dsimp only
    exact wmTargets_subset_aux h (wmTargets_flushWm _ _ _ _)

lemma wmTargets_collect (cfg : Config) (db : DB) (url : String) (isNew : Option Bool)
    (web : Nat → Option (List PostData)) (N : Nat) :
    ∀ x ∈ wmTargets (collect_thread_posts cfg db url isNew web N).trace,
      x = extract_thread_id url := by
  cases hw : web 1 with
  | none => rw [collect_none cfg db url isNew web N hw]; simp [wmTargets]
  | some s =>
    cases hte : threadExistsFlag db url isNew with
    | false =>
      rw [collect_fwd cfg db url isNew web N s hw hte]
      refine wmTargets_finalFlush _ _ _ ?_
      refine runPages_invariant _
        (fun st => ∀ x ∈ wmTargets st.trace, x = extract_thread_id url)
        (fun st p hp => wmTargets_fwdStep _ _ _ _ _ hp) _ _ ?_
      simp [wmTargets]
    | true =>
      rw [collect_rev cfg db url isNew web N s hw hte]
      refine wmTargets_finalFlush _ _ _ ?_
      refine runPages_invariant _
        (fun st => ∀ x ∈ wmTargets st.trace, x = extract_thread_id url)
        (fun st p hp => wmTargets_revStep _ _ _ _ _ _ hp) _ _ ?_
      simp [wmTargets]

lemma findDotDigits_of_no_dot_digit : ∀ cs : List Char,
    hasDotDigit cs = false → findDotDigits cs = none := by
  intro cs
  induction cs with
  | nil => intro _; rfl
  | cons c rest ih =>
    intro h
    cases rest with
    | nil =>
      simp [findDotDigits, digitRun]
    | cons b rest2 =>
      have h' := h
      simp only [hasDotDigit, Bool.or_eq_false_iff] at h'
      obtain ⟨h1, h2⟩ := h'
      have hrec := ih h2
      unfold findDotDigits
      rw [hrec]
      by_cases hc : c = '.'
      · rw [hc] at h1
        simp only [beq_self_eq_true, Bool.true_and] at h1
        simp [digitRun, h1]
      · simp [hc]



/-- Strip the watermark column from a row (for frame statements). -/
def eraseWm (t : ThreadRow) : ThreadRow := { t with last_post_id := none }

/-- C10: a container locator without any '.'-digit sequence yields the fixed sentinel
identity "unknown_thread_id"; all such locators collapse to one identity, and every
watermark read or update performed by a traversal of such a locator targets that single
shared identity. -/
theorem unknown_locator_collapse (u1 u2 : String) (cfg : Config) (db : DB)
    (isNew : Option Bool) (web : Nat → Option (List PostData)) (N : Nat)
    (h1 : hasDotDigit u1.data = false) (h2 : hasDotDigit u2.data = false) :
    extract_thread_id u1 = "unknown_thread_id" ∧
    extract_thread_id u2 = extract_thread_id u1 ∧
    ∀ x ∈ wmTargets (collect_thread_posts cfg db u1 isNew web N).trace,
      x = "unknown_thread_id" := by
  have e1 : extract_thread_id u1 = "unknown_thread_id" := by
    unfold extract_thread_id
    rw [findDotDigits_of_no_dot_digit _ h1]
  have e2 : extract_thread_id u2 = "unknown_thread_id" := by
    unfold extract_thread_id
    rw [findDotDigits_of_no_dot_digit _ h2]
  refine ⟨e1, by rw [e1, e2], ?_⟩
  have h := wmTargets_collect cfg db u1 isNew web N
  rw [e1] at h
  exact h

theorem unknown_locator_collapse_witness :
    extract_thread_id "https://f319.com/threads/abc/" = "unknown_thread_id" ∧
    extract_thread_id "https://f319.com/whats-new" =
      extract_thread_id "https://f319.com/threads/abc/" ∧
    ∀ x ∈ wmTargets (collect_thread_posts ⟨2, false, ""⟩ ⟨[], [], false⟩
        "https://f319.com/threads/abc/" (some false) (fun _ => some []) 1).trace,
      x = "unknown_thread_id" :=
  unknown_locator_collapse _ _ _ _ _ _ _ (by decide) (by decide)

lemma insertPostsGo_len : ∀ (l : List PostData) (db : DB),
    (insertPostsGo db l).1.posts.length = db.posts.length + (insertPostsGo db l).2 := by
  intro l
  induction l with
  | nil => intro db; simp [insertPostsGo]
  | cons p rest ih =>
    intro db
    unfold insertPostsGo
    split
    · exact ih db
    · dsimp only
      have h := ih { db with posts := db.posts ++ [p] }
      simp only [List.length_append, List.length_cons, List.length_nil] at h
      omega

lemma insertPostsGo_count_le : ∀ (l : List PostData) (db : DB),
    (insertPostsGo db l).2 ≤ l.length := by
  intro l
  induction l with
  | nil => intro db; simp [insertPostsGo]
  | cons p rest ih =>
    intro db
    unfold insertPostsGo
    split
    · exact Nat.le_succ_of_le (ih db)
    · dsimp only
      have h := ih { db with posts := db.posts ++ [p] }
      simp only [List.length_cons]
      omega

/-- C7: the value a flush returns is the number of rows the store actually gained (at
most, not necessarily equal to, the submitted batch size); a store failure makes the
flush return 0 with the store untouched, and a failing or unmatched watermark update
returns failure with the store untouched — all without raising. -/
theorem flush_returns_inserted_count (db : DB) (ps : List PostData) (tid pid : String) :
    ((batch_insert_posts db ps).1.posts.length
      = db.posts.length + (batch_insert_posts db ps).2) ∧
    ((batch_insert_posts db ps).2 ≤ ps.length) ∧
    (db.failing = true → batch_insert_posts db ps = (db, 0)) ∧
    (db.failing = true → update_last_post_id db tid pid = (db, false)) ∧
    (db.threads.any (fun t => t.id == tid) = false →
      update_last_post_id db tid pid = (db, false)) := by
  refine ⟨?_, ?_, ?_, ?_, ?_⟩
  · unfold batch_insert_posts
    split
    · simp
    · split
      · simp
      · exact insertPostsGo_len ps db
  · unfold batch_insert_posts
    split
    · simp
    · split
      · simp
      · exact insertPostsGo_count_le ps db
  · intro hf
    simp [batch_insert_posts, hf]
  · intro hf
    unfold update_last_post_id
    rw [if_pos hf]
  · intro hany
    unfold update_last_post_id
    split
    · rfl
    · rw [if_neg (by simp [hany])]

theorem flush_returns_inserted_count_witness :
    ((batch_insert_posts ⟨[], [⟨"a", "7", "u", "l", 0, "x"⟩], false⟩
        [⟨"a", "7", "u", "l", 0, "x"⟩, ⟨"b", "7", "u", "l", 0, "y"⟩]).1.posts.length
      = 1 + (batch_insert_posts ⟨[], [⟨"a", "7", "u", "l", 0, "x"⟩], false⟩
        [⟨"a", "7", "u", "l", 0, "x"⟩, ⟨"b", "7", "u", "l", 0, "y"⟩]).2) ∧
    (batch_insert_posts ⟨[], [⟨"a", "7", "u", "l", 0, "x"⟩], false⟩
        [⟨"a", "7", "u", "l", 0, "x"⟩, ⟨"b", "7", "u", "l", 0, "y"⟩]).2 = 1 ∧
    batch_insert_posts ⟨[], [], true⟩ [⟨"a", "7", "u", "l", 0, "x"⟩] = (⟨[], [], true⟩, 0) ∧
    update_last_post_id ⟨[], [], false⟩ "7" "a" = (⟨[], [], false⟩, false) :=
  ⟨(flush_returns_inserted_count ⟨[], [⟨"a", "7", "u", "l", 0, "x"⟩], false⟩
      [⟨"a", "7", "u", "l", 0, "x"⟩, ⟨"b", "7", "u", "l", 0, "y"⟩] "7" "a").1,
   by decide,
   (flush_returns_inserted_count ⟨[], [], true⟩ [⟨"a", "7", "u", "l", 0, "x"⟩] "7" "a").2.2.1 rfl,
   (flush_returns_inserted_count ⟨[], [], false⟩ [] "7" "a").2.2.2.2 rfl⟩

/-- C9: the container upsert is insert-if-absent — with the id already present it
returns `(db, false)` and in particular never touches the stored watermark — and the
watermark update mutates nothing but the `last_post_id` column: the post table, the
failure flag and every watermark-stripped row are unchanged, and rows whose id differs
from the target are untouched entirely. -/
theorem upsert_insert_if_absent_watermark_frame (db : DB) (d : ThreadInsert)
    (tid pid : String) (hmem : db.threads.any (fun t => t.id == d.id) = true) :
    insert_f319_list db d = (db, false) ∧
    (update_last_post_id db tid pid).1.posts = db.posts ∧
    (update_last_post_id db tid pid).1.failing = db.failing ∧
    (update_last_post_id db tid pid).1.threads.map eraseWm = db.threads.map eraseWm ∧
    (∀ (i : Nat) (t : ThreadRow), db.threads[i]? = some t → t.id ≠ tid →
      (update_last_post_id db tid pid).1.threads[i]? = some t) := by
  have hins : insert_f319_list db d = (db, false) := by
    simp [insert_f319_list, hmem]
  by_cases hfail : db.failing = true
  · have hupd : update_last_post_id db tid pid = (db, false) := by
      unfold update_last_post_id
      rw [if_pos hfail]
    exact ⟨hins, by rw [hupd], by rw [hupd], by rw [hupd],
      by intro i t ht _; rw [hupd]; exact ht⟩
  · replace hfail : db.failing = false := by simpa using hfail
    by_cases hany : db.threads.any (fun t => t.id == tid) = true
    · have hupd : (update_last_post_id db tid pid).1 =
          { db with threads := db.threads.map (setWmRow tid pid) } := by
        unfold update_last_post_id
        rw [if_neg (by simp [hfail]), if_pos hany]
      have hfun : (eraseWm ∘ setWmRow tid pid) = eraseWm := by
        funext t
        unfold Function.comp setWmRow
        by_cases hc : (t.id == tid) = true
        · rw [if_pos hc]; rfl
        · rw [if_neg (by simpa using hc)]
      refine ⟨hins, by rw [hupd], by rw [hupd], ?_, ?_⟩
      · rw [hupd]
        dsimp only
        rw [List.map_map, hfun]
      · intro i t ht hne
        rw [hupd]
        dsimp only
        rw [List.getElem?_map, ht]
        have hc : (t.id == tid) = false := by simpa using hne
        simp [setWmRow, hc]
    · have hupd : update_last_post_id db tid pid = (db, false) := by
        unfold update_last_post_id
        rw [if_neg (by simp [hfail]), if_neg (by simpa using hany)]
      exact ⟨hins, by rw [hupd], by rw [hupd], by rw [hupd],
        by intro i t ht _; rw [hupd]; exact ht⟩

theorem upsert_insert_if_absent_watermark_frame_witness :
    insert_f319_list
      ⟨[⟨"7", "t", "a", "d", "d", "L", "v", "r", some "p1"⟩], [], false⟩
      ⟨"7", "t2", "a2", "d2", "d2", "L2", "v2", "r2"⟩ =
      (⟨[⟨"7", "t", "a", "d", "d", "L", "v", "r", some "p1"⟩], [], false⟩, false) ∧
    (update_last_post_id
      ⟨[⟨"7", "t", "a", "d", "d", "L", "v", "r", some "p1"⟩], [], false⟩ "7" "p2").1.threads.map eraseWm =
      [⟨"7", "t", "a", "d", "d", "L", "v", "r", some "p1"⟩].map eraseWm :=
  ⟨(upsert_insert_if_absent_watermark_frame
      ⟨[⟨"7", "t", "a", "d", "d", "L", "v", "r", some "p1"⟩], [], false⟩
      ⟨"7", "t2", "a2", "d2", "d2", "L2", "v2", "r2"⟩ "7" "p2" (by decide)).1,
   (upsert_insert_if_absent_watermark_frame
      ⟨[⟨"7", "t", "a", "d", "d", "L", "v", "r", some "p1"⟩], [], false⟩
      ⟨"7", "t2", "a2", "d2", "d2", "L2", "v2", "r2"⟩ "7" "p2" (by decide)).2.2.2.1⟩



lemma runAccepted_links (cfg : Config) (web : String → Nat → Option (List PostData))
    (totN : String → Nat) :
    ∀ (ts : List ThreadData) (db : DB) (tot : Nat) (links : List String),
      (runAccepted cfg web totN ts db tot links).2.2 = links ++ ts.map (fun u => u.link) := by
  intro ts
  induction ts with
  | nil => intro db tot links; simp [runAccepted]
  | cons t ts ih =>
    intro db tot links
    unfold runAccepted
    rw [ih]
    simp

/-- C8: the creation-date filter fails open and scopes all processing — with the filter
disabled every candidate passes; an unparsable creation date passes; with both dates
parsed the candidate passes iff its creation datetime is on or after the cutoff; the
processed locators are exactly those of the accepted candidates, so an excluded
candidate (unique by locator) is never processed and causes no store writes. -/
theorem date_filter_fail_open (cfg : Config) (db : DB)
    (web : String → Nat → Option (List PostData)) (totN : String → Nat)
    (cands : List ThreadData) (t : ThreadData) :
    (cfg.enable_thread_date_filter = false →
      is_thread_after_start_date cfg t.start_date = true) ∧
    (parse_thread_date t.start_date = none →
      is_thread_after_start_date cfg t.start_date = true) ∧
    (∀ dt sdt, parse_thread_date t.start_date = some dt →
      parse_start_date cfg.thread_start_date = some sdt →
      cfg.enable_thread_date_filter = true →
      is_thread_after_start_date cfg t.start_date = dtLe sdt dt) ∧
    ((collect_today_threads cfg db web totN cands).2.2 =
      (threads_to_crawl cfg cands).map (fun u => u.link)) ∧
    (t ∈ cands →
      (!(t.link == "NA") && is_thread_after_start_date cfg t.start_date) = false →
      (∀ u ∈ cands, u.link = t.link → u = t) →
      t.link ∉ (collect_today_threads cfg db web totN cands).2.2) := by
  have h4 : (collect_today_threads cfg db web totN cands).2.2 =
      (threads_to_crawl cfg cands).map (fun u => u.link) := by
    unfold collect_today_threads
    rw [runAccepted_links]
    simp
  refine ⟨?_, ?_, ?_, h4, ?_⟩
  · intro h
    simp [is_thread_after_start_date, h]
  · intro h
    simp [is_thread_after_start_date, h]
  · intro dt sdt h1 h2 he
    simp [is_thread_after_start_date, he, h1, h2]
  · intro hmem hpred huniq hin
    rw [h4] at hin
    obtain ⟨u, hu, hul⟩ := List.mem_map.mp hin
    have hu' := List.mem_filter.mp hu
    have : u = t := huniq u hu'.1 hul
    rw [this] at hu'
    rw [hpred] at hu'
    exact absurd hu'.2 (by simp)

theorem date_filter_fail_open_witness :
    is_thread_after_start_date ⟨100, true, "01/01/2025"⟩ "31/12/2024" = false ∧
    is_thread_after_start_date ⟨100, true, "01/01/2025"⟩ "02/01/2025" = true ∧
    parse_thread_date "someday" = none ∧
    is_thread_after_start_date ⟨100, true, "01/01/2025"⟩ "someday" = true ∧
    "L1" ∉ (collect_today_threads ⟨100, true, "01/01/2025"⟩ ⟨[], [], false⟩
      (fun _ _ => none) (fun _ => 1)
      [⟨"thread-1", "o", "a", "31/12/2024", "d", "L1", "v", "r"⟩,
       ⟨"thread-2", "n", "a", "02/01/2025", "d", "L2", "v", "r"⟩,
       ⟨"thread-3", "b", "a", "someday", "d", "L3", "v", "r"⟩]).2.2 ∧
    (collect_today_threads ⟨100, true, "01/01/2025"⟩ ⟨[], [], false⟩
      (fun _ _ => none) (fun _ => 1)
      [⟨"thread-1", "o", "a", "31/12/2024", "d", "L1", "v", "r"⟩,
       ⟨"thread-2", "n", "a", "02/01/2025", "d", "L2", "v", "r"⟩,
       ⟨"thread-3", "b", "a", "someday", "d", "L3", "v", "r"⟩]).2.2 = ["L2", "L3"] := by
  refine ⟨by decide, by decide, by decide, ?_, ?_, by decide⟩
  · exact (date_filter_fail_open ⟨100, true, "01/01/2025"⟩ ⟨[], [], false⟩
      (fun _ _ => none) (fun _ => 1) []
      ⟨"thread-3", "b", "a", "someday", "d", "L3", "v", "r"⟩).2.1 (by decide)
  · exact (date_filter_fail_open ⟨100, true, "01/01/2025"⟩ ⟨[], [], false⟩
      (fun _ _ => none) (fun _ => 1)
      [⟨"thread-1", "o", "a", "31/12/2024", "d", "L1", "v", "r"⟩,
       ⟨"thread-2", "n", "a", "02/01/2025", "d", "L2", "v", "r"⟩,
       ⟨"thread-3", "b", "a", "someday", "d", "L3", "v", "r"⟩]
      ⟨"thread-1", "o", "a", "31/12/2024", "d", "L1", "v", "r"⟩).2.2.2.2
      (by decide) (by decide) (by decide)



lemma fetchPages_append (xs ys : List Ev) :
    fetchPages (xs ++ ys) = fetchPages xs ++ fetchPages ys := by
  simp [fetchPages, List.filterMap_append]

lemma fetchPages_flushWm (tid : String) (db : DB) (batch : List PostData)
    (wm : Option String) : fetchPages (flushWm tid db batch wm).2.2 = [] := by
  rw [flushWm_events]
  split <;> simp [fetchPages]

lemma fetchPages_fwdStep (cfg : Config) (tid : String) (web : Nat → Option (List PostData))
    (st : CState) (p : Nat) :
    fetchPages (fwdStep cfg tid web st p).trace = fetchPages st.trace ++ [p] := by
  cases hw : web p with
  | none =>
    rw [fwdStep_none cfg tid web st p hw]
    simp [fetchPages_append, fetchPages]
  | some pp =>
    by_cases hlen : cfg.batch_size ≤
        (st.buffer ++ (collect_posts_from_page st.db pp tid none).posts_list).length
    · rw [fwdStep_flush cfg tid web st p pp hw hlen]
      dsimp only
      rw [fetchPages_append, fetchPages_append, fetchPages_flushWm]
      simp [fetchPages]
    · rw [fwdStep_small cfg tid web st p pp hw hlen]
      simp [fetchPages_append, fetchPages]

lemma fetchPages_revStep (cfg : Config) (tid : String) (web : Nat → Option (List PostData))
    (lp : Option String) (st : CState) (p : Nat) (h0 : st.stopped = false) :
    fetchPages (revStep cfg tid web lp st p).trace = fetchPages st.trace ++ [p] := by
  cases hw : web p with
  | none =>
    rw [revStep_none cfg tid web lp st p h0 hw]
    simp [fetchPages_append, fetchPages]
  | some pp =>
    by_cases hf : (collect_posts_from_page st.db pp tid lp).found_last_post = true
    · rw [revStep_boundary cfg tid web lp st p pp h0 hw hf]
      simp [fetchPages_append, fetchPages]
    · replace hf : (collect_posts_from_page st.db pp tid lp).found_last_post = false := by
        simpa using hf
      by_cases hlen : cfg.batch_size ≤
          (st.buffer ++ (collect_posts_from_page st.db pp tid lp).posts_list).length
      · rw [revStep_flush cfg tid web lp st p pp h0 hw hf hlen]
        dsimp only
        rw [fetchPages_append, fetchPages_append, fetchPages_flushWm]
        simp [fetchPages]
      · rw [revStep_small cfg tid web lp st p pp h0 hw hf hlen]
        simp [fetchPages_append, fetchPages]

lemma fetchPages_finalFlush (tid : String) (te : Bool) (st : CState) :
    fetchPages (finalFlush tid te st).trace = fetchPages st.trace := by
  by_cases hb : st.buffer.isEmpty = true
  · rw [finalFlush_empty tid te st hb]
  · replace hb : st.buffer.isEmpty = false := by simpa using hb
    rw [finalFlush_ne tid te st hb]
    dsimp only
    rw [fetchPages_append, fetchPages_flushWm, List.append_nil]

lemma fetchPages_runPages_fwd (cfg : Config) (tid : String)
    (web : Nat → Option (List PostData)) :
    ∀ (ps : List Nat) (st : CState),
      fetchPages (runPages (fwdStep cfg tid web) ps st).trace = fetchPages st.trace ++ ps := by
  intro ps
  induction ps with
  | nil => intro st; simp [runPages]
  | cons p ps ih =>
    intro st
    unfold runPages
    rw [ih, fetchPages_fwdStep]
    simp

lemma runPages_rev_stopped (cfg : Config) (tid : String)
    (web : Nat → Option (List PostData)) (lp : Option String) :
    ∀ (ps : List Nat) (st : CState), st.stopped = true →
      runPages (revStep cfg tid web lp) ps st = st := by
  intro ps
  induction ps with
  | nil => intro st _; rfl
  | cons p ps ih =>
    intro st h
    unfold runPages
    rw [revStep_stopped cfg tid web lp st p h, ih st h]

lemma fetchPages_runPages_rev (cfg : Config) (tid : String)
    (web : Nat → Option (List PostData)) (lp : Option String) :
    ∀ (ps : List Nat) (st : CState), st.stopped = false →
      ∃ l1 l2, ps = l1 ++ l2 ∧
        fetchPages (runPages (revStep cfg tid web lp) ps st).trace
          = fetchPages st.trace ++ l1 := by
  intro ps
  induction ps with
  | nil => intro st _; exact ⟨[], [], rfl, by simp [runPages]⟩
  | cons p ps ih =>
    intro st h0
    have hstep := fetchPages_revStep cfg tid web lp st p h0
    cases hstop : (revStep cfg tid web lp st p).stopped with
    | true =>
      refine ⟨[p], ps, rfl, ?_⟩
      unfold runPages
      rw [runPages_rev_stopped cfg tid web lp ps _ hstop, hstep]
    | false =>
      obtain ⟨l1, l2, heq, hfp⟩ := ih (revStep cfg tid web lp st p) hstop
      refine ⟨p :: l1, l2, by rw [heq]; rfl, ?_⟩
      unfold runPages
      rw [hfp, hstep]
      simp

/-- C4 (amended): the traversal direction is selected by container-record existence
(`thread_exists_by_link`, or the caller-provided `is_new_thread` flag), not by
watermark presence.  After the initial fetch of the bare locator (page 1, used for the
page count), a first-seen container is fetched forward over pages `1..N` in increasing
order, and a known container is fetched in decreasing order starting at page `N`,
possibly stopping early at the boundary. -/
theorem direction_by_container_record (cfg : Config) (db0 : DB) (url : String)
    (isNew : Option Bool) (web : Nat → Option (List PostData)) (N : Nat)
    (s : List PostData) (h : web 1 = some s) :
    (threadExistsFlag db0 url isNew = false →
      fetchPages (collect_thread_posts cfg db0 url isNew web N).trace
        = 1 :: List.range' 1 N) ∧
    (threadExistsFlag db0 url isNew = true →
      ∃ l1 l2, (List.range' 1 N).reverse = l1 ++ l2 ∧
        fetchPages (collect_thread_posts cfg db0 url isNew web N).trace = 1 :: l1) := by
  constructor
  · intro hte
    rw [collect_fwd cfg db0 url isNew web N s h hte]
    rw [fetchPages_finalFlush, fetchPages_runPages_fwd]
    simp [fetchPages]
  · intro hte
    rw [collect_rev cfg db0 url isNew web N s h hte]
    obtain ⟨l1, l2, heq, hfp⟩ := fetchPages_runPages_rev cfg (extract_thread_id url) web
      (get_last_post_id db0 (extract_thread_id url)) (List.range' 1 N).reverse
      ⟨db0, [], none, none, 0, false,
       [Ev.fetch 1 true,
        Ev.getWatermark (extract_thread_id url)
          (get_last_post_id db0 (extract_thread_id url))]⟩ rfl
    refine ⟨l1, l2, heq, ?_⟩
    rw [fetchPages_finalFlush, hfp]
    simp [fetchPages]

/-- Refutation of C4 as stated: a container whose stored watermark is absent (the row
exists with NULL `last_post_id`) is nevertheless traversed in reverse — the loop
fetches page 2 before page 1 — because direction is keyed on row existence. -/
theorem direction_by_watermark_counterexample :
    get_last_post_id
      ⟨[⟨"7", "t", "a", "d", "d", "https://f319.com/threads/x.7/", "v", "r", none⟩],
       [], false⟩
      (extract_thread_id "https://f319.com/threads/x.7/") = none ∧
    fetchPages (collect_thread_posts ⟨100, false, ""⟩
      ⟨[⟨"7", "t", "a", "d", "d", "https://f319.com/threads/x.7/", "v", "r", none⟩],
       [], false⟩
      "https://f319.com/threads/x.7/" none (fun _ => some []) 2).trace = [1, 2, 1] ∧
    [1, 2, 1] ≠ 1 :: List.range' 1 2 := by
  refine ⟨by decide, by decide, by decide⟩

theorem direction_by_container_record_witness :
    (fetchPages (collect_thread_posts ⟨100, false, ""⟩ ⟨[], [], false⟩
      "https://f319.com/threads/x.7/" (some true) (fun _ => some []) 3).trace
        = 1 :: List.range' 1 3) ∧
    (∃ l1 l2, (List.range' 1 3).reverse = l1 ++ l2 ∧
      fetchPages (collect_thread_posts ⟨100, false, ""⟩ ⟨[], [], false⟩
        "https://f319.com/threads/x.7/" (some false) (fun _ => some []) 3).trace
          = 1 :: l1) :=
  ⟨(direction_by_container_record ⟨100, false, ""⟩ ⟨[], [],  false⟩
      "https://f319.com/threads/x.7/" (some true) (fun _ => some []) 3 [] rfl).1 rfl,
   (direction_by_container_record ⟨100, false, ""⟩ ⟨[], [], false⟩
      "https://f319.com/threads/x.7/" (some false) (fun _ => some []) 3 [] rfl).2 rfl⟩



/-- All items submitted to the store by flushes, in submission order. -/
def flushedItems (tr : List Ev) : List PostData := (flushBatches tr).flatten

/-- All items collected from pages, in collection order. -/
def collectedItems (tr : List Ev) : List PostData := (collectLists tr).flatten

lemma flushBatches_append (xs ys : List Ev) :
    flushBatches (xs ++ ys) = flushBatches xs ++ flushBatches ys := by
  simp [flushBatches, List.filterMap_append]

lemma collectLists_append (xs ys : List Ev) :
    collectLists (xs ++ ys) = collectLists xs ++ collectLists ys := by
  simp [collectLists, List.filterMap_append]

lemma flushBatches_flushWm (tid : String) (db : DB) (batch : List PostData)
    (wm : Option String) : flushBatches (flushWm tid db batch wm).2.2 = [batch] := by
  rw [flushWm_events]
  split <;> simp [flushBatches]

lemma collectLists_flushWm (tid : String) (db : DB) (batch : List PostData)
    (wm : Option String) : collectLists (flushWm tid db batch wm).2.2 = [] := by
  rw [flushWm_events]
  split <;> simp [collectLists]

lemma flushedItems_append (xs ys : List Ev) :
    flushedItems (xs ++ ys) = flushedItems xs ++ flushedItems ys := by
  simp [flushedItems, flushBatches_append]

lemma collectedItems_append (xs ys : List Ev) :
    collectedItems (xs ++ ys) = collectedItems xs ++ collectedItems ys := by
  simp [collectedItems, collectLists_append]

lemma flushedItems_fetchFail (p : Nat) : flushedItems [Ev.fetch p false] = [] := rfl

lemma collectedItems_fetchFail (p : Nat) : collectedItems [Ev.fetch p false] = [] := rfl

lemma flushedItems_pageBlock (p : Nat) (c : List PostData) :
    flushedItems [Ev.fetch p true, Ev.pageCollect p c] = [] := rfl

lemma collectedItems_pageBlock (p : Nat) (c : List PostData) :
    collectedItems [Ev.fetch p true, Ev.pageCollect p c] = c := by
  simp [collectedItems, collectLists]

lemma flushedItems_flushWm (tid : String) (db : DB) (batch : List PostData)
    (wm : Option String) : flushedItems (flushWm tid db batch wm).2.2 = batch := by
  unfold flushedItems
  rw [flushBatches_flushWm]
  simp

lemma collectedItems_flushWm (tid : String) (db : DB) (batch : List PostData)
    (wm : Option String) : collectedItems (flushWm tid db batch wm).2.2 = [] := by
  unfold collectedItems
  rw [collectLists_flushWm]
  rfl

lemma collectGo_sublist (db : DB) (lp : Option String) :
    ∀ (l acc : List PostData) (old : Nat),
      ∃ s, (collectGo db lp l acc old).posts_list = acc ++ s ∧ s.Sublist l := by
  intro l
  induction l with
  | nil => intro acc old; exact ⟨[], by simp [collectGo], List.nil_sublist []⟩
  | cons p rest ih =>
    intro acc old
    unfold collectGo
    by_cases h1 : contentNonempty p = true
    · rw [if_pos h1]
      by_cases h2 : isBoundary lp p.id = true
      · rw [if_pos h2]
        exact ⟨[], by simp, List.nil_sublist _⟩
      · rw [if_neg h2]
        by_cases h3 : post_exists db p.id = true
        · rw [if_pos h3]
          obtain ⟨s, hs, hsub⟩ := ih acc (old + 1)
          exact ⟨s, hs, hsub.cons p⟩
        · rw [if_neg h3]
          obtain ⟨s, hs, hsub⟩ := ih (acc ++ [p]) 0
          refine ⟨p :: s, ?_, hsub.cons₂ p⟩
          rw [hs]
          simp
    · rw [if_neg h1]
      obtain ⟨s, hs, hsub⟩ := ih acc old
      exact ⟨s, hs, hsub.cons p⟩

lemma collect_page_sublist (db : DB) (page : List PostData) (tid : String)
    (lp : Option String) :
    (collect_posts_from_page db page tid lp).posts_list.Sublist
      ((page.map (stampThread tid)).reverse) := by
  obtain ⟨s, hs, hsub⟩ := collectGo_sublist db lp ((page.map (stampThread tid)).reverse) [] 0
  unfold collect_posts_from_page
  rw [hs]
  simpa using hsub

lemma buffer_join_fwdStep (cfg : Config) (tid : String)
    (web : Nat → Option (List PostData)) (st : CState) (p : Nat)
    (h : flushedItems st.trace ++ st.buffer = collectedItems st.trace) :
    flushedItems (fwdStep cfg tid web st p).trace ++ (fwdStep cfg tid web st p).buffer
      = collectedItems (fwdStep cfg tid web st p).trace := by
  cases hw : web p with
  | none =>
    rw [fwdStep_none cfg tid web st p hw]
    dsimp only
    rw [flushedItems_append, collectedItems_append, flushedItems_fetchFail,
      collectedItems_fetchFail]
    simpa using h
  | some pp =>
    by_cases hlen : cfg.batch_size ≤
        (st.buffer ++ (collect_posts_from_page st.db pp tid none).posts_list).length
    · rw [fwdStep_flush cfg tid web st p pp hw hlen]
      dsimp only
      rw [flushedItems_append, flushedItems_append, collectedItems_append,
        collectedItems_append, flushedItems_pageBlock, collectedItems_pageBlock,
        flushedItems_flushWm, collectedItems_flushWm]
      simp only [List.append_nil, List.nil_append, List.append_assoc,
        List.take_append_drop]
      rw [← List.append_assoc, h]
    · rw [fwdStep_small cfg tid web st p pp hw hlen]
      dsimp only
      rw [flushedItems_append, collectedItems_append, flushedItems_pageBlock,
        collectedItems_pageBlock]
      simp only [List.append_nil, List.append_assoc]
      rw [← List.append_assoc, h]

lemma buffer_join_revStep (cfg : Config) (tid : String)
    (web : Nat → Option (List PostData)) (lp : Option String) (st : CState) (p : Nat)
    (h : flushedItems st.trace ++ st.buffer = collectedItems st.trace) :
    flushedItems (revStep cfg tid web lp st p).trace ++ (revStep cfg tid web lp st p).buffer
      = collectedItems (revStep cfg tid web lp st p).trace := by
  by_cases h0 : st.stopped = true
  · rw [revStep_stopped cfg tid web lp st p h0]
    exact h
  · replace h0 : st.stopped = false := by simpa using h0
    cases hw : web p with
    | none =>
      rw [revStep_none cfg tid web lp st p h0 hw]
      dsimp only
      rw [flushedItems_append, collectedItems_append, flushedItems_fetchFail,
        collectedItems_fetchFail]
      simpa using h
    | some pp =>
      by_cases hf : (collect_posts_from_page st.db pp tid lp).found_last_post = true
      · rw [revStep_boundary cfg tid web lp st p pp h0 hw hf]
        dsimp only
        rw [flushedItems_append, collectedItems_append, flushedItems_pageBlock,
          collectedItems_pageBlock]
        simp only [List.append_nil, List.append_assoc]
        rw [← List.append_assoc, h]
      · replace hf : (collect_posts_from_page st.db pp tid lp).found_last_post = false := by
          simpa using hf
        by_cases hlen : cfg.batch_size ≤
            (st.buffer ++ (collect_posts_from_page st.db pp tid lp).posts_list).length
        · rw [revStep_flush cfg tid web lp st p pp h0 hw hf hlen]
          dsimp only
          rw [flushedItems_append, flushedItems_append, collectedItems_append,
            collectedItems_append, flushedItems_pageBlock, collectedItems_pageBlock,
            flushedItems_flushWm, collectedItems_flushWm]
          simp only [List.append_nil, List.nil_append, List.append_assoc,
            List.take_append_drop]
          rw [← List.append_assoc, h]
        · rw [revStep_small cfg tid web lp st p pp h0 hw hf hlen]
          dsimp only
          rw [flushedItems_append, collectedItems_append, flushedItems_pageBlock,
            collectedItems_pageBlock]
          simp only [List.append_nil, List.append_assoc]
          rw [← List.append_assoc, h]

lemma buffer_join_finalFlush (tid : String) (te : Bool) (st : CState)
    (h : flushedItems st.trace ++ st.buffer = collectedItems st.trace) :
    flushedItems (finalFlush tid te st).trace
      = collectedItems (finalFlush tid te st).trace := by
  by_cases hb : st.buffer.isEmpty = true
  · rw [finalFlush_empty tid te st hb]
    have hnil : st.buffer = [] := by simpa [List.isEmpty_iff] using hb
    rw [hnil] at h
    simpa using h
  · replace hb : st.buffer.isEmpty = false := by simpa using hb
    rw [finalFlush_ne tid te st hb]
    dsimp only
    rw [flushedItems_append, collectedItems_append, flushedItems_flushWm,
      collectedItems_flushWm]
    rw [h]
    simp

/-- Every page-collection event of a trace holds a sublist of the reversed, stamped
post list of the page the source served. -/
def pageSublistOK (tid : String) (web : Nat → Option (List PostData)) (tr : List Ev) : Prop :=
  ∀ p c, Ev.pageCollect p c ∈ tr → ∃ pp, web p = some pp ∧
    c.Sublist ((pp.map (stampThread tid)).reverse)

lemma pageSublistOK_append {tid : String} {web : Nat → Option (List PostData)}
    {tr evs : List Ev} (h1 : pageSublistOK tid web tr) (h2 : pageSublistOK tid web evs) :
    pageSublistOK tid web (tr ++ evs) := by
  intro p c hmem
  rcases List.mem_append.mp hmem with hm | hm
  · exact h1 p c hm
  · exact h2 p c hm

lemma pageSublistOK_flushWm (tid0 tid : String) (web : Nat → Option (List PostData))
    (db : DB) (batch : List PostData) (wm : Option String) :
    pageSublistOK tid0 web (flushWm tid db batch wm).2.2 := by
  intro p c hmem
  rw [flushWm_events] at hmem
  split at hmem <;> simp at hmem

lemma pageSublistOK_block {tid : String} {web : Nat → Option (List PostData)}
    {p : Nat} {pp : List PostData} (hw : web p = some pp) (db : DB) (lp : Option String) :
    pageSublistOK tid web
      [Ev.fetch p true, Ev.pageCollect p (collect_posts_from_page db pp tid lp).posts_list] := by
  intro q c hmem
  simp only [List.mem_cons, List.mem_singleton, List.not_mem_nil, or_false] at hmem
  rcases hmem with hm | hm
  · exact absurd hm (by simp)
  · obtain ⟨hq, hc⟩ := Ev.pageCollect.inj hm
    subst hq
    exact ⟨pp, hw, hc ▸ collect_page_sublist db pp tid lp⟩

lemma pageSublistOK_fwdStep (cfg : Config) (tid : String)
    (web : Nat → Option (List PostData)) (st : CState) (p : Nat)
    (h : pageSublistOK tid web st.trace) :
    pageSublistOK tid web (fwdStep cfg tid web st p).trace := by
  cases hw : web p with
  | none =>
    rw [fwdStep_none cfg tid web st p hw]
    exact pageSublistOK_append h (by intro q c hm; simp at hm)
  | some pp =>
    by_cases hlen : cfg.batch_size ≤
        (st.buffer ++ (collect_posts_from_page st.db pp tid none).posts_list).length
    · rw [fwdStep_flush cfg tid web st p pp hw hlen]
      dsimp only
      simp only [List.append_assoc]
      refine pageSublistOK_append h (pageSublistOK_append ?_ ?_)
      · exact pageSublistOK_block hw st.db none
      · exact pageSublistOK_flushWm tid tid web st.db _ _
    · rw [fwdStep_small cfg tid web st p pp hw hlen]
      exact pageSublistOK_append h (pageSublistOK_block hw st.db none)

lemma pageSublistOK_revStep (cfg : Config) (tid : String)
    (web : Nat → Option (List PostData)) (lp : Option String) (st : CState) (p : Nat)
    (h : pageSublistOK tid web st.trace) :
    pageSublistOK tid web (revStep cfg tid web lp st p).trace := by
  by_cases h0 : st.stopped = true
  · rw [revStep_stopped cfg tid web lp st p h0]; exact h
  · replace h0 : st.stopped = false := by simpa using h0
    cases hw : web p with
    | none =>
      rw [revStep_none cfg tid web lp st p h0 hw]
      exact pageSublistOK_append h (by intro q c hm; simp at hm)
    | some pp =>
      by_cases hf : (collect_posts_from_page st.db pp tid lp).found_last_post = true
      · rw [revStep_boundary cfg tid web lp st p pp h0 hw hf]
        exact pageSublistOK_append h (pageSublistOK_block hw st.db lp)
      · replace hf : (collect_posts_from_page st.db pp tid lp).found_last_post = false := by
          simpa using hf
        by_cases hlen : cfg.batch_size ≤
            (st.buffer ++ (collect_posts_from_page st.db pp tid lp).posts_list).length
        · rw [revStep_flush cfg tid web lp st p pp h0 hw hf hlen]
          dsimp only
          simp only [List.append_assoc]
          refine pageSublistOK_append h (pageSublistOK_append ?_ ?_)
          · exact pageSublistOK_block hw st.db lp
          · exact pageSublistOK_flushWm tid tid web st.db _ _
        · rw [revStep_small cfg tid web lp st p pp h0 hw hf hlen]
          exact pageSublistOK_append h (pageSublistOK_block hw st.db lp)

lemma pageSublistOK_finalFlush (tid0 tid : String) (web : Nat → Option (List PostData))
    (te : Bool) (st : CState) (h : pageSublistOK tid0 web st.trace) :
    pageSublistOK tid0 web (finalFlush tid te st).trace := by
  by_cases hb : st.buffer.isEmpty = true
  · rw [finalFlush_empty tid te st hb]; exact h
  · replace hb : st.buffer.isEmpty = false := by simpa using hb
    rw [finalFlush_ne tid te st hb]
    dsimp only
    exact pageSublistOK_append h (pageSublistOK_flushWm tid0 tid web st.db _ _)

/-- C6 (amended): in a forward traversal the items of each fetched page are collected in
the REVERSE of their on-page order (the explicit reversal at line 303) — each collected
page list is a sublist of the reversed stamped page — and buffering is append-only: the
concatenation of all flushed batches equals the concatenation of the per-page collected
lists in collection order.  The buffer is therefore newest-first within each page, not
in natural chronological order. -/
theorem forward_buffer_reversed_pages (cfg : Config) (db0 : DB) (url : String)
    (isNew : Option Bool) (web : Nat → Option (List PostData)) (N : Nat)
    (s : List PostData) (h : web 1 = some s)
    (hte : threadExistsFlag db0 url isNew = false) :
    flushedItems (collect_thread_posts cfg db0 url isNew web N).trace
      = collectedItems (collect_thread_posts cfg db0 url isNew web N).trace ∧
    ∀ p c, Ev.pageCollect p c ∈ (collect_thread_posts cfg db0 url isNew web N).trace →
      ∃ pp, web p = some pp ∧
        c.Sublist ((pp.map (stampThread (extract_thread_id url))).reverse) := by
  rw [collect_fwd cfg db0 url isNew web N s h hte]
  constructor
  · apply buffer_join_finalFlush
    refine runPages_invariant _
      (fun st => flushedItems st.trace ++ st.buffer = collectedItems st.trace)
      (fun st p hp => buffer_join_fwdStep cfg (extract_thread_id url) web st p hp) _ _ ?_
    rfl
  · apply pageSublistOK_finalFlush
    refine runPages_invariant _
      (fun st => pageSublistOK (extract_thread_id url) web st.trace)
      (fun st p hp => pageSublistOK_fwdStep cfg (extract_thread_id url) web st p hp) _ _ ?_
    intro q c hm
    simp at hm

theorem forward_buffer_reversed_pages_witness :
    flushedItems (collect_thread_posts ⟨2, false, ""⟩ ⟨[], [], false⟩
      "https://f319.com/threads/x.7/" (some true)
      (fun p => if p = 1 then some [⟨"a", "7", "u", "l", 0, "x"⟩, ⟨"b", "7", "u", "l", 0, "y"⟩]
        else none) 1).trace
    = collectedItems (collect_thread_posts ⟨2, false, ""⟩ ⟨[], [], false⟩
      "https://f319.com/threads/x.7/" (some true)
      (fun p => if p = 1 then some [⟨"a", "7", "u", "l", 0, "x"⟩, ⟨"b", "7", "u", "l", 0, "y"⟩]
        else none) 1).trace :=
  (forward_buffer_reversed_pages ⟨2, false, ""⟩ ⟨[], [], false⟩
    "https://f319.com/threads/x.7/" (some true)
    (fun p => if p = 1 then some [⟨"a", "7", "u", "l", 0, "x"⟩, ⟨"b", "7", "u", "l", 0, "y"⟩]
      else none) 1 _ rfl rfl).1

/-- Refutation of C6 as stated: a forward traversal of a single page whose on-page
(chronological) order is [a, b] buffers and flushes [b, a] — the reverse of the on-page
order, not the natural chronological order. -/
theorem forward_chronological_counterexample :
    flushedItems (collect_thread_posts ⟨2, false, ""⟩ ⟨[], [], false⟩
      "https://f319.com/threads/x.7/" (some true)
      (fun p => if p = 1 then some [⟨"a", "7", "u", "l", 0, "x"⟩, ⟨"b", "7", "u", "l", 0, "y"⟩]
        else none) 1).trace
      = [⟨"b", "7", "u", "l", 0, "y"⟩, ⟨"a", "7", "u", "l", 0, "x"⟩] ∧
    ([⟨"b", "7", "u", "l", 0, "y"⟩, ⟨"a", "7", "u", "l", 0, "x"⟩] : List PostData)
      ≠ [⟨"a", "7", "u", "l", 0, "x"⟩, ⟨"b", "7", "u", "l", 0, "y"⟩] := by
  refine ⟨by decide, by decide⟩



/-- Recompute, from the observable trace alone, the forward-mode tracked id: the head id
of the most recent page-collection that collected anything. -/
def fwdWmTrack : Option String → List Ev → Option String
  | cur, [] => cur
  | cur, Ev.pageCollect _ c :: rest => fwdWmTrack (headIdOr c cur) rest
  | cur, _ :: rest => fwdWmTrack cur rest

/-- Check, against that recomputation, that every watermark value written in the trace
equals the head id of the most recent nonempty page-collection before it. -/
def fwdWmCheck : Option String → List Ev → Bool
  | _, [] => true
  | cur, Ev.pageCollect _ c :: rest => fwdWmCheck (headIdOr c cur) rest
  | cur, Ev.setWatermark _ pid _ :: rest => (cur == some pid) && fwdWmCheck cur rest
  | cur, _ :: rest => fwdWmCheck cur rest

/-- Recompute the reverse-mode tracked id: the head id of the FIRST page-collection that
collected anything (with Python truthiness — an empty-string id does not lock it). -/
def revWmTrack : Option String → List Ev → Option String
  | cur, [] => cur
  | cur, Ev.pageCollect _ c :: rest => revWmTrack (revNewest cur c) rest
  | cur, _ :: rest => revWmTrack cur rest

/-- Check that every watermark value written equals that single reverse-mode id. -/
def revWmCheck : Option String → List Ev → Bool
  | _, [] => true
  | cur, Ev.pageCollect _ c :: rest => revWmCheck (revNewest cur c) rest
  | cur, Ev.setWatermark _ pid _ :: rest => (cur == some pid) && revWmCheck cur rest
  | cur, _ :: rest => revWmCheck cur rest

/-- All elements of the list are equal. -/
def allEqList : List String → Bool
  | [] => true
  | x :: xs => xs.all (fun y => y == x)

lemma fwdWmTrack_append : ∀ (xs ys : List Ev) (cur : Option String),
    fwdWmTrack cur (xs ++ ys) = fwdWmTrack (fwdWmTrack cur xs) ys := by
  intro xs
  induction xs with
  | nil => intro ys cur; rfl
  | cons e rest ih => intro ys cur; cases e <;> simp [fwdWmTrack, ih]

lemma fwdWmCheck_append : ∀ (xs ys : List Ev) (cur : Option String),
    fwdWmCheck cur (xs ++ ys)
      = (fwdWmCheck cur xs && fwdWmCheck (fwdWmTrack cur xs) ys) := by
  intro xs
  induction xs with
  | nil => intro ys cur; simp [fwdWmCheck, fwdWmTrack]
  | cons e rest ih =>
    intro ys cur
    cases e <;> simp [fwdWmCheck, fwdWmTrack, ih, Bool.and_assoc]

lemma revWmTrack_append : ∀ (xs ys : List Ev) (cur : Option String),
    revWmTrack cur (xs ++ ys) = revWmTrack (revWmTrack cur xs) ys := by
  intro xs
  induction xs with
  | nil => intro ys cur; rfl
  | cons e rest ih => intro ys cur; cases e <;> simp [revWmTrack, ih]

lemma revWmCheck_append : ∀ (xs ys : List Ev) (cur : Option String),
    revWmCheck cur (xs ++ ys)
      = (revWmCheck cur xs && revWmCheck (revWmTrack cur xs) ys) := by
  intro xs
  induction xs with
  | nil => intro ys cur; simp [revWmCheck, revWmTrack]
  | cons e rest ih =>
    intro ys cur
    cases e <;> simp [revWmCheck, revWmTrack, ih, Bool.and_assoc]

lemma beq_getD_of_truthy {wm : Option String} (h : optTruthy wm = true) :
    (wm == some (wm.getD "")) = true := by
  cases wm with
  | none => simp [optTruthy] at h
  | some s => simp

lemma fwdWmCheck_flushWm (tid : String) (db : DB) (batch : List PostData)
    (wm : Option String) : fwdWmCheck wm (flushWm tid db batch wm).2.2 = true := by
  rw [flushWm_events]
  split
  · rename_i htr
    simp [fwdWmCheck, beq_getD_of_truthy htr]
  · simp [fwdWmCheck]

lemma fwdWmTrack_flushWm (tid : String) (db : DB) (batch : List PostData)
    (wm cur : Option String) : fwdWmTrack cur (flushWm tid db batch wm).2.2 = cur := by
  rw [flushWm_events]
  split <;> simp [fwdWmTrack]

lemma revWmCheck_flushWm (tid : String) (db : DB) (batch : List PostData)
    (wm : Option String) : revWmCheck wm (flushWm tid db batch wm).2.2 = true := by
  rw [flushWm_events]
  split
  · rename_i htr
    simp [revWmCheck, beq_getD_of_truthy htr]
  · simp [revWmCheck]

lemma revWmTrack_flushWm (tid : String) (db : DB) (batch : List PostData)
    (wm cur : Option String) : revWmTrack cur (flushWm tid db batch wm).2.2 = cur := by
  rw [flushWm_events]
  split <;> simp [revWmTrack]

lemma fwdWm_fwdStep (cfg : Config) (tid : String) (web : Nat → Option (List PostData))
    (st : CState) (p : Nat)
    (h1 : fwdWmCheck none st.trace = true)
    (h2 : fwdWmTrack none st.trace = st.last_crawled_post_id) :
    fwdWmCheck none (fwdStep cfg tid web st p).trace = true ∧
    fwdWmTrack none (fwdStep cfg tid web st p).trace
      = (fwdStep cfg tid web st p).last_crawled_post_id := by
  cases hw : web p with
  | none =>
    rw [fwdStep_none cfg tid web st p hw]
    dsimp only
    rw [fwdWmCheck_append, fwdWmTrack_append, h2]
    simp [fwdWmCheck, fwdWmTrack, h1, h2]
  | some pp =>
    by_cases hlen : cfg.batch_size ≤
        (st.buffer ++ (collect_posts_from_page st.db pp tid none).posts_list).length
    · rw [fwdStep_flush cfg tid web st p pp hw hlen]
      dsimp only
      simp only [List.append_assoc]
      rw [fwdWmCheck_append, fwdWmTrack_append]
      rw [show ([Ev.fetch p true,
          Ev.pageCollect p (collect_posts_from_page st.db pp tid none).posts_list] ++
          (flushWm tid st.db
            ((st.buffer ++ (collect_posts_from_page st.db pp tid none).posts_list).take
              cfg.batch_size)
            (headIdOr (collect_posts_from_page st.db pp tid none).posts_list
              st.last_crawled_post_id)).2.2)
        = [Ev.fetch p true] ++ ([Ev.pageCollect p
            (collect_posts_from_page st.db pp tid none).posts_list] ++
          (flushWm tid st.db
            ((st.buffer ++ (collect_posts_from_page st.db pp tid none).posts_list).take
              cfg.batch_size)
            (headIdOr (collect_posts_from_page st.db pp tid none).posts_list
              st.last_crawled_post_id)).2.2) from by simp]
      rw [fwdWmCheck_append, fwdWmTrack_append, fwdWmCheck_append, fwdWmTrack_append]
      rw [h2]
      constructor
      · simp only [h1, Bool.true_and]
        rw [show fwdWmTrack st.last_crawled_post_id [Ev.fetch p true]
          = st.last_crawled_post_id from rfl]
        rw [show fwdWmCheck st.last_crawled_post_id [Ev.fetch p true] = true from rfl]
        rw [show fwdWmTrack st.last_crawled_post_id
            [Ev.pageCollect p (collect_posts_from_page st.db pp tid none).posts_list]
          = headIdOr (collect_posts_from_page st.db pp tid none).posts_list
              st.last_crawled_post_id from rfl]
        rw [show fwdWmCheck st.last_crawled_post_id
            [Ev.pageCollect p (collect_posts_from_page st.db pp tid none).posts_list]
          = true from rfl]
        simp only [Bool.true_and]
        exact fwdWmCheck_flushWm tid st.db _ _
      · rw [show fwdWmTrack st.last_crawled_post_id [Ev.fetch p true]
          = st.last_crawled_post_id from rfl]
        rw [show fwdWmTrack st.last_crawled_post_id
            [Ev.pageCollect p (collect_posts_from_page st.db pp tid none).posts_list]
          = headIdOr (collect_posts_from_page st.db pp tid none).posts_list
              st.last_crawled_post_id from rfl]
        exact fwdWmTrack_flushWm tid st.db _ _ _
    · rw [fwdStep_small cfg tid web st p pp hw hlen]
      dsimp only
      rw [fwdWmCheck_append, fwdWmTrack_append, h2]
      constructor
      · simp [fwdWmCheck, h1]
      · rfl

lemma revWm_revStep (cfg : Config) (tid : String) (web : Nat → Option (List PostData))
    (lp : Option String) (st : CState) (p : Nat)
    (h1 : revWmCheck none st.trace = true)
    (h2 : revWmTrack none st.trace = st.newest_post_id) :
    revWmCheck none (revStep cfg tid web lp st p).trace = true ∧
    revWmTrack none (revStep cfg tid web lp st p).trace
      = (revStep cfg tid web lp st p).newest_post_id := by
  by_cases h0 : st.stopped = true
  · rw [revStep_stopped cfg tid web lp st p h0]
    exact ⟨h1, h2⟩
  · replace h0 : st.stopped = false := by simpa using h0
    cases hw : web p with
    | none =>
      rw [revStep_none cfg tid web lp st p h0 hw]
      dsimp only
      rw [revWmCheck_append, revWmTrack_append, h2]
      simp [revWmCheck, revWmTrack, h1, h2]
    | some pp =>
      by_cases hf : (collect_posts_from_page st.db pp tid lp).found_last_post = true
      · rw [revStep_boundary cfg tid web lp st p pp h0 hw hf]
        dsimp only
        rw [revWmCheck_append, revWmTrack_append, h2]
        constructor
        · simp [revWmCheck, h1]
        · rfl
      · replace hf : (collect_posts_from_page st.db pp tid lp).found_last_post = false := by
          simpa using hf
        by_cases hlen : cfg.batch_size ≤
            (st.buffer ++ (collect_posts_from_page st.db pp tid lp).posts_list).length
        · rw [revStep_flush cfg tid web lp st p pp h0 hw hf hlen]
          dsimp only
          simp only [List.append_assoc]
          rw [show ([Ev.fetch p true,
              Ev.pageCollect p (collect_posts_from_page st.db pp tid lp).posts_list] ++
              (flushWm tid st.db
                ((st.buffer ++ (collect_posts_from_page st.db pp tid lp).posts_list).take
                  cfg.batch_size)
                (revNewest st.newest_post_id
                  (collect_posts_from_page st.db pp tid lp).posts_list)).2.2)
            = [Ev.fetch p true] ++ ([Ev.pageCollect p
                (collect_posts_from_page st.db pp tid lp).posts_list] ++
              (flushWm tid st.db
                ((st.buffer ++ (collect_posts_from_page st.db pp tid lp).posts_list).take
                  cfg.batch_size)
                (revNewest st.newest_post_id
                  (collect_posts_from_page st.db pp tid lp).posts_list)).2.2) from by simp]
          rw [revWmCheck_append, revWmTrack_append, revWmCheck_append, revWmTrack_append,
            revWmCheck_append, revWmTrack_append]
          rw [h2]
          rw [show revWmTrack st.newest_post_id [Ev.fetch p true]
            = st.newest_post_id from rfl]
          rw [show revWmCheck st.newest_post_id [Ev.fetch p true] = true from rfl]
          rw [show revWmTrack st.newest_post_id
              [Ev.pageCollect p (collect_posts_from_page st.db pp tid lp).posts_list]
            = revNewest st.newest_post_id
                (collect_posts_from_page st.db pp tid lp).posts_list from rfl]
          rw [show revWmCheck st.newest_post_id
              [Ev.pageCollect p (collect_posts_from_page st.db pp tid lp).posts_list]
            = true from rfl]
          constructor
          · simp only [h1, Bool.true_and]
            exact revWmCheck_flushWm tid st.db _ _
          · exact revWmTrack_flushWm tid st.db _ _ _
        · rw [revStep_small cfg tid web lp st p pp h0 hw hf hlen]
          dsimp only
          rw [revWmCheck_append, revWmTrack_append, h2]
          constructor
          · simp [revWmCheck, h1]
          · rfl

lemma fwdWm_finalFlush (tid : String) (st : CState)
    (h1 : fwdWmCheck none st.trace = true)
    (h2 : fwdWmTrack none st.trace = st.last_crawled_post_id) :
    fwdWmCheck none (finalFlush tid false st).trace = true := by
  by_cases hb : st.buffer.isEmpty = true
  · rw [finalFlush_empty tid false st hb]; exact h1
  · replace hb : st.buffer.isEmpty = false := by simpa using hb
    rw [finalFlush_ne tid false st hb]
    dsimp only
    rw [fwdWmCheck_append, h1, h2]
    simp only [Bool.true_and, if_neg (by simp : ¬ false = true)]
    exact fwdWmCheck_flushWm tid st.db _ _

lemma revWm_finalFlush (tid : String) (st : CState)
    (h1 : revWmCheck none st.trace = true)
    (h2 : revWmTrack none st.trace = st.newest_post_id) :
    revWmCheck none (finalFlush tid true st).trace = true := by
  by_cases hb : st.buffer.isEmpty = true
  · rw [finalFlush_empty tid true st hb]; exact h1
  · replace hb : st.buffer.isEmpty = false := by simpa using hb
    rw [finalFlush_ne tid true st hb]
    dsimp only
    rw [revWmCheck_append, h1, h2]
    simp only [Bool.true_and, if_pos rfl]
    exact revWmCheck_flushWm tid st.db _ _



lemma wmPids_append (xs ys : List Ev) : wmPids (xs ++ ys) = wmPids xs ++ wmPids ys := by
  simp [wmPids, List.filterMap_append]

lemma wmPids_fetch (p : Nat) (b : Bool) : wmPids [Ev.fetch p b] = [] := rfl

lemma wmPids_pageBlock (p : Nat) (c : List PostData) :
    wmPids [Ev.fetch p true, Ev.pageCollect p c] = [] := rfl

lemma wmPids_flushWm (tid : String) (db : DB) (batch : List PostData)
    (wm : Option String) :
    wmPids (flushWm tid db batch wm).2.2
      = (if optTruthy wm = true then [wm.getD ""] else []) := by
  rw [flushWm_events]
  split <;> rfl

lemma revNewest_of_truthy {cur : Option String} (h : optTruthy cur = true)
    (c : List PostData) : revNewest cur c = cur := by
  unfold revNewest
  simp [h]

lemma some_getD_of_truthy {wm : Option String} (h : optTruthy wm = true) :
    some (wm.getD "") = wm := by
  cases wm with
  | none => simp [optTruthy] at h
  | some s => rfl

/-- Reverse-mode single-value invariant: all watermark values written so far equal the
tracked newest id, and none was written before it became truthy. -/
def revPidsOK (st : CState) : Prop :=
  (optTruthy st.newest_post_id = true →
    ∀ pid ∈ wmPids st.trace, some pid = st.newest_post_id) ∧
  (optTruthy st.newest_post_id = false → wmPids st.trace = [])

lemma revPidsOK_revStep (cfg : Config) (tid : String)
    (web : Nat → Option (List PostData)) (lp : Option String) (st : CState) (p : Nat)
    (h : revPidsOK st) : revPidsOK (revStep cfg tid web lp st p) := by
  obtain ⟨hT, hF⟩ := h
  by_cases h0 : st.stopped = true
  · rw [revStep_stopped cfg tid web lp st p h0]
    exact ⟨hT, hF⟩
  · replace h0 : st.stopped = false := by simpa using h0
    cases hw : web p with
    | none =>
      rw [revStep_none cfg tid web lp st p h0 hw]
      constructor
      · intro htr pid hmem
        rw [wmPids_append, wmPids_fetch, List.append_nil] at hmem
        exact hT htr pid hmem
      · intro htr
        rw [wmPids_append, wmPids_fetch, List.append_nil]
        exact hF htr
    | some pp =>
      have hnw : ∀ (c : List PostData),
          revPidsOK { st with buffer := st.buffer ++ c,
                              newest_post_id := revNewest st.newest_post_id
                                (collect_posts_from_page st.db pp tid lp).posts_list,
                              stopped := true,
                              trace := st.trace ++ [Ev.fetch p true,
                                Ev.pageCollect p
                                  (collect_posts_from_page st.db pp tid lp).posts_list] } := by
        intro c
        by_cases htr : optTruthy st.newest_post_id = true
        · rw [revNewest_of_truthy htr]
          constructor
          · intro _ pid hmem
            rw [wmPids_append, wmPids_pageBlock, List.append_nil] at hmem
            exact hT htr pid hmem
          · intro hcon
            rw [htr] at hcon
            exact absurd hcon (by simp)
        · replace htr : optTruthy st.newest_post_id = false := by simpa using htr
          have hnil := hF htr
          constructor
          · intro _ pid hmem
            rw [wmPids_append, wmPids_pageBlock, List.append_nil, hnil] at hmem
            exact absurd hmem (by simp)
          · intro _
            rw [wmPids_append, wmPids_pageBlock, List.append_nil, hnil]
      by_cases hf : (collect_posts_from_page st.db pp tid lp).found_last_post = true
      · rw [revStep_boundary cfg tid web lp st p pp h0 hw hf]
        exact hnw (collect_posts_from_page st.db pp tid lp).posts_list
      · replace hf : (collect_posts_from_page st.db pp tid lp).found_last_post = false := by
          simpa using hf
        by_cases hlen : cfg.batch_size ≤
            (st.buffer ++ (collect_posts_from_page st.db pp tid lp).posts_list).length
        · rw [revStep_flush cfg tid web lp st p pp h0 hw hf hlen]
          have hpeq : ∀ tr2 : List Ev, tr2 = st.trace ++ [Ev.fetch p true,
              Ev.pageCollect p (collect_posts_from_page st.db pp tid lp).posts_list] ++
              (flushWm tid st.db
                ((st.buffer ++ (collect_posts_from_page st.db pp tid lp).posts_list).take
                  cfg.batch_size)
                (revNewest st.newest_post_id
                  (collect_posts_from_page st.db pp tid lp).posts_list)).2.2 →
              wmPids tr2 = wmPids st.trace ++
                (if optTruthy (revNewest st.newest_post_id
                    (collect_posts_from_page st.db pp tid lp).posts_list) = true then
                  [(revNewest st.newest_post_id
                    (collect_posts_from_page st.db pp tid lp).posts_list).getD ""]
                 else []) := by
            intro tr2 htr2
            rw [htr2, wmPids_append, wmPids_append, wmPids_pageBlock, wmPids_flushWm]
            simp
          constructor
          · intro htr pid hmem
            dsimp only at htr hmem ⊢
            rw [hpeq _ rfl] at hmem
            rcases List.mem_append.mp hmem with hm | hm
            · by_cases htr0 : optTruthy st.newest_post_id = true
              · rw [revNewest_of_truthy htr0] at htr ⊢
                exact hT htr0 pid hm
              · replace htr0 : optTruthy st.newest_post_id = false := by simpa using htr0
                rw [hF htr0] at hm
                exact absurd hm (by simp)
            · rw [if_pos htr] at hm
              simp only [List.mem_singleton] at hm
              rw [hm]
              exact some_getD_of_truthy htr
          · intro htr
            dsimp only at htr ⊢
            rw [hpeq _ rfl, if_neg (by simp [htr])]
            rw [List.append_nil]
            by_cases htr0 : optTruthy st.newest_post_id = true
            · rw [revNewest_of_truthy htr0] at htr
              rw [htr0] at htr
              exact absurd htr (by simp)
            · exact hF (by simpa using htr0)
        · rw [revStep_small cfg tid web lp st p pp h0 hw hf hlen]
          have := hnw (collect_posts_from_page st.db pp tid lp).posts_list
          constructor
          · intro htr pid hmem
            exact this.1 htr pid hmem
          · intro htr
            exact this.2 htr

lemma allEq_of_all_some (l : List String) (v : Option String)
    (h : ∀ pid ∈ l, some pid = v) : allEqList l = true := by
  cases l with
  | nil => rfl
  | cons x xs =>
    unfold allEqList
    rw [List.all_eq_true]
    intro y hy
    have hx := h x (by simp)
    have hyv := h y (by simp [hy])
    rw [← hx] at hyv
    simp only [Option.some.injEq] at hyv
    simp [hyv]

lemma revPidsOK_finalFlush (tid : String) (st : CState) (h : revPidsOK st) :
    allEqList (wmPids (finalFlush tid true st).trace) = true := by
  obtain ⟨hT, hF⟩ := h
  by_cases hb : st.buffer.isEmpty = true
  · rw [finalFlush_empty tid true st hb]
    by_cases htr : optTruthy st.newest_post_id = true
    · exact allEq_of_all_some _ _ (hT htr)
    · rw [hF (by simpa using htr)]
      rfl
  · replace hb : st.buffer.isEmpty = false := by simpa using hb
    rw [finalFlush_ne tid true st hb]
    dsimp only
    rw [wmPids_append, wmPids_flushWm]
    rw [show (if (true : Bool) = true then st.newest_post_id else st.last_crawled_post_id)
      = st.newest_post_id from rfl]
    by_cases htr : optTruthy st.newest_post_id = true
    · rw [if_pos htr]
      refine allEq_of_all_some _ st.newest_post_id ?_
      intro pid hmem
      rcases List.mem_append.mp hmem with hm | hm
      · exact hT htr pid hm
      · simp only [List.mem_singleton] at hm
        rw [hm]
        exact some_getD_of_truthy htr
    · replace htr : optTruthy st.newest_post_id = false := by simpa using htr
      rw [if_neg (by simp [htr]), hF htr]
      rfl



/-- C2 (amended): the value written by every watermark update is, in forward mode, the
head id of the most recent page-collection that collected anything — i.e. the FIRST
item of that page's (reversed) collected list, not the last item appended to the buffer
— and, in reverse mode, the head id of the first page-collection that collected
anything (the newest item seen this sync), with every reverse-mode update of the sync
writing that same single value. -/
theorem watermark_value_selection (cfg : Config) (db0 : DB) (url : String)
    (isNew : Option Bool) (web : Nat → Option (List PostData)) (N : Nat)
    (s : List PostData) (h : web 1 = some s) :
    (threadExistsFlag db0 url isNew = false →
      fwdWmCheck none (collect_thread_posts cfg db0 url isNew web N).trace = true) ∧
    (threadExistsFlag db0 url isNew = true →
      revWmCheck none (collect_thread_posts cfg db0 url isNew web N).trace = true ∧
      allEqList (wmPids (collect_thread_posts cfg db0 url isNew web N).trace) = true) := by
  constructor
  · intro hte
    rw [collect_fwd cfg db0 url isNew web N s h hte]
    have hP := runPages_invariant (fwdStep cfg (extract_thread_id url) web)
      (fun st => fwdWmCheck none st.trace = true ∧
        fwdWmTrack none st.trace = st.last_crawled_post_id)
      (fun st p hp => fwdWm_fwdStep cfg (extract_thread_id url) web st p hp.1 hp.2)
      (List.range' 1 N)
      ⟨db0, [], none, none, 0, false, [Ev.fetch 1 true]⟩
      ⟨rfl, rfl⟩
    exact fwdWm_finalFlush (extract_thread_id url) _ hP.1 hP.2
  · intro hte
    rw [collect_rev cfg db0 url isNew web N s h hte]
    constructor
    · have hP := runPages_invariant
        (revStep cfg (extract_thread_id url) web
          (get_last_post_id db0 (extract_thread_id url)))
        (fun st => revWmCheck none st.trace = true ∧
          revWmTrack none st.trace = st.newest_post_id)
        (fun st p hp => revWm_revStep cfg (extract_thread_id url) web
          (get_last_post_id db0 (extract_thread_id url)) st p hp.1 hp.2)
        (List.range' 1 N).reverse
        ⟨db0, [], none, none, 0, false,
         [Ev.fetch 1 true,
          Ev.getWatermark (extract_thread_id url)
            (get_last_post_id db0 (extract_thread_id url))]⟩
        ⟨rfl, rfl⟩
      exact revWm_finalFlush (extract_thread_id url) _ hP.1 hP.2
    · have hP := runPages_invariant
        (revStep cfg (extract_thread_id url) web
          (get_last_post_id db0 (extract_thread_id url)))
        revPidsOK
        (fun st p hp => revPidsOK_revStep cfg (extract_thread_id url) web
          (get_last_post_id db0 (extract_thread_id url)) st p hp)
        (List.range' 1 N).reverse
        ⟨db0, [], none, none, 0, false,
         [Ev.fetch 1 true,
          Ev.getWatermark (extract_thread_id url)
            (get_last_post_id db0 (extract_thread_id url))]⟩
        ⟨by intro htr; exact absurd htr (by simp [optTruthy]), fun _ => rfl⟩
      exact revPidsOK_finalFlush (extract_thread_id url) _ hP

/-- Refutation of C2 as stated: in a forward traversal of one page whose collected
buffer is [b, a] (so the last item appended to the buffer before the flush is the post
with id "a"), the watermark written by the flush is "b" — the first collected item of
the page — not "a". -/
theorem forward_watermark_value_counterexample :
    flushedItems (collect_thread_posts ⟨2, false, ""⟩ ⟨[], [], false⟩
      "https://f319.com/threads/x.7/" (some true)
      (fun p => if p = 1 then some [⟨"a", "7", "u", "l", 0, "x"⟩, ⟨"b", "7", "u", "l", 0, "y"⟩]
        else none) 1).trace
      = [⟨"b", "7", "u", "l", 0, "y"⟩, ⟨"a", "7", "u", "l", 0, "x"⟩] ∧
    wmPids (collect_thread_posts ⟨2, false, ""⟩ ⟨[], [], false⟩
      "https://f319.com/threads/x.7/" (some true)
      (fun p => if p = 1 then some [⟨"a", "7", "u", "l", 0, "x"⟩, ⟨"b", "7", "u", "l", 0, "y"⟩]
        else none) 1).trace = ["b"] ∧
    (["b"] : List String) ≠ ["a"] := by
  refine ⟨by decide, by decide, by decide⟩

theorem watermark_value_selection_witness :
    fwdWmCheck none (collect_thread_posts ⟨2, false, ""⟩ ⟨[], [], false⟩
      "https://f319.com/threads/x.7/" (some true)
      (fun p => if p = 1 then some [⟨"a", "7", "u", "l", 0, "x"⟩, ⟨"b", "7", "u", "l", 0, "y"⟩]
        else none) 1).trace = true ∧
    revWmCheck none (collect_thread_posts ⟨2, false, ""⟩ ⟨[], [], false⟩
      "https://f319.com/threads/x.7/" (some false)
      (fun p => if p = 1 then some [⟨"a", "7", "u", "l", 0, "x"⟩, ⟨"b", "7", "u", "l", 0, "y"⟩]
        else none) 1).trace = true :=
  ⟨(watermark_value_selection ⟨2, false, ""⟩ ⟨[], [], false⟩
      "https://f319.com/threads/x.7/" (some true)
      (fun p => if p = 1 then some [⟨"a", "7", "u", "l", 0, "x"⟩, ⟨"b", "7", "u", "l", 0, "y"⟩]
        else none) 1 _ rfl).1 rfl,
   ((watermark_value_selection ⟨2, false, ""⟩ ⟨[], [], false⟩
      "https://f319.com/threads/x.7/" (some false)
      (fun p => if p = 1 then some [⟨"a", "7", "u", "l", 0, "x"⟩, ⟨"b", "7", "u", "l", 0, "y"⟩]
        else none) 1 _ rfl).2 rfl).1⟩

lemma any_not_eq_not_all {α : Type} (q : α → Bool) :
    ∀ l : List α, l.any (fun x => !(q x)) = !(l.all q) := by
  intro l
  induction l with
  | nil => rfl
  | cons x xs ih => simp [List.any_cons, List.all_cons, ih, Bool.not_and]

lemma takeWhile_append_all {α : Type} (q : α → Bool) :
    ∀ (xs ys : List α), xs.all q = true →
      (xs ++ ys).takeWhile q = xs ++ ys.takeWhile q := by
  intro xs
  induction xs with
  | nil => intro ys _; rfl
  | cons x xs ih =>
    intro ys h
    rw [List.all_cons, Bool.and_eq_true] at h
    simp only [List.cons_append, List.takeWhile_cons, if_pos h.1, h.1]
    rw [ih ys h.2]
    rfl

lemma takeWhile_append_not_all {α : Type} (q : α → Bool) :
    ∀ (xs ys : List α), xs.all q = false →
      (xs ++ ys).takeWhile q = xs.takeWhile q := by
  intro xs
  induction xs with
  | nil => intro ys h; simp [List.all_nil] at h
  | cons x xs ih =>
    intro ys h
    rw [List.all_cons, Bool.and_eq_false_iff] at h
    by_cases hx : q x = true
    · have hxs : xs.all q = false := by
        rcases h with h | h
        · rw [hx] at h; exact absurd h (by simp)
        · exact h
      simp only [List.cons_append, List.takeWhile_cons, if_pos hx, hx]
      rw [ih ys hxs]
    · replace hx : q x = false := by simpa using hx
      simp [List.takeWhile_cons, hx]

/-- An item halts the classification: nonempty body and id equal to the (truthy)
watermark. -/
def pageStop (lp : Option String) (p : PostData) : Bool :=
  contentNonempty p && isBoundary lp p.id

/-- An item is emitted as new: nonempty body and not yet stored. -/
def pageKeep (db : DB) (p : PostData) : Bool :=
  contentNonempty p && !post_exists db p.id

/-- Independent description of the classifier's output list: of the prefix before the
boundary item, exactly the nonempty-body not-yet-stored items, in traversal order. -/
def pageSpecList (db : DB) (lp : Option String) (l : List PostData) : List PostData :=
  (l.takeWhile (fun x => !pageStop lp x)).filter (pageKeep db)

/-- Independent description of the boundary signal: some item halts. -/
def pageSpecFound (lp : Option String) (l : List PostData) : Bool :=
  l.any (pageStop lp)

/-- Independent description of the final consecutive-duplicate counter: among the
nonempty-body items of the processed prefix, the length of the trailing run of stored
items after the last new one (or `old` plus all of them when none is new). -/
def pageSpecOld (db : DB) (lp : Option String) (old : Nat) (l : List PostData) : Nat :=
  let nn := (l.takeWhile (fun x => !pageStop lp x)).filter contentNonempty
  if nn.any (fun x => !post_exists db x.id) then
    (nn.reverse.takeWhile (fun x => post_exists db x.id)).length
  else old + nn.length

lemma pageSpec_nn_skip (lp : Option String) (p : PostData)
    (rest : List PostData) (h1 : contentNonempty p = false) :
    ((p :: rest).takeWhile (fun x => !pageStop lp x)).filter contentNonempty
      = (rest.takeWhile (fun x => !pageStop lp x)).filter contentNonempty := by
  have hq : (!pageStop lp p) = true := by simp [pageStop, h1]
  rw [List.takeWhile_cons, if_pos hq, List.filter_cons, if_neg (by simp [h1])]

lemma pageSpec_nn_cons (lp : Option String) (p : PostData)
    (rest : List PostData) (h1 : contentNonempty p = true)
    (h2 : isBoundary lp p.id = false) :
    ((p :: rest).takeWhile (fun x => !pageStop lp x)).filter contentNonempty
      = p :: (rest.takeWhile (fun x => !pageStop lp x)).filter contentNonempty := by
  have hq : (!pageStop lp p) = true := by simp [pageStop, h1, h2]
  rw [List.takeWhile_cons, if_pos hq, List.filter_cons, if_pos (by simp [h1])]

lemma pageSpecOld_skip (db : DB) (lp : Option String) (p : PostData)
    (rest : List PostData) (old : Nat) (h1 : contentNonempty p = false) :
    pageSpecOld db lp old (p :: rest) = pageSpecOld db lp old rest := by
  unfold pageSpecOld
  rw [pageSpec_nn_skip lp p rest h1]

lemma pageSpecOld_stop (db : DB) (lp : Option String) (p : PostData)
    (rest : List PostData) (old : Nat) (hstop : pageStop lp p = true) :
    pageSpecOld db lp old (p :: rest) = old := by
  unfold pageSpecOld
  have hq : (!pageStop lp p) = false := by simp [hstop]
  rw [List.takeWhile_cons]
  simp [hq]

lemma pageSpecOld_dup (db : DB) (lp : Option String) (p : PostData)
    (rest : List PostData) (old : Nat) (h1 : contentNonempty p = true)
    (h2 : isBoundary lp p.id = false) (h3 : post_exists db p.id = true) :
    pageSpecOld db lp old (p :: rest) = pageSpecOld db lp (old + 1) rest := by
  unfold pageSpecOld
  rw [pageSpec_nn_cons lp p rest h1 h2]
  by_cases hall : ((rest.takeWhile (fun x => !pageStop lp x)).filter
      contentNonempty).all (fun x => post_exists db x.id) = true
  · have hany : ((rest.takeWhile (fun x => !pageStop lp x)).filter
        contentNonempty).any (fun x => !post_exists db x.id) = false := by
      rw [any_not_eq_not_all, hall]
      rfl
    rw [if_neg (by simp [List.any_cons, h3, hany])]
    rw [if_neg (by simp [hany])]
    simp only [List.length_cons]
    omega
  · replace hall : ((rest.takeWhile (fun x => !pageStop lp x)).filter
        contentNonempty).all (fun x => post_exists db x.id) = false := by simpa using hall
    have hany : ((rest.takeWhile (fun x => !pageStop lp x)).filter
        contentNonempty).any (fun x => !post_exists db x.id) = true := by
      rw [any_not_eq_not_all, hall]
      rfl
    rw [if_pos (by simp [List.any_cons, hany]), if_pos hany]
    rw [List.reverse_cons]
    rw [takeWhile_append_not_all _ _ _ (by rw [List.all_reverse]; exact hall)]

lemma pageSpecOld_new (db : DB) (lp : Option String) (p : PostData)
    (rest : List PostData) (old : Nat) (h1 : contentNonempty p = true)
    (h2 : isBoundary lp p.id = false) (h3 : post_exists db p.id = false) :
    pageSpecOld db lp old (p :: rest) = pageSpecOld db lp 0 rest := by
  unfold pageSpecOld
  rw [pageSpec_nn_cons lp p rest h1 h2]
  rw [if_pos (by simp [List.any_cons, h3])]
  rw [List.reverse_cons]
  by_cases hall : ((rest.takeWhile (fun x => !pageStop lp x)).filter
      contentNonempty).all (fun x => post_exists db x.id) = true
  · have hany : ((rest.takeWhile (fun x => !pageStop lp x)).filter
        contentNonempty).any (fun x => !post_exists db x.id) = false := by
      rw [any_not_eq_not_all, hall]
      rfl
    rw [takeWhile_append_all _ _ _ (by rw [List.all_reverse]; exact hall)]
    rw [if_neg (by simp [hany])]
    simp [List.takeWhile_cons, h3]
  · replace hall : ((rest.takeWhile (fun x => !pageStop lp x)).filter
        contentNonempty).all (fun x => post_exists db x.id) = false := by simpa using hall
    have hany : ((rest.takeWhile (fun x => !pageStop lp x)).filter
        contentNonempty).any (fun x => !post_exists db x.id) = true := by
      rw [any_not_eq_not_all, hall]
      rfl
    rw [takeWhile_append_not_all _ _ _ (by rw [List.all_reverse]; exact hall)]
    rw [if_pos hany]

/-- The classifier loop, characterised against the independent takeWhile/filter
description. -/
lemma collectGo_eq (db : DB) (lp : Option String) :
    ∀ (l acc : List PostData) (old : Nat),
      collectGo db lp l acc old =
        ⟨acc ++ pageSpecList db lp l, pageSpecOld db lp old l, pageSpecFound lp l⟩ := by
  intro l
  induction l with
  | nil =>
    intro acc old
    simp [collectGo, pageSpecList, pageSpecOld, pageSpecFound]
  | cons p rest ih =>
    intro acc old
    unfold collectGo
    by_cases h1 : contentNonempty p = true
    · rw [if_pos h1]
      by_cases h2 : isBoundary lp p.id = true
      · rw [if_pos h2]
        have hstop : pageStop lp p = true := by simp [pageStop, h1, h2]
        rw [pageSpecOld_stop db lp p rest old hstop]
        unfold pageSpecList pageSpecFound
        rw [List.takeWhile_cons, if_neg (by simp [hstop])]
        simp [List.any_cons, hstop]
      · replace h2 : isBoundary lp p.id = false := by simpa using h2
        rw [if_neg (by simp [h2])]
        have hq : (!pageStop lp p) = true := by simp [pageStop, h2]
        by_cases h3 : post_exists db p.id = true
        · rw [if_pos h3, ih acc (old + 1)]
          rw [pageSpecOld_dup db lp p rest old h1 h2 h3]
          unfold pageSpecList pageSpecFound
          rw [List.takeWhile_cons, if_pos hq]
          rw [List.filter_cons, if_neg (by simp [pageKeep, h1, h3])]
          simp [List.any_cons, pageStop, h2]
        · replace h3 : post_exists db p.id = false := by simpa using h3
          rw [if_neg (by simp [h3]), ih (acc ++ [p]) 0]
          rw [pageSpecOld_new db lp p rest old h1 h2 h3]
          unfold pageSpecList pageSpecFound
          rw [List.takeWhile_cons, if_pos hq]
          rw [List.filter_cons, if_pos (by simp [pageKeep, h1, h3])]
          simp [List.any_cons, pageStop, h2]
    · replace h1 : contentNonempty p = false := by simpa using h1
      rw [if_neg (by simp [h1]), ih acc old]
      rw [pageSpecOld_skip db lp p rest old h1]
      unfold pageSpecList pageSpecFound
      rw [List.takeWhile_cons, if_pos (by simp [pageStop, h1])]
      rw [List.filter_cons, if_neg (by simp [pageKeep, h1])]
      simp [List.any_cons, pageStop, h1]

/-- `_collect_posts_from_page`, characterised end to end. -/
lemma collect_posts_from_page_eq (db : DB) (page : List PostData) (tid : String)
    (lp : Option String) :
    collect_posts_from_page db page tid lp =
      ⟨pageSpecList db lp ((page.map (stampThread tid)).reverse),
       pageSpecOld db lp 0 ((page.map (stampThread tid)).reverse),
       pageSpecFound lp ((page.map (stampThread tid)).reverse)⟩ := by
  unfold collect_posts_from_page
  rw [collectGo_eq]
  rfl


lemma update_last_post_id_posts (db : DB) (tid pid : String) :
    (update_last_post_id db tid pid).1.posts = db.posts := by
  unfold update_last_post_id
  split
  · rfl
  · split <;> rfl

lemma update_last_post_id_failing (db : DB) (tid pid : String) :
    (update_last_post_id db tid pid).1.failing = db.failing := by
  unfold update_last_post_id
  split
  · rfl
  · split <;> rfl

lemma insertPostsGo_failing : ∀ (l : List PostData) (db : DB),
    (insertPostsGo db l).1.failing = db.failing := by
  intro l
  induction l with
  | nil => intro db; rfl
  | cons p rest ih =>
    intro db
    unfold insertPostsGo
    split
    · exact ih db
    · exact ih { db with posts := db.posts ++ [p] }

lemma batch_insert_posts_failing (db : DB) (ps : List PostData) :
    (batch_insert_posts db ps).1.failing = db.failing := by
  unfold batch_insert_posts
  split
  · rfl
  · split
    · rfl
    · exact insertPostsGo_failing ps db

lemma flushWm_posts (tid : String) (db : DB) (batch : List PostData) (wm : Option String) :
    (flushWm tid db batch wm).1.posts = (batch_insert_posts db batch).1.posts := by
  unfold flushWm
  split
  · exact update_last_post_id_posts _ _ _
  · rfl

lemma flushWm_failing (tid : String) (db : DB) (batch : List PostData) (wm : Option String) :
    (flushWm tid db batch wm).1.failing = (batch_insert_posts db batch).1.failing := by
  unfold flushWm
  split
  · exact update_last_post_id_failing _ _ _
  · rfl

lemma flushWm_count (tid : String) (db : DB) (batch : List PostData) (wm : Option String) :
    (flushWm tid db batch wm).2.1 = (batch_insert_posts db batch).2 := by
  unfold flushWm
  split <;> rfl

lemma insertPostsGo_fresh : ∀ (l : List PostData) (db : DB),
    (∀ q ∈ l, db.posts.any (fun r => r.id == q.id) = false) →
    (l.map (fun q => q.id)).Nodup →
    insertPostsGo db l = ({ db with posts := db.posts ++ l }, l.length) := by
  intro l
  induction l with
  | nil =>
    intro db _ _
    show (db, 0) = ({ db with posts := db.posts ++ [] }, 0)
    simp
  | cons p rest ih =>
    intro db hfr hnd
    have hnd' : (∀ x ∈ rest, ¬ x.id = p.id) ∧ (rest.map (fun q => q.id)).Nodup := by
      simpa using hnd
    unfold insertPostsGo
    rw [if_neg (by simp [hfr p (by simp)])]
    have hfr2 : ∀ q ∈ rest, ({ db with posts := db.posts ++ [p] } : DB).posts.any
        (fun r => r.id == q.id) = false := by
      intro q hq
      dsimp only
      rw [List.any_append]
      have h1 : db.posts.any (fun r => r.id == q.id) = false := hfr q (by simp [hq])
      have h2 : (p.id == q.id) = false := by
        have hne := hnd'.1 q hq
        by_cases hc : p.id = q.id
        · exact absurd hc.symm hne
        · simpa using hc
      simp [h1, h2]
    rw [ih { db with posts := db.posts ++ [p] } hfr2 hnd'.2]
    dsimp only
    rw [List.append_assoc]
    rfl

lemma batch_insert_fresh (db : DB) (ps : List PostData) (hfail : db.failing = false)
    (hfr : ∀ q ∈ ps, db.posts.any (fun r => r.id == q.id) = false)
    (hnd : (ps.map (fun q => q.id)).Nodup) :
    batch_insert_posts db ps = ({ db with posts := db.posts ++ ps }, ps.length) := by
  unfold batch_insert_posts
  by_cases hemp : ps.isEmpty = true
  · have hnil : ps = [] := by simpa [List.isEmpty_iff] using hemp
    subst hnil
    simp
  · rw [if_neg hemp, if_neg (by simp [hfail])]
    exact insertPostsGo_fresh ps db hfr hnd

lemma takeWhile_all_true {α : Type} (q : α → Bool) :
    ∀ l : List α, (∀ x ∈ l, q x = true) → l.takeWhile q = l := by
  intro l
  induction l with
  | nil => intro _; rfl
  | cons x xs ih =>
    intro h
    rw [List.takeWhile_cons, if_pos (h x (by simp))]
    rw [ih (fun y hy => h y (by simp [hy]))]

lemma takeWhile_all_false {α : Type} (q : α → Bool) :
    ∀ l : List α, (∀ x ∈ l, q x = false) → l.takeWhile q = [] := by
  intro l
  cases l with
  | nil => intro _; rfl
  | cons x xs =>
    intro h
    rw [List.takeWhile_cons, if_neg (by simp [h x (by simp)])]

lemma filter_all_true {α : Type} (q : α → Bool) :
    ∀ l : List α, (∀ x ∈ l, q x = true) → l.filter q = l := by
  intro l
  induction l with
  | nil => intro _; rfl
  | cons x xs ih =>
    intro h
    rw [List.filter_cons, if_pos (h x (by simp))]
    rw [ih (fun y hy => h y (by simp [hy]))]

lemma any_all_false {α : Type} (q : α → Bool) :
    ∀ l : List α, (∀ x ∈ l, q x = false) → l.any q = false := by
  intro l
  induction l with
  | nil => intro _; rfl
  | cons x xs ih =>
    intro h
    rw [List.any_cons, ih (fun y hy => h y (by simp [hy])), h x (by simp)]
    rfl

/-- A page whose items are all nonempty, fresh and non-boundary is collected whole, in
reversed on-page order, with the duplicate counter at 0 and no boundary signal. -/
lemma collect_all_new (db : DB) (page : List PostData) (tid : String) (lp : Option String)
    (hall : ∀ q ∈ (page.map (stampThread tid)).reverse,
      contentNonempty q = true ∧ isBoundary lp q.id = false ∧ post_exists db q.id = false) :
    collect_posts_from_page db page tid lp
      = ⟨(page.map (stampThread tid)).reverse, 0, false⟩ := by
  rw [collect_posts_from_page_eq, PageResult.mk.injEq]
  have hstop : ∀ q ∈ (page.map (stampThread tid)).reverse, pageStop lp q = false := by
    intro q hq
    simp [pageStop, (hall q hq).2.1]
  have htw : ((page.map (stampThread tid)).reverse).takeWhile (fun x => !pageStop lp x)
      = (page.map (stampThread tid)).reverse :=
    takeWhile_all_true _ _ (fun x hx => by simp [hstop x hx])
  refine ⟨?_, ?_, ?_⟩
  · unfold pageSpecList
    rw [htw]
    exact filter_all_true _ _ (fun q hq => by simp [pageKeep, (hall q hq).1, (hall q hq).2.2])
  · unfold pageSpecOld
    rw [htw, filter_all_true _ _ (fun x hx => (hall x hx).1)]
    cases hpg : (page.map (stampThread tid)).reverse with
    | nil => rfl
    | cons x xs =>
      have hx0 := hall x (by rw [hpg]; simp)
      rw [if_pos (by simp [List.any_cons, hx0.2.2])]
      rw [takeWhile_all_false _ _ (fun y hy => ?_)]
      · rfl
      · have hyT : y ∈ (page.map (stampThread tid)).reverse := by
          rw [hpg]
          exact List.mem_reverse.mp hy
        exact (hall y hyT).2.2
  · unfold pageSpecFound
    exact any_all_false _ _ hstop

/-- A page whose reversed item list starts with fresh items `pre` followed by the
(nonempty-body) watermark item `w`: the collector emits exactly `pre` and raises the
boundary signal. -/
lemma collect_boundary (db : DB) (page : List PostData) (tid : String)
    (lp : Option String) (pre : List PostData) (w : PostData) (suf : List PostData)
    (hdec : (page.map (stampThread tid)).reverse = pre ++ w :: suf)
    (hpre : ∀ q ∈ pre,
      contentNonempty q = true ∧ isBoundary lp q.id = false ∧ post_exists db q.id = false)
    (hw_c : contentNonempty w = true)
    (hw_b : isBoundary lp w.id = true) :
    (collect_posts_from_page db page tid lp).posts_list = pre ∧
    (collect_posts_from_page db page tid lp).found_last_post = true := by
  rw [collect_posts_from_page_eq]
  dsimp only
  rw [hdec]
  have hwstop : pageStop lp w = true := by simp [pageStop, hw_c, hw_b]
  constructor
  · unfold pageSpecList
    rw [takeWhile_append_all _ _ _ (by
      rw [List.all_eq_true]
      intro x hx
      simp [pageStop, (hpre x hx).2.1])]
    rw [show (w :: suf).takeWhile (fun x => !pageStop lp x) = [] from by
      rw [List.takeWhile_cons, if_neg (by simp [hwstop])]]
    rw [List.append_nil]
    exact filter_all_true _ _ (fun x hx => by
      simp [pageKeep, (hpre x hx).1, (hpre x hx).2.2])
  · unfold pageSpecFound
    rw [List.any_eq_true]
    exact ⟨w, by simp, hwstop⟩


/-- The traversal-order item list of a raw page: stamped, then reversed. -/
def travOf (tid : String) (ps : Nat → List PostData) (p : Nat) : List PostData :=
  ((ps p).map (stampThread tid)).reverse

lemma collectPages_append (xs ys : List Ev) :
    collectPages (xs ++ ys) = collectPages xs ++ collectPages ys := by
  simp [collectPages, List.filterMap_append]

lemma collectPages_flushWm (tid : String) (db : DB) (batch : List PostData)
    (wm : Option String) : collectPages (flushWm tid db batch wm).2.2 = [] := by
  rw [flushWm_events]
  split <;> rfl

lemma collectPages_finalFlush (tid : String) (te : Bool) (st : CState) :
    collectPages (finalFlush tid te st).trace = collectPages st.trace := by
  by_cases hb : st.buffer.isEmpty = true
  · rw [finalFlush_empty tid te st hb]
  · replace hb : st.buffer.isEmpty = false := by simpa using hb
    rw [finalFlush_ne tid te st hb]
    dsimp only
    rw [collectPages_append, collectPages_flushWm, List.append_nil]

lemma post_exists_eq (db : DB) (h : db.failing = false) (pid : String) :
    post_exists db pid = db.posts.any (fun r => r.id == pid) := by
  unfold post_exists
  rw [if_neg (by simp [h])]

lemma any_beq_false {l : List PostData} {pid : String} (h : ∀ r ∈ l, r.id ≠ pid) :
    l.any (fun r => r.id == pid) = false :=
  any_all_false _ _ (fun r hr => by simpa using h r hr)

lemma nodup_ids_disjoint {A B : List PostData}
    (h : ((A ++ B).map (fun q => q.id)).Nodup) :
    ∀ a ∈ A, ∀ b ∈ B, a.id ≠ b.id := by
  intro a ha b hb
  rw [List.map_append] at h
  have hd := (List.nodup_append.mp h).2.2
  intro he
  exact hd (List.mem_map.mpr ⟨a, ha, rfl⟩) (he ▸ List.mem_map.mpr ⟨b, hb, rfl⟩)

/-- Store-side invariant of a reverse traversal over fresh pages: not stopped, the post
table has grown by exactly the flushed items, flushed plus buffered is everything
collected, the running total counts the flushed items, and everything collected was
fresh relative to the initial store. -/
def RevInv (db0 : DB) (st : CState) (done : List PostData) : Prop :=
  ∃ flushed, st.stopped = false ∧ st.db.posts = db0.posts ++ flushed ∧
    st.db.failing = false ∧ flushed ++ st.buffer = done ∧ st.total = flushed.length ∧
    (∀ q ∈ done, post_exists db0 q.id = false)

lemma fresh_in_current {db0 : DB} {st : CState} {done : List PostData}
    {flushed : List PostData} (hposts : st.db.posts = db0.posts ++ flushed)
    (hfail : st.db.failing = false) (hdone : flushed ++ st.buffer = done)
    (hfresh0 : db0.failing = false) {X : List PostData}
    (hnodup : ((done ++ X).map (fun q => q.id)).Nodup)
    (hX0 : ∀ q ∈ X, post_exists db0 q.id = false) :
    ∀ q ∈ X, post_exists st.db q.id = false := by
  intro q hq
  rw [post_exists_eq st.db hfail, hposts, List.any_append]
  have h1 : db0.posts.any (fun r => r.id == q.id) = false := by
    have := hX0 q hq
    rw [post_exists_eq db0 hfresh0] at this
    exact this
  have h2 : flushed.any (fun r => r.id == q.id) = false := by
    refine any_beq_false (fun r hr => ?_)
    have hrdone : r ∈ done := by
      rw [← hdone]
      exact List.mem_append.mpr (Or.inl hr)
    exact nodup_ids_disjoint hnodup r hrdone q hq
  rw [h1, h2]
  rfl

lemma revRun_all_new (cfg : Config) (tid : String) (web : Nat → Option (List PostData))
    (ps : Nat → List PostData) (lp : Option String) (db0 : DB)
    (hfail0 : db0.failing = false) :
    ∀ (L : List Nat) (st : CState) (done : List PostData),
      (∀ p ∈ L, web p = some (ps p)) →
      (∀ p ∈ L, ∀ q ∈ travOf tid ps p, contentNonempty q = true ∧
        isBoundary lp q.id = false ∧ post_exists db0 q.id = false) →
      ((done ++ (L.map (travOf tid ps)).flatten).map (fun q => q.id)).Nodup →
      RevInv db0 st done →
      RevInv db0 (runPages (revStep cfg tid web lp) L st)
          (done ++ (L.map (travOf tid ps)).flatten) ∧
        collectPages (runPages (revStep cfg tid web lp) L st).trace
          = collectPages st.trace ++ L := by
  intro L
  induction L with
  | nil =>
    intro st done _ _ _ hinv
    constructor
    · simpa [runPages] using hinv
    · simp [runPages]
  | cons p L' ih =>
    intro st done hweb hitems hnodup hinv
    obtain ⟨flushed, h0, hposts, hfail, hdone, htot, hdfresh⟩ := hinv
    have hw : web p = some (ps p) := hweb p (by simp)
    have hTfresh : ∀ q ∈ travOf tid ps p, post_exists st.db q.id = false := by
      refine fresh_in_current hposts hfail hdone hfail0 ?_ ?_
      · have : ((done ++ (travOf tid ps p ++ (L'.map (travOf tid ps)).flatten)).map
            (fun q => q.id)).Nodup := by
          simpa using hnodup
        have hsub : List.Sublist (done ++ travOf tid ps p)
            (done ++ (travOf tid ps p ++ (L'.map (travOf tid ps)).flatten)) := by
          refine List.Sublist.append (List.Sublist.refl done) ?_
          exact List.sublist_append_left _ _
        exact this.sublist (hsub.map _)
      · intro q hq
        exact (hitems p (by simp) q hq).2.2
    have hr : collect_posts_from_page st.db (ps p) tid lp
        = ⟨travOf tid ps p, 0, false⟩ := by
      refine collect_all_new st.db (ps p) tid lp ?_
      intro q hq
      exact ⟨(hitems p (by simp) q hq).1, (hitems p (by simp) q hq).2.1, hTfresh q hq⟩
    have hf : (collect_posts_from_page st.db (ps p) tid lp).found_last_post = false := by
      rw [hr]
    have hbufT : ∀ q ∈ st.buffer ++ travOf tid ps p, post_exists db0 q.id = false := by
      intro q hq
      rcases List.mem_append.mp hq with hq | hq
      · exact hdfresh q (by rw [← hdone]; exact List.mem_append.mpr (Or.inr hq))
      · exact (hitems p (by simp) q hq).2.2
    have hbufTnodup : ((st.buffer ++ travOf tid ps p).map (fun q => q.id)).Nodup := by
      have hsub : List.Sublist (st.buffer ++ travOf tid ps p)
          ((flushed ++ st.buffer) ++ (travOf tid ps p ++ (L'.map (travOf tid ps)).flatten)) := by
        refine List.Sublist.append (List.sublist_append_right _ _) ?_
        exact List.sublist_append_left _ _
      have hnd : (((flushed ++ st.buffer) ++
          (travOf tid ps p ++ (L'.map (travOf tid ps)).flatten)).map
            (fun q => q.id)).Nodup := by
        rw [hdone]
        simpa using hnodup
      exact hnd.sublist (hsub.map _)
    have hbufTfresh : ∀ q ∈ st.buffer ++ travOf tid ps p,
        post_exists st.db q.id = false := by
      intro q hq
      rw [post_exists_eq st.db hfail, hposts, List.any_append]
      have h1 : db0.posts.any (fun r => r.id == q.id) = false := by
        have := hbufT q hq
        rw [post_exists_eq db0 hfail0] at this
        exact this
      have h2 : flushed.any (fun r => r.id == q.id) = false := by
        refine any_beq_false (fun r hr => ?_)
        have hnd : ((flushed ++ (st.buffer ++ travOf tid ps p)).map
            (fun q => q.id)).Nodup := by
          have hsub : List.Sublist (flushed ++ (st.buffer ++ travOf tid ps p))
              ((flushed ++ st.buffer) ++
                (travOf tid ps p ++ (L'.map (travOf tid ps)).flatten)) := by
            rw [← List.append_assoc]
            refine List.Sublist.append (List.Sublist.refl _) ?_
            exact List.sublist_append_left _ _
          have hnd0 : (((flushed ++ st.buffer) ++
              (travOf tid ps p ++ (L'.map (travOf tid ps)).flatten)).map
                (fun q => q.id)).Nodup := by
            rw [hdone]
            simpa using hnodup
          exact hnd0.sublist (hsub.map _)
        exact nodup_ids_disjoint hnd r hr q hq
      rw [h1, h2]
      rfl
    by_cases hlen : cfg.batch_size ≤
        (st.buffer ++ (collect_posts_from_page st.db (ps p) tid lp).posts_list).length
    · -- threshold flush on this page
      have hstep := revStep_flush cfg tid web lp st p (ps p) h0 hw hf hlen
      rw [hr] at hstep hlen
      dsimp only at hstep hlen
      have hins : batch_insert_posts st.db
          ((st.buffer ++ travOf tid ps p).take cfg.batch_size)
          = ({ st.db with posts := st.db.posts ++
                ((st.buffer ++ travOf tid ps p).take cfg.batch_size) },
             ((st.buffer ++ travOf tid ps p).take cfg.batch_size).length) := by
        refine batch_insert_fresh st.db _ hfail ?_ ?_
        · intro q hq
          have hmem := List.mem_of_mem_take hq
          have := hbufTfresh q hmem
          rw [post_exists_eq st.db hfail] at this
          exact this
        · exact hbufTnodup.sublist ((List.take_sublist _ _).map _)
      unfold runPages
      rw [hstep]
      have hres := ih
        { st with
            db := (flushWm tid st.db ((st.buffer ++ travOf tid ps p).take cfg.batch_size)
              (revNewest st.newest_post_id (travOf tid ps p))).1,
            buffer := (st.buffer ++ travOf tid ps p).drop cfg.batch_size,
            newest_post_id := revNewest st.newest_post_id (travOf tid ps p),
            total := st.total + (flushWm tid st.db
              ((st.buffer ++ travOf tid ps p).take cfg.batch_size)
              (revNewest st.newest_post_id (travOf tid ps p))).2.1,
            trace := st.trace ++ [Ev.fetch p true, Ev.pageCollect p (travOf tid ps p)] ++
              (flushWm tid st.db ((st.buffer ++ travOf tid ps p).take cfg.batch_size)
                (revNewest st.newest_post_id (travOf tid ps p))).2.2 }
        (done ++ travOf tid ps p)
        (fun q hq => hweb q (by simp [hq]))
        (fun q hq r hr2 => hitems q (by simp [hq]) r hr2)
        (by simpa using hnodup)
        ?_
      · constructor
        · have := hres.1
          simpa using this
        · rw [hres.2]
          dsimp only
          rw [collectPages_append, collectPages_append, collectPages_flushWm]
          simp [collectPages]
      · refine ⟨flushed ++ (st.buffer ++ travOf tid ps p).take cfg.batch_size,
          by dsimp only; exact h0, ?_, ?_, ?_, ?_, ?_⟩
        · dsimp only
          rw [flushWm_posts, hins]
          dsimp only
          rw [hposts, List.append_assoc]
        · dsimp only
          rw [flushWm_failing, hins]
          exact hfail
        · dsimp only
          rw [List.append_assoc, List.take_append_drop, ← List.append_assoc, hdone]
        · dsimp only
          rw [flushWm_count, hins]
          dsimp only
          rw [htot, List.length_append]
        · intro q hq
          rcases List.mem_append.mp hq with hq | hq
          · exact hdfresh q hq
          · exact (hitems p (by simp) q hq).2.2
    · -- below threshold: just extend the buffer
      have hstep := revStep_small cfg tid web lp st p (ps p) h0 hw hf hlen
      rw [hr] at hstep
      dsimp only at hstep
      unfold runPages
      rw [hstep]
      have hres := ih
        { st with
            buffer := st.buffer ++ travOf tid ps p,
            newest_post_id := revNewest st.newest_post_id (travOf tid ps p),
            trace := st.trace ++ [Ev.fetch p true, Ev.pageCollect p (travOf tid ps p)] }
        (done ++ travOf tid ps p)
        (fun q hq => hweb q (by simp [hq]))
        (fun q hq r hr2 => hitems q (by simp [hq]) r hr2)
        (by simpa using hnodup)
        ?_
      · constructor
        · have := hres.1
          simpa using this
        · rw [hres.2]
          dsimp only
          rw [collectPages_append]
          simp [collectPages]
      · refine ⟨flushed, by dsimp only; exact h0, by dsimp only; exact hposts,
          by dsimp only; exact hfail, ?_, by dsimp only; exact htot, ?_⟩
        · dsimp only
          rw [← List.append_assoc, hdone]
        · intro q hq
          rcases List.mem_append.mp hq with hq | hq
          · exact hdfresh q hq
          · exact (hitems p (by simp) q hq).2.2


lemma runPages_append (step : CState → Nat → CState) :
    ∀ (l1 l2 : List Nat) (st : CState),
      runPages step (l1 ++ l2) st = runPages step l2 (runPages step l1 st) := by
  intro l1
  induction l1 with
  | nil => intro l2 st; rfl
  | cons p l ih =>
    intro l2 st
    exact ih l2 (step st p)

lemma buffer_ext_ok {db0 : DB} {st : CState} {done X flushed : List PostData}
    (hposts : st.db.posts = db0.posts ++ flushed)
    (hdone : flushed ++ st.buffer = done) (hfail0 : db0.failing = false)
    (hnodup : ((done ++ X).map (fun q => q.id)).Nodup)
    (hdfresh : ∀ q ∈ done, post_exists db0 q.id = false)
    (hX : ∀ q ∈ X, post_exists db0 q.id = false) :
    (∀ q ∈ st.buffer ++ X, st.db.posts.any (fun r => r.id == q.id) = false) ∧
    ((st.buffer ++ X).map (fun q => q.id)).Nodup := by
  have hnd : ((flushed ++ (st.buffer ++ X)).map (fun q => q.id)).Nodup := by
    rw [← List.append_assoc, hdone]
    exact hnodup
  constructor
  · intro q hq
    rw [hposts, List.any_append]
    have h1 : db0.posts.any (fun r => r.id == q.id) = false := by
      have hq0 : post_exists db0 q.id = false := by
        rcases List.mem_append.mp hq with hq | hq
        · exact hdfresh q (by rw [← hdone]; exact List.mem_append.mpr (Or.inr hq))
        · exact hX q hq
      rw [post_exists_eq db0 hfail0] at hq0
      exact hq0
    have h2 : flushed.any (fun r => r.id == q.id) = false :=
      any_beq_false (fun r hr => nodup_ids_disjoint hnd r hr q hq)
    rw [h1, h2]
    rfl
  · exact hnd.sublist ((List.sublist_append_right _ _).map _)

/-- C3: per-page classification and the resume cutoff.  First conjunct: every page is
classified in traversal order exactly as the independent description says — the emitted
list is the nonempty-body fresh items of the prefix before the boundary item, the
boundary flag is raised iff some nonempty-body item carries the watermark id, and the
consecutive-duplicate counter counts the trailing stored run (empty bodies counted
neither way).  Remaining conjuncts: in a traversal of a known container with stored
watermark `W` sitting on page `k` behind fresh items, exactly the items strictly newer
than `W` (the items of pages `k+1..N` plus the pre-boundary items of page `k`) are
persisted, the reported total counts exactly them, and the pages processed for items
are exactly `N` down to `k` — no page beyond the one containing `W` is examined. -/
theorem boundary_resume_cutoff
    (cfg : Config) (db0 : DB) (url : String) (isNew : Option Bool)
    (web : Nat → Option (List PostData)) (ps : Nat → List PostData)
    (N k : Nat) (W : String) (pre : List PostData) (w : PostData) (suf : List PostData)
    (hfail0 : db0.failing = false)
    (hte : threadExistsFlag db0 url isNew = true)
    (hlp : get_last_post_id db0 (extract_thread_id url) = some W)
    (hk1 : 1 ≤ k) (hkN : k ≤ N)
    (hweb : ∀ p ∈ List.range' 1 N, web p = some (ps p))
    (hupper : ∀ p ∈ List.range' (k+1) (N-k),
      ∀ q ∈ travOf (extract_thread_id url) ps p,
        contentNonempty q = true ∧ isBoundary (some W) q.id = false ∧
          post_exists db0 q.id = false)
    (hdec : ((ps k).map (stampThread (extract_thread_id url))).reverse = pre ++ w :: suf)
    (hpre : ∀ q ∈ pre, contentNonempty q = true ∧ isBoundary (some W) q.id = false ∧
      post_exists db0 q.id = false)
    (hw_c : contentNonempty w = true) (hw_b : isBoundary (some W) w.id = true)
    (hnodup : ((((List.range' (k+1) (N-k)).reverse.map
        (travOf (extract_thread_id url) ps)).flatten ++ pre).map
          (fun q => q.id)).Nodup) :
    (∀ (db : DB) (page : List PostData) (tid : String) (lp : Option String),
      collect_posts_from_page db page tid lp =
        ⟨pageSpecList db lp ((page.map (stampThread tid)).reverse),
         pageSpecOld db lp 0 ((page.map (stampThread tid)).reverse),
         pageSpecFound lp ((page.map (stampThread tid)).reverse)⟩) ∧
    (collect_thread_posts cfg db0 url isNew web N).db.posts
      = db0.posts ++ (((List.range' (k+1) (N-k)).reverse.map
          (travOf (extract_thread_id url) ps)).flatten ++ pre) ∧
    (collect_thread_posts cfg db0 url isNew web N).total
      = (((List.range' (k+1) (N-k)).reverse.map
          (travOf (extract_thread_id url) ps)).flatten ++ pre).length ∧
    collectPages (collect_thread_posts cfg db0 url isNew web N).trace
      = (List.range' k (N - k + 1)).reverse := by
  refine ⟨fun db page tid lp => collect_posts_from_page_eq db page tid lp, ?_⟩
  have h1 : web 1 = some (ps 1) := hweb 1 (List.mem_range'_1.mpr (by omega))
  rw [collect_rev cfg db0 url isNew web N (ps 1) h1 hte]
  dsimp only
  rw [hlp]
  have e1 : List.range' 1 (k-1) ++ List.range' k (N-k+1) = List.range' 1 N := by
    have h := List.range'_append 1 (k-1) (N-k+1) 1
    rw [show 1 + 1 * (k-1) = k from by omega] at h
    rw [show (N-k+1) + (k-1) = N from by omega] at h
    exact h
  have e2 : List.range' k (N-k+1) = k :: List.range' (k+1) (N-k) := List.range'_succ _ _ _
  have hrev : (List.range' 1 N).reverse
      = (List.range' (k+1) (N-k)).reverse ++ k :: (List.range' 1 (k-1)).reverse := by
    rw [← e1, e2]
    simp
  rw [hrev, runPages_append]
  obtain ⟨hinvA, htrA⟩ := revRun_all_new cfg (extract_thread_id url) web ps (some W) db0
    hfail0 (List.range' (k+1) (N-k)).reverse
    ⟨db0, [], none, none, 0, false,
     [Ev.fetch 1 true, Ev.getWatermark (extract_thread_id url) (some W)]⟩
    []
    (fun p hp => hweb p (by
      have := List.mem_range'_1.mp (List.mem_reverse.mp hp)
      exact List.mem_range'_1.mpr (by omega)))
    (fun p hp q hq => hupper p (List.mem_reverse.mp hp) q hq)
    (by simpa using hnodup.sublist ((List.sublist_append_left _ _).map _))
    ⟨[], rfl, by simp, hfail0, rfl, rfl, fun q hq => absurd hq (List.not_mem_nil q)⟩
  set stA := runPages
    (revStep cfg (extract_thread_id url) web (some W))
    (List.range' (k+1) (N-k)).reverse
    ⟨db0, [], none, none, 0, false,
     [Ev.fetch 1 true, Ev.getWatermark (extract_thread_id url) (some W)]⟩ with hstAdef
  obtain ⟨fl1, hstop, hposts, hfailA, hdoneA, htotA, hfreshA⟩ := hinvA
  rw [List.nil_append] at hdoneA
  have hfreshJ : ∀ q ∈ ((List.range' (k+1) (N-k)).reverse.map
      (travOf (extract_thread_id url) ps)).flatten, post_exists db0 q.id = false := by
    intro q hq
    exact hfreshA q (by simpa using hq)
  have hwk : web k = some (ps k) := hweb k (List.mem_range'_1.mpr (by omega))
  have hpreFresh : ∀ q ∈ pre, post_exists db0 q.id = false :=
    fun q hq => (hpre q hq).2.2
  have hpreA : ∀ q ∈ pre, contentNonempty q = true ∧
      isBoundary (some W) q.id = false ∧ post_exists stA.db q.id = false := by
    intro q hq
    exact ⟨(hpre q hq).1, (hpre q hq).2.1,
      fresh_in_current hposts hfailA hdoneA hfail0 hnodup hpreFresh q hq⟩
  have hcb := collect_boundary stA.db (ps k) (extract_thread_id url) (some W) pre w suf
    hdec hpreA hw_c hw_b
  have hstB := revStep_boundary cfg (extract_thread_id url) web (some W) stA k (ps k)
    hstop hwk hcb.2
  have hrunB : runPages (revStep cfg (extract_thread_id url) web (some W))
      (k :: (List.range' 1 (k-1)).reverse) stA
      = revStep cfg (extract_thread_id url) web (some W) stA k := by
    show runPages (revStep cfg (extract_thread_id url) web (some W))
        ((List.range' 1 (k-1)).reverse)
        (revStep cfg (extract_thread_id url) web (some W) stA k) = _
    rw [hstB]
    exact runPages_rev_stopped cfg (extract_thread_id url) web (some W) _ _ rfl
  rw [hrunB, hstB, hcb.1]
  have hok := buffer_ext_ok hposts hdoneA hfail0 hnodup hfreshJ hpreFresh
  have hst0tr : collectPages stA.trace
      = (List.range' (k+1) (N-k)).reverse := by
    rw [htrA]
    rfl
  by_cases hbe : (stA.buffer ++ pre).isEmpty = true
  · have hnil : stA.buffer ++ pre = [] := by simpa [List.isEmpty_iff] using hbe
    have hb1 : stA.buffer = [] := (List.append_eq_nil.mp hnil).1
    have hp1 : pre = [] := (List.append_eq_nil.mp hnil).2
    rw [finalFlush_empty (extract_thread_id url) true _ (by
      dsimp only
      exact hbe)]
    dsimp only
    refine ⟨?_, ?_, ?_⟩
    · rw [hposts, hp1]
      rw [hb1, List.append_nil] at hdoneA
      rw [hdoneA]
      simp
    · rw [htotA, hp1]
      rw [hb1, List.append_nil] at hdoneA
      rw [hdoneA]
      simp
    · rw [collectPages_append, hst0tr, hp1]
      rw [e2]
      simp [collectPages]
  · replace hbe : (stA.buffer ++ pre).isEmpty = false := by simpa using hbe
    rw [finalFlush_ne (extract_thread_id url) true _ (by
      dsimp only
      exact hbe)]
    dsimp only
    have hbi := batch_insert_fresh stA.db (stA.buffer ++ pre) hfailA hok.1 hok.2
    refine ⟨?_, ?_, ?_⟩
    · rw [flushWm_posts, hbi]
      dsimp only
      rw [hposts, List.append_assoc, ← List.append_assoc fl1 stA.buffer pre, hdoneA]
    · rw [flushWm_count, hbi]
      dsimp only
      rw [htotA]
      have hlen := congrArg List.length hdoneA
      simp only [List.length_append] at hlen ⊢
      omega
    · rw [collectPages_append, collectPages_append, collectPages_flushWm, hst0tr]
      rw [e2]
      simp [collectPages]


/-- Concrete two-page known container for exercising the resume cutoff: the stored
watermark names the first post of page 1, page 1 also holds one newer post, page 2
holds one more. -/
def c3url : String := "https://f319.com/threads/x.9/"

def c3w : PostData := ⟨"p1", "", "u", "", 0, "old"⟩

def c3a : PostData := ⟨"a1", "", "u", "", 0, "new"⟩

def c3b : PostData := ⟨"b1", "", "u", "", 0, "new2"⟩

def c3db : DB := ⟨[⟨"9", "", "", "", "", c3url, "", "", some "p1"⟩], [c3w], false⟩

def c3ps : Nat → List PostData :=
  fun p => if p = 1 then [c3w, c3a] else if p = 2 then [c3b] else []

def c3web : Nat → Option (List PostData) := fun p => some (c3ps p)

theorem boundary_resume_cutoff_witness :
    (collect_thread_posts ⟨100, false, ""⟩ c3db c3url none c3web 2).db.posts
      = c3db.posts ++ (((List.range' 2 1).reverse.map
          (travOf (extract_thread_id c3url) c3ps)).flatten
            ++ ([⟨"a1", "9", "u", "", 0, "new"⟩] : List PostData)) ∧
    (collect_thread_posts ⟨100, false, ""⟩ c3db c3url none c3web 2).total
      = (((List.range' 2 1).reverse.map
          (travOf (extract_thread_id c3url) c3ps)).flatten
            ++ ([⟨"a1", "9", "u", "", 0, "new"⟩] : List PostData)).length ∧
    collectPages (collect_thread_posts ⟨100, false, ""⟩ c3db c3url none c3web 2).trace
      = (List.range' 1 (2 - 1 + 1)).reverse :=
  (boundary_resume_cutoff ⟨100, false, ""⟩ c3db c3url none c3web c3ps 2 1 "p1"
    ([⟨"a1", "9", "u", "", 0, "new"⟩] : List PostData)
    (⟨"p1", "9", "u", "", 0, "old"⟩ : PostData) ([] : List PostData)
    rfl (by decide) (by decide) (by decide) (by decide) (by decide) (by decide)
    (by decide) (by decide) (by decide) (by decide) (by decide)).2

/-- Scanning check: every flushBatch event is immediately followed by a setWatermark
event. -/
def flushThenWm : List Ev → Bool
  | [] => true
  | Ev.flushBatch _ _ :: rest =>
    match rest with
    | Ev.setWatermark _ _ _ :: rest2 => flushThenWm rest2
    | _ => false
  | _ :: rest => flushThenWm rest

lemma ftw_fetch (p : Nat) (ok : Bool) (rest : List Ev) :
    flushThenWm (Ev.fetch p ok :: rest) = flushThenWm rest := rfl

lemma ftw_getwm (t : String) (f : Option String) (rest : List Ev) :
    flushThenWm (Ev.getWatermark t f :: rest) = flushThenWm rest := rfl

lemma ftw_page (p : Nat) (c : List PostData) (rest : List Ev) :
    flushThenWm (Ev.pageCollect p c :: rest) = flushThenWm rest := rfl

lemma ftw_setwm (t : String) (i : String) (o : Bool) (rest : List Ev) :
    flushThenWm (Ev.setWatermark t i o :: rest) = flushThenWm rest := rfl

lemma ftw_pair (b : List PostData) (n : Nat) (t i : String) (o : Bool) (rest : List Ev) :
    flushThenWm (Ev.flushBatch b n :: Ev.setWatermark t i o :: rest)
      = flushThenWm rest := rfl

lemma ftw_dangle_nil (b : List PostData) (n : Nat) :
    flushThenWm [Ev.flushBatch b n] = false := rfl

lemma ftw_dangle_fetch (b : List PostData) (n p : Nat) (ok : Bool) (r : List Ev) :
    flushThenWm (Ev.flushBatch b n :: Ev.fetch p ok :: r) = false := rfl

lemma ftw_dangle_getwm (b : List PostData) (n : Nat) (t : String) (f : Option String)
    (r : List Ev) : flushThenWm (Ev.flushBatch b n :: Ev.getWatermark t f :: r)
      = false := rfl

lemma ftw_dangle_page (b : List PostData) (n p : Nat) (c : List PostData) (r : List Ev) :
    flushThenWm (Ev.flushBatch b n :: Ev.pageCollect p c :: r) = false := rfl

lemma ftw_dangle_flush (b : List PostData) (n : Nat) (b2 : List PostData) (n2 : Nat)
    (r : List Ev) : flushThenWm (Ev.flushBatch b n :: Ev.flushBatch b2 n2 :: r)
      = false := rfl

lemma flushThenWm_append_aux : ∀ (n : Nat) (xs ys : List Ev), xs.length ≤ n →
    flushThenWm xs = true → flushThenWm (xs ++ ys) = flushThenWm ys := by
  intro n
  induction n with
  | zero =>
    intro xs ys hl h
    have hxs : xs = [] := List.eq_nil_of_length_eq_zero (by omega)
    subst hxs
    rfl
  | succ n ih =>
    intro xs ys hl h
    cases xs with
    | nil => rfl
    | cons e rest =>
      cases e with
      | fetch p ok =>
        rw [List.cons_append, ftw_fetch]
        rw [ftw_fetch] at h
        exact ih rest ys (by simp at hl; omega) h
      | getWatermark t f =>
        rw [List.cons_append, ftw_getwm]
        rw [ftw_getwm] at h
        exact ih rest ys (by simp at hl; omega) h
      | pageCollect p c =>
        rw [List.cons_append, ftw_page]
        rw [ftw_page] at h
        exact ih rest ys (by simp at hl; omega) h
      | setWatermark t i o =>
        rw [List.cons_append, ftw_setwm]
        rw [ftw_setwm] at h
        exact ih rest ys (by simp at hl; omega) h
      | flushBatch b m =>
        cases rest with
        | nil =>
          rw [ftw_dangle_nil] at h
          simp at h
        | cons e2 rest2 =>
          cases e2 with
          | setWatermark t i o =>
            rw [List.cons_append, List.cons_append, ftw_pair]
            rw [ftw_pair] at h
            exact ih rest2 ys (by simp at hl; omega) h
          | fetch p ok => rw [ftw_dangle_fetch] at h; simp at h
          | getWatermark t f => rw [ftw_dangle_getwm] at h; simp at h
          | pageCollect p c => rw [ftw_dangle_page] at h; simp at h
          | flushBatch b2 n2 => rw [ftw_dangle_flush] at h; simp at h

lemma flushThenWm_append (xs ys : List Ev) (h : flushThenWm xs = true) :
    flushThenWm (xs ++ ys) = flushThenWm ys :=
  flushThenWm_append_aux xs.length xs ys le_rfl h

lemma flushSizes_append (xs ys : List Ev) :
    flushSizes (xs ++ ys) = flushSizes xs ++ flushSizes ys := by
  simp [flushSizes, flushBatches_append]

lemma flushSizes_flushWm (tid : String) (db : DB) (batch : List PostData)
    (wm : Option String) : flushSizes (flushWm tid db batch wm).2.2 = [batch.length] := by
  simp [flushSizes, flushBatches_flushWm]

lemma take_append_len {α : Type} :
    ∀ (A C : List α) (m : Nat), (A ++ C).take (A.length + m) = A ++ C.take m := by
  intro A
  induction A with
  | nil => intro C m; simp
  | cons a A ih =>
    intro C m
    simp only [List.cons_append, List.length_cons]
    have he : A.length + 1 + m = (A.length + m) + 1 := by omega
    rw [he, List.take_succ_cons, ih]

lemma drop_append_len {α : Type} :
    ∀ (A C : List α) (m : Nat), (A ++ C).drop (A.length + m) = C.drop m := by
  intro A
  induction A with
  | nil => intro C m; simp
  | cons a A ih =>
    intro C m
    simp only [List.cons_append, List.length_cons]
    have he : A.length + 1 + m = (A.length + m) + 1 := by omega
    rw [he, List.drop_succ_cons, ih]

lemma take_append_exact {α : Type} (A C : List α) (n m : Nat) (h : A.length = n) :
    (A ++ C).take (n + m) = A ++ C.take m := by
  subst h
  exact take_append_len A C m

lemma drop_append_exact {α : Type} (A C : List α) (n m : Nat) (h : A.length = n) :
    (A ++ C).drop (n + m) = C.drop m := by
  subst h
  exact drop_append_len A C m

/-- Store and trace invariant of a forward traversal over fresh pages whose raw pages
never exceed the batch size: after each page the buffer holds fewer than `batch_size`
items, the posts flushed so far are the first `f * batch_size` collected items for the
number `f` of flushes, all flushes were full batches, every flush was immediately
followed by a watermark update, and the tracked `last_crawled_post_id` is truthy once
anything was collected. -/
def FwdInv (db0 : DB) (cfg : Config) (st : CState) (done : List PostData) : Prop :=
  ∃ f : Nat,
    f * cfg.batch_size ≤ done.length ∧
    st.db.posts = db0.posts ++ done.take (f * cfg.batch_size) ∧
    st.db.failing = false ∧
    st.buffer = done.drop (f * cfg.batch_size) ∧
    st.buffer.length < cfg.batch_size ∧
    flushSizes st.trace = List.replicate f cfg.batch_size ∧
    flushThenWm st.trace = true ∧
    (done ≠ [] → optTruthy st.last_crawled_post_id = true) ∧
    (∀ q ∈ done, post_exists db0 q.id = false)

lemma fwdRun_all_new (cfg : Config) (tid : String) (web : Nat → Option (List PostData))
    (ps : Nat → List PostData) (db0 : DB) (hfail0 : db0.failing = false) :
    ∀ (L : List Nat) (st : CState) (done : List PostData),
      (∀ p ∈ L, web p = some (ps p)) →
      (∀ p ∈ L, ∀ q ∈ travOf tid ps p, contentNonempty q = true ∧ ¬ q.id = "" ∧
        post_exists db0 q.id = false) →
      (∀ p ∈ L, (travOf tid ps p).length ≤ cfg.batch_size) →
      ((done ++ (L.map (travOf tid ps)).flatten).map (fun q => q.id)).Nodup →
      FwdInv db0 cfg st done →
      FwdInv db0 cfg (runPages (fwdStep cfg tid web) L st)
        (done ++ (L.map (travOf tid ps)).flatten) := by
  intro L
  induction L with
  | nil =>
    intro st done _ _ _ _ hinv
    simpa [runPages] using hinv
  | cons p L' ih =>
    intro st done hweb hitems hpage hnodup hinv
    obtain ⟨f, hfB, hposts, hfail, hbuf, hblt, hfs, hftw, hlc, hdfresh⟩ := hinv
    have hw : web p = some (ps p) := hweb p (by simp)
    have hdone : done.take (f * cfg.batch_size) ++ st.buffer = done := by
      rw [hbuf]
      exact List.take_append_drop _ _
    have hAlen : (done.take (f * cfg.batch_size)).length = f * cfg.batch_size := by
      rw [List.length_take]
      omega
    have hTfresh0 : ∀ q ∈ travOf tid ps p, post_exists db0 q.id = false :=
      fun q hq => (hitems p (by simp) q hq).2.2
    have hndT : ((done ++ travOf tid ps p).map (fun q => q.id)).Nodup := by
      have hsub : List.Sublist (done ++ travOf tid ps p)
          (done ++ (travOf tid ps p ++ (L'.map (travOf tid ps)).flatten)) :=
        List.Sublist.append (List.Sublist.refl done) (List.sublist_append_left _ _)
      have hnd0 : ((done ++ (travOf tid ps p ++
          (L'.map (travOf tid ps)).flatten)).map (fun q => q.id)).Nodup := by
        simpa using hnodup
      exact hnd0.sublist (hsub.map _)
    have hTfresh : ∀ q ∈ travOf tid ps p, post_exists st.db q.id = false :=
      fresh_in_current hposts hfail hdone hfail0 hndT hTfresh0
    have hr : collect_posts_from_page st.db (ps p) tid none
        = ⟨travOf tid ps p, 0, false⟩ := by
      refine collect_all_new st.db (ps p) tid none ?_
      intro q hq
      exact ⟨(hitems p (by simp) q hq).1, rfl, hTfresh q hq⟩
    have hwm : optTruthy (headIdOr (travOf tid ps p) st.last_crawled_post_id) = true ∨
        (travOf tid ps p = [] ∧
          headIdOr (travOf tid ps p) st.last_crawled_post_id
            = st.last_crawled_post_id) := by
      cases hT : travOf tid ps p with
      | nil => exact Or.inr ⟨rfl, rfl⟩
      | cons q qs =>
        left
        have hid : ¬ q.id = "" := (hitems p (by simp) q (by rw [hT]; simp)).2.1
        simp [headIdOr, optTruthy, hid]
    have hok := buffer_ext_ok hposts hdone hfail0 hndT hdfresh hTfresh0
    by_cases hlen : cfg.batch_size ≤
        (st.buffer ++ (collect_posts_from_page st.db (ps p) tid none).posts_list).length
    · -- this page triggers a full-batch flush
      have hstep := fwdStep_flush cfg tid web st p (ps p) hw hlen
      rw [hr] at hstep hlen
      dsimp only at hstep hlen
      have hwmT : optTruthy (headIdOr (travOf tid ps p) st.last_crawled_post_id)
          = true := by
        rcases hwm with hwm | ⟨hTnil, hsame⟩
        · exact hwm
        · rw [hsame]
          refine hlc ?_
          intro hdnil
          rw [hdnil] at hbuf
          rw [hTnil, hbuf] at hlen
          simp at hlen
          omega
      have hbatch : ((st.buffer ++ travOf tid ps p).take cfg.batch_size).length
          = cfg.batch_size := by
        rw [List.length_take]
        omega
      have hbi := batch_insert_fresh st.db
        ((st.buffer ++ travOf tid ps p).take cfg.batch_size) hfail
        (fun q hq => hok.1 q (List.mem_of_mem_take hq))
        (hok.2.sublist ((List.take_sublist _ _).map _))
      have hdecomp : done ++ travOf tid ps p
          = done.take (f * cfg.batch_size) ++ (st.buffer ++ travOf tid ps p) := by
        rw [← List.append_assoc, hdone]
      have hmul : (f + 1) * cfg.batch_size = f * cfg.batch_size + cfg.batch_size := by
        ring
      unfold runPages
      rw [hstep]
      rw [show done ++ (List.map (travOf tid ps) (p :: L')).flatten
          = (done ++ travOf tid ps p) ++ (L'.map (travOf tid ps)).flatten from by simp]
      refine ih _ (done ++ travOf tid ps p)
        (fun q hq => hweb q (by simp [hq]))
        (fun q hq r hr2 => hitems q (by simp [hq]) r hr2)
        (fun q hq => hpage q (by simp [hq]))
        (by simpa using hnodup)
        ⟨f + 1, ?_, ?_, ?_, ?_, ?_, ?_, ?_, ?_, ?_⟩
      · rw [hmul]
        have h1 : st.buffer.length = done.length - f * cfg.batch_size := by
          rw [hbuf, List.length_drop]
        simp only [List.length_append] at hlen ⊢
        omega
      · dsimp only
        rw [flushWm_posts, hbi]
        dsimp only
        rw [hposts, hmul, hdecomp,
          take_append_exact _ _ _ _ hAlen, List.append_assoc]
      · dsimp only
        rw [flushWm_failing, hbi]
        exact hfail
      · dsimp only
        rw [hmul, hdecomp, drop_append_exact _ _ _ _ hAlen]
      · dsimp only
        rw [List.length_drop]
        simp only [List.length_append] at hlen ⊢
        have hT := hpage p (by simp)
        omega
      · dsimp only
        rw [flushSizes_append, flushSizes_append, flushSizes_flushWm, hbatch, hfs]
        rw [List.replicate_succ']
        simp [flushSizes, flushBatches]
      · dsimp only
        rw [flushThenWm_append _ _ (by
          rw [flushThenWm_append _ _ hftw]
          rfl)]
        rw [flushWm_events, if_pos hwmT]
        rfl
      · intro _
        dsimp only
        exact hwmT
      · intro q hq
        rcases List.mem_append.mp hq with hq | hq
        · exact hdfresh q hq
        · exact hTfresh0 q hq
    · -- buffer stays below the threshold
      have hstep := fwdStep_small cfg tid web st p (ps p) hw hlen
      rw [hr] at hstep hlen
      dsimp only at hstep hlen
      unfold runPages
      rw [hstep]
      rw [show done ++ (List.map (travOf tid ps) (p :: L')).flatten
          = (done ++ travOf tid ps p) ++ (L'.map (travOf tid ps)).flatten from by simp]
      refine ih _ (done ++ travOf tid ps p)
        (fun q hq => hweb q (by simp [hq]))
        (fun q hq r hr2 => hitems q (by simp [hq]) r hr2)
        (fun q hq => hpage q (by simp [hq]))
        (by simpa using hnodup)
        ⟨f, ?_, ?_, ?_, ?_, ?_, ?_, ?_, ?_, ?_⟩
      · simp only [List.length_append]
        omega
      · dsimp only
        rw [hposts]
        have : (done ++ travOf tid ps p).take (f * cfg.batch_size)
            = done.take (f * cfg.batch_size) := by
          apply List.take_append_of_le_length
          omega
        rw [this]
      · dsimp only
        exact hfail
      · dsimp only
        have : (done ++ travOf tid ps p).drop (f * cfg.batch_size)
            = done.drop (f * cfg.batch_size) ++ travOf tid ps p := by
          apply List.drop_append_of_le_length
          omega
        rw [this, ← hbuf]
      · dsimp only
        simp only [List.length_append] at hlen ⊢
        omega
      · dsimp only
        rw [flushSizes_append, hfs]
        simp [flushSizes, flushBatches]
      · dsimp only
        rw [flushThenWm_append _ _ hftw]
        rfl
      · intro hne
        dsimp only
        rcases hwm with hwm | ⟨hTnil, hsame⟩
        · exact hwm
        · rw [hsame]
          refine hlc ?_
          intro hdnil
          rw [hdnil, hTnil] at hne
          exact hne rfl
      · intro q hq
        rcases List.mem_append.mp hq with hq | hq
        · exact hdfresh q hq
        · exact hTfresh0 q hq


/-- C5 (amended): the batch flush pattern, a FORWARD-mode property.  In a forward
traversal of a first-seen container with batch size `B ≥ 4`, pages that never yield
more than `B` items each and `2*B + 3` fresh items in total, the engine performs
exactly 2 full flushes of size `B` followed by 1 final flush of size 3, and every
flush is immediately followed by a watermark update.  Both restrictions are forced by
the code: without the per-page bound one page of `2*B + 3` items yields flushes of
sizes `B` and `B + 3`, and in a reverse traversal the boundary page bypasses the
threshold check entirely (`break` before the check), yielding `[B, B + 3]` even under
the per-page bound — see the counterexample for both. -/
theorem batch_flush_pattern
    (cfg : Config) (db0 : DB) (url : String) (isNew : Option Bool)
    (web : Nat → Option (List PostData)) (ps : Nat → List PostData) (N : Nat)
    (hfail0 : db0.failing = false)
    (hte : threadExistsFlag db0 url isNew = false)
    (hB : 4 ≤ cfg.batch_size)
    (hN : 1 ≤ N)
    (hweb : ∀ p ∈ List.range' 1 N, web p = some (ps p))
    (hitems : ∀ p ∈ List.range' 1 N, ∀ q ∈ travOf (extract_thread_id url) ps p,
      contentNonempty q = true ∧ ¬ q.id = "" ∧ post_exists db0 q.id = false)
    (hpage : ∀ p ∈ List.range' 1 N,
      (travOf (extract_thread_id url) ps p).length ≤ cfg.batch_size)
    (hnodup : (((List.range' 1 N).map (travOf (extract_thread_id url) ps)).flatten.map
      (fun q => q.id)).Nodup)
    (htotal : ((List.range' 1 N).map (travOf (extract_thread_id url) ps)).flatten.length
      = 2 * cfg.batch_size + 3) :
    flushSizes (collect_thread_posts cfg db0 url isNew web N).trace
      = [cfg.batch_size, cfg.batch_size, 3] ∧
    flushThenWm (collect_thread_posts cfg db0 url isNew web N).trace = true := by
  have h1 : web 1 = some (ps 1) := hweb 1 (List.mem_range'_1.mpr (by omega))
  rw [collect_fwd cfg db0 url isNew web N (ps 1) h1 hte]
  dsimp only
  have hinv := fwdRun_all_new cfg (extract_thread_id url) web ps db0 hfail0
    (List.range' 1 N)
    ⟨db0, [], none, none, 0, false, [Ev.fetch 1 true]⟩
    [] hweb hitems hpage (by simpa using hnodup)
    ⟨0, by simp, by simp, hfail0, by simp, by simp; omega, rfl, rfl,
     fun h => absurd rfl h, fun q hq => absurd hq (List.not_mem_nil q)⟩
  set stF := runPages (fwdStep cfg (extract_thread_id url) web) (List.range' 1 N)
    ⟨db0, [], none, none, 0, false, [Ev.fetch 1 true]⟩ with hstF
  rw [List.nil_append] at hinv
  obtain ⟨f, hfB, hposts, hfail, hbuf, hblt, hfs, hftw, hlc, hfresh⟩ := hinv
  have hblen : stF.buffer.length
      = ((List.range' 1 N).map (travOf (extract_thread_id url) ps)).flatten.length
        - f * cfg.batch_size := by
    rw [hbuf, List.length_drop]
  have hf2 : f = 2 := by
    rcases Nat.lt_or_ge f 2 with h | h
    · have hm : f * cfg.batch_size ≤ 1 * cfg.batch_size :=
        Nat.mul_le_mul_right _ (by omega)
      rw [one_mul] at hm
      omega
    · rcases Nat.lt_or_ge f 3 with h2 | h2
      · omega
      · have hm : 3 * cfg.batch_size ≤ f * cfg.batch_size :=
          Nat.mul_le_mul_right _ h2
        omega
  have hlen3 : stF.buffer.length = 3 := by
    rw [hblen, htotal, hf2]
    omega
  have hlcT : optTruthy stF.last_crawled_post_id = true := by
    refine hlc ?_
    intro hnil
    rw [hnil] at hbuf
    have := hblen
    rw [hbuf] at hlen3
    simp at hlen3
  have hne : stF.buffer.isEmpty = false := by
    rcases he : stF.buffer.isEmpty with _ | _
    · rfl
    · exfalso
      have hx := List.isEmpty_iff.mp he
      rw [hx] at hlen3
      simp at hlen3
  rw [finalFlush_ne (extract_thread_id url) false stF hne]
  dsimp only
  constructor
  · rw [flushSizes_append, flushSizes_flushWm, hfs, hf2, hlen3]
    rfl
  · rw [flushThenWm_append _ _ hftw]
    rw [flushWm_events, if_pos (show optTruthy
      (if false then stF.newest_post_id else stF.last_crawled_post_id) = true
        from hlcT)]
    rfl

/-- Page contents for the counterexample: one page carrying all seven items. -/
def c5post (i : Nat) : PostData := ⟨"q" ++ toString i, "", "u", "", 0, "x"⟩

def c5ps : Nat → List PostData :=
  fun p => if p = 1 then
    [c5post 1, c5post 2, c5post 3, c5post 4, c5post 5, c5post 6, c5post 7]
  else []

def c5web : Nat → Option (List PostData) := fun p => some (c5ps p)

/-- Items and pages of the reverse-mode counterexample: the stored watermark `w0`
heads page 1, followed by four newer items; pages 2 and 3 hold four and five newer
items, so `2*5 + 3 = 13` new items sit on pages yielding at most 5 items each. -/
def c5rpost (c : String) (i : Nat) : PostData := ⟨c ++ toString i, "", "u", "", 0, "x"⟩

def c5rurl : String := "https://f319.com/threads/x.9/"

def c5rdb : DB :=
  ⟨[⟨"9", "", "", "", "", c5rurl, "", "", some "w0"⟩],
   [⟨"w0", "9", "u", "", 0, "x"⟩], false⟩

def c5rps : Nat → List PostData :=
  fun p =>
    if p = 1 then ⟨"w0", "", "u", "", 0, "x"⟩ ::
      [c5rpost "a" 1, c5rpost "a" 2, c5rpost "a" 3, c5rpost "a" 4]
    else if p = 2 then [c5rpost "b" 1, c5rpost "b" 2, c5rpost "b" 3, c5rpost "b" 4]
    else if p = 3 then
      [c5rpost "c" 1, c5rpost "c" 2, c5rpost "c" 3, c5rpost "c" 4, c5rpost "c" 5]
    else []

def c5rweb : Nat → Option (List PostData) := fun p => some (c5rps p)

/-- Counterexamples to the claimed flush pattern, one per traversal direction.
Forward: batch size `B = 2` and `2*B + 3 = 7` new items available, but all on one
page — the engine flushes once per page, so it performs ONE full flush of size 2 and
a final flush of size 5, not two full flushes and a final flush of 3.  Reverse: even
with every page at or under the batch size (`B = 5`, pages of 5, 4 and 4-plus-boundary
raw items, `2*5 + 3 = 13` new items collected), the boundary page extends the buffer
and `break`s before the threshold check (f319_hybrid_crawler.py 406-416 precede 418),
so the engine flushes `[5, 8]`, not `[5, 5, 3]` — the pattern is a forward-mode
property only. -/
theorem batch_flush_pattern_counterexample :
    (((List.range' 1 1).map (travOf "7" c5ps)).flatten.length = 2 * 2 + 3 ∧
     flushSizes (collect_thread_posts ⟨2, false, ""⟩ ⟨[], [], false⟩
       "https://f319.com/threads/x.7/" (some true) c5web 1).trace = [2, 5] ∧
     flushSizes (collect_thread_posts ⟨2, false, ""⟩ ⟨[], [], false⟩
       "https://f319.com/threads/x.7/" (some true) c5web 1).trace ≠ [2, 2, 3]) ∧
    (threadExistsFlag c5rdb c5rurl none = true ∧
     (∀ p ∈ List.range' 1 3, (c5rps p).length ≤ 5) ∧
     (collect_thread_posts ⟨5, false, ""⟩ c5rdb c5rurl none c5rweb 3).total
       = 2 * 5 + 3 ∧
     flushSizes (collect_thread_posts ⟨5, false, ""⟩ c5rdb c5rurl none
       c5rweb 3).trace = [5, 8] ∧
     flushSizes (collect_thread_posts ⟨5, false, ""⟩ c5rdb c5rurl none
       c5rweb 3).trace ≠ [5, 5, 3]) := by
  refine ⟨⟨by decide, by decide, by decide⟩,
    by decide, by decide, by decide, by decide, by decide⟩

/-- Witness inputs for the amended flush pattern: batch size 4, three pages of sizes
4, 4 and 3. -/
def c5wpost (i : Nat) : PostData := ⟨"w" ++ toString i, "", "u", "", 0, "x"⟩

def c5wps : Nat → List PostData :=
  fun p =>
    if p = 1 then [c5wpost 1, c5wpost 2, c5wpost 3, c5wpost 4]
    else if p = 2 then [c5wpost 5, c5wpost 6, c5wpost 7, c5wpost 8]
    else if p = 3 then [c5wpost 9, c5wpost 10, c5wpost 11]
    else []

def c5wweb : Nat → Option (List PostData) := fun p => some (c5wps p)

theorem batch_flush_pattern_witness :
    flushSizes (collect_thread_posts ⟨4, false, ""⟩ ⟨[], [], false⟩
      "https://f319.com/threads/x.7/" (some true) c5wweb 3).trace = [4, 4, 3] ∧
    flushThenWm (collect_thread_posts ⟨4, false, ""⟩ ⟨[], [], false⟩
      "https://f319.com/threads/x.7/" (some true) c5wweb 3).trace = true :=
  batch_flush_pattern ⟨4, false, ""⟩ ⟨[], [], false⟩
    "https://f319.com/threads/x.7/" (some true) c5wweb c5wps 3
    rfl (by decide) (by decide) (by decide) (by decide) (by decide) (by decide)
    (by decide) (by decide)

/-- Head of an event list is not a setWatermark. -/
def headNotWm : List Ev → Bool
  | Ev.setWatermark _ _ _ :: _ => false
  | _ => true

/-- Scanning check: every setWatermark event is immediately preceded by a flushBatch
event. -/
def wmAfterFlush : List Ev → Bool
  | [] => true
  | Ev.setWatermark _ _ _ :: _ => false
  | Ev.flushBatch _ _ :: Ev.setWatermark _ _ _ :: rest2 => wmAfterFlush rest2
  | _ :: rest => wmAfterFlush rest

lemma waf_fetch (p : Nat) (ok : Bool) (rest : List Ev) :
    wmAfterFlush (Ev.fetch p ok :: rest) = wmAfterFlush rest := rfl

lemma waf_getwm (t : String) (f : Option String) (rest : List Ev) :
    wmAfterFlush (Ev.getWatermark t f :: rest) = wmAfterFlush rest := rfl

lemma waf_page (p : Nat) (c : List PostData) (rest : List Ev) :
    wmAfterFlush (Ev.pageCollect p c :: rest) = wmAfterFlush rest := rfl

lemma waf_wm (t i : String) (o : Bool) (rest : List Ev) :
    wmAfterFlush (Ev.setWatermark t i o :: rest) = false := rfl

lemma waf_pair (b : List PostData) (n : Nat) (t i : String) (o : Bool) (rest : List Ev) :
    wmAfterFlush (Ev.flushBatch b n :: Ev.setWatermark t i o :: rest)
      = wmAfterFlush rest := rfl

lemma waf_fb_nil (b : List PostData) (n : Nat) :
    wmAfterFlush [Ev.flushBatch b n] = true := rfl

lemma waf_fb_fetch (b : List PostData) (n p : Nat) (ok : Bool) (r : List Ev) :
    wmAfterFlush (Ev.flushBatch b n :: Ev.fetch p ok :: r)
      = wmAfterFlush (Ev.fetch p ok :: r) := rfl

lemma waf_fb_getwm (b : List PostData) (n : Nat) (t : String) (f : Option String)
    (r : List Ev) :
    wmAfterFlush (Ev.flushBatch b n :: Ev.getWatermark t f :: r)
      = wmAfterFlush (Ev.getWatermark t f :: r) := rfl

lemma waf_fb_page (b : List PostData) (n p : Nat) (c : List PostData) (r : List Ev) :
    wmAfterFlush (Ev.flushBatch b n :: Ev.pageCollect p c :: r)
      = wmAfterFlush (Ev.pageCollect p c :: r) := rfl

lemma waf_fb_fb (b : List PostData) (n : Nat) (b2 : List PostData) (n2 : Nat)
    (r : List Ev) :
    wmAfterFlush (Ev.flushBatch b n :: Ev.flushBatch b2 n2 :: r)
      = wmAfterFlush (Ev.flushBatch b2 n2 :: r) := rfl

lemma headNotWm_wm (t i : String) (o : Bool) (r : List Ev) :
    headNotWm (Ev.setWatermark t i o :: r) = false := rfl

lemma wmAfterFlush_append_aux : ∀ (n : Nat) (xs ys : List Ev), xs.length ≤ n →
    wmAfterFlush xs = true → wmAfterFlush ys = true → headNotWm ys = true →
    wmAfterFlush (xs ++ ys) = true := by
  intro n
  induction n with
  | zero =>
    intro xs ys hl h1 h2 _
    have hxs : xs = [] := List.eq_nil_of_length_eq_zero (by omega)
    subst hxs
    exact h2
  | succ n ih =>
    intro xs ys hl h1 h2 h3
    cases xs with
    | nil => exact h2
    | cons e rest =>
      cases e with
      | fetch p ok =>
        rw [List.cons_append, waf_fetch]
        rw [waf_fetch] at h1
        exact ih rest ys (by simp at hl; omega) h1 h2 h3
      | getWatermark t f =>
        rw [List.cons_append, waf_getwm]
        rw [waf_getwm] at h1
        exact ih rest ys (by simp at hl; omega) h1 h2 h3
      | pageCollect p c =>
        rw [List.cons_append, waf_page]
        rw [waf_page] at h1
        exact ih rest ys (by simp at hl; omega) h1 h2 h3
      | setWatermark t i o =>
        rw [waf_wm] at h1
        simp at h1
      | flushBatch b m =>
        cases rest with
        | nil =>
          cases ys with
          | nil => rfl
          | cons e2 r2 =>
            cases e2 with
            | setWatermark t i o => rw [headNotWm_wm] at h3; simp at h3
            | fetch p ok =>
              rw [List.cons_append, List.nil_append, waf_fb_fetch]
              exact h2
            | getWatermark t f =>
              rw [List.cons_append, List.nil_append, waf_fb_getwm]
              exact h2
            | pageCollect p c =>
              rw [List.cons_append, List.nil_append, waf_fb_page]
              exact h2
            | flushBatch b2 n2 =>
              rw [List.cons_append, List.nil_append, waf_fb_fb]
              exact h2
        | cons e2 rest2 =>
          cases e2 with
          | setWatermark t i o =>
            rw [List.cons_append, List.cons_append, waf_pair]
            rw [waf_pair] at h1
            exact ih rest2 ys (by simp at hl; omega) h1 h2 h3
          | fetch p ok =>
            rw [List.cons_append, List.cons_append, waf_fb_fetch, ← List.cons_append]
            rw [waf_fb_fetch] at h1
            exact ih (Ev.fetch p ok :: rest2) ys (by simp at hl ⊢; omega) h1 h2 h3
          | getWatermark t f =>
            rw [List.cons_append, List.cons_append, waf_fb_getwm, ← List.cons_append]
            rw [waf_fb_getwm] at h1
            exact ih (Ev.getWatermark t f :: rest2) ys (by simp at hl ⊢; omega) h1 h2 h3
          | pageCollect p c =>
            rw [List.cons_append, List.cons_append, waf_fb_page, ← List.cons_append]
            rw [waf_fb_page] at h1
            exact ih (Ev.pageCollect p c :: rest2) ys (by simp at hl ⊢; omega) h1 h2 h3
          | flushBatch b2 n2 =>
            rw [List.cons_append, List.cons_append, waf_fb_fb, ← List.cons_append]
            rw [waf_fb_fb] at h1
            exact ih (Ev.flushBatch b2 n2 :: rest2) ys (by simp at hl ⊢; omega) h1 h2 h3

lemma wmAfterFlush_append (xs ys : List Ev) (h1 : wmAfterFlush xs = true)
    (h2 : wmAfterFlush ys = true) (h3 : headNotWm ys = true) :
    wmAfterFlush (xs ++ ys) = true :=
  wmAfterFlush_append_aux xs.length xs ys le_rfl h1 h2 h3

lemma waf_flushWm (tid : String) (db : DB) (batch : List PostData) (wm : Option String) :
    wmAfterFlush (flushWm tid db batch wm).2.2 = true := by
  rw [flushWm_events]
  by_cases h : optTruthy wm = true
  · rw [if_pos h]
    rfl
  · rw [if_neg h]
    rfl

lemma headNotWm_flushWm (tid : String) (db : DB) (batch : List PostData)
    (wm : Option String) : headNotWm (flushWm tid db batch wm).2.2 = true := by
  rw [flushWm_events]
  rfl

lemma waf_fwdStep (cfg : Config) (tid : String) (web : Nat → Option (List PostData))
    (st : CState) (p : Nat) (h : wmAfterFlush st.trace = true) :
    wmAfterFlush (fwdStep cfg tid web st p).trace = true := by
  cases hw : web p with
  | none =>
    rw [fwdStep_none cfg tid web st p hw]
    exact wmAfterFlush_append _ _ h rfl rfl
  | some pp =>
    by_cases hlen : cfg.batch_size ≤
        (st.buffer ++ (collect_posts_from_page st.db pp tid none).posts_list).length
    · rw [fwdStep_flush cfg tid web st p pp hw hlen]
      dsimp only
      exact wmAfterFlush_append _ _ (wmAfterFlush_append _ _ h rfl rfl)
        (waf_flushWm _ _ _ _) (headNotWm_flushWm _ _ _ _)
    · rw [fwdStep_small cfg tid web st p pp hw hlen]
      dsimp only
      exact wmAfterFlush_append _ _ h rfl rfl

lemma waf_revStep (cfg : Config) (tid : String) (web : Nat → Option (List PostData))
    (lp : Option String) (st : CState) (p : Nat) (h : wmAfterFlush st.trace = true) :
    wmAfterFlush (revStep cfg tid web lp st p).trace = true := by
  by_cases h0 : st.stopped = true
  · rw [revStep_stopped cfg tid web lp st p h0]
    exact h
  · replace h0 : st.stopped = false := by simpa using h0
    cases hw : web p with
    | none =>
      rw [revStep_none cfg tid web lp st p h0 hw]
      exact wmAfterFlush_append _ _ h rfl rfl
    | some pp =>
      by_cases hf : (collect_posts_from_page st.db pp tid lp).found_last_post = true
      · rw [revStep_boundary cfg tid web lp st p pp h0 hw hf]
        exact wmAfterFlush_append _ _ h rfl rfl
      · replace hf : (collect_posts_from_page st.db pp tid lp).found_last_post = false :=
          by simpa using hf
        by_cases hlen : cfg.batch_size ≤
            (st.buffer ++ (collect_posts_from_page st.db pp tid lp).posts_list).length
        · rw [revStep_flush cfg tid web lp st p pp h0 hw hf hlen]
          dsimp only
          exact wmAfterFlush_append _ _ (wmAfterFlush_append _ _ h rfl rfl)
            (waf_flushWm _ _ _ _) (headNotWm_flushWm _ _ _ _)
        · rw [revStep_small cfg tid web lp st p pp h0 hw hf hlen]
          dsimp only
          exact wmAfterFlush_append _ _ h rfl rfl

lemma waf_finalFlush (tid : String) (te : Bool) (st : CState)
    (h : wmAfterFlush st.trace = true) :
    wmAfterFlush (finalFlush tid te st).trace = true := by
  by_cases hb : st.buffer.isEmpty = true
  · rw [finalFlush_empty tid te st hb]
    exact h
  · replace hb : st.buffer.isEmpty = false := by simpa using hb
    rw [finalFlush_ne tid te st hb]
    dsimp only
    exact wmAfterFlush_append _ _ h (waf_flushWm _ _ _ _) (headNotWm_flushWm _ _ _ _)

lemma waf_collect (cfg : Config) (db0 : DB) (url : String) (isNew : Option Bool)
    (web : Nat → Option (List PostData)) (N : Nat) :
    wmAfterFlush (collect_thread_posts cfg db0 url isNew web N).trace = true := by
  cases hw : web 1 with
  | none =>
    rw [collect_none cfg db0 url isNew web N hw]
    rfl
  | some s =>
    cases hte : threadExistsFlag db0 url isNew with
    | false =>
      rw [collect_fwd cfg db0 url isNew web N s hw hte]
      dsimp only
      refine waf_finalFlush _ _ _ ?_
      exact runPages_invariant _ (fun st => wmAfterFlush st.trace = true)
        (fun st p hp => waf_fwdStep cfg _ web st p hp) _ _ rfl
    | true =>
      rw [collect_rev cfg db0 url isNew web N s hw hte]
      dsimp only
      refine waf_finalFlush _ _ _ ?_
      exact runPages_invariant _ (fun st => wmAfterFlush st.trace = true)
        (fun st p hp => waf_revStep cfg _ web _ st p hp) _ _ rfl


/-- Ids of all items submitted to the store by flushes, in submission order. -/
def flushedIds (tr : List Ev) : List String := (flushedItems tr).map (fun p => p.id)

/-- Scanning check that every setWatermark names an id that some earlier (or the
immediately preceding) flushBatch submitted; `acc` carries the ids flushed so far. -/
def wmNamesFlushed (acc : List String) : List Ev → Bool
  | [] => true
  | Ev.flushBatch b _ :: rest => wmNamesFlushed (acc ++ b.map (fun p => p.id)) rest
  | Ev.setWatermark _ pid _ :: rest => acc.contains pid && wmNamesFlushed acc rest
  | _ :: rest => wmNamesFlushed acc rest

lemma wnf_nil (acc : List String) : wmNamesFlushed acc [] = true := rfl

lemma wnf_fetch (acc : List String) (p : Nat) (ok : Bool) (rest : List Ev) :
    wmNamesFlushed acc (Ev.fetch p ok :: rest) = wmNamesFlushed acc rest := rfl

lemma wnf_getwm (acc : List String) (t : String) (f : Option String) (rest : List Ev) :
    wmNamesFlushed acc (Ev.getWatermark t f :: rest) = wmNamesFlushed acc rest := rfl

lemma wnf_page (acc : List String) (p : Nat) (c : List PostData) (rest : List Ev) :
    wmNamesFlushed acc (Ev.pageCollect p c :: rest) = wmNamesFlushed acc rest := rfl

lemma wnf_fb (acc : List String) (b : List PostData) (n : Nat) (rest : List Ev) :
    wmNamesFlushed acc (Ev.flushBatch b n :: rest)
      = wmNamesFlushed (acc ++ b.map (fun p => p.id)) rest := rfl

lemma wnf_wm (acc : List String) (t pid : String) (o : Bool) (rest : List Ev) :
    wmNamesFlushed acc (Ev.setWatermark t pid o :: rest)
      = (acc.contains pid && wmNamesFlushed acc rest) := rfl

lemma flushedIds_append (xs ys : List Ev) :
    flushedIds (xs ++ ys) = flushedIds xs ++ flushedIds ys := by
  simp [flushedIds, flushedItems_append]

lemma flushedIds_flushWm (tid : String) (db : DB) (batch : List PostData)
    (wm : Option String) :
    flushedIds (flushWm tid db batch wm).2.2 = batch.map (fun p => p.id) := by
  unfold flushedIds
  rw [flushedItems_flushWm]

lemma wmNF_append : ∀ (xs : List Ev) (acc : List String) (ys : List Ev),
    wmNamesFlushed acc (xs ++ ys)
      = (wmNamesFlushed acc xs && wmNamesFlushed (acc ++ flushedIds xs) ys) := by
  intro xs
  induction xs with
  | nil =>
    intro acc ys
    rw [List.nil_append, wnf_nil, Bool.true_and,
      show flushedIds [] = [] from rfl, List.append_nil]
  | cons e rest ih =>
    intro acc ys
    cases e with
    | fetch p ok =>
      rw [List.cons_append, wnf_fetch, wnf_fetch, ih,
        show flushedIds (Ev.fetch p ok :: rest) = flushedIds rest from by
          simp [flushedIds, flushedItems, flushBatches]]
    | getWatermark t f =>
      rw [List.cons_append, wnf_getwm, wnf_getwm, ih,
        show flushedIds (Ev.getWatermark t f :: rest) = flushedIds rest from by
          simp [flushedIds, flushedItems, flushBatches]]
    | pageCollect p c =>
      rw [List.cons_append, wnf_page, wnf_page, ih,
        show flushedIds (Ev.pageCollect p c :: rest) = flushedIds rest from by
          simp [flushedIds, flushedItems, flushBatches]]
    | setWatermark t pid o =>
      rw [List.cons_append, wnf_wm, wnf_wm, ih,
        show flushedIds (Ev.setWatermark t pid o :: rest) = flushedIds rest from by
          simp [flushedIds, flushedItems, flushBatches],
        Bool.and_assoc]
    | flushBatch b n =>
      rw [List.cons_append, wnf_fb, wnf_fb, ih,
        show flushedIds (Ev.flushBatch b n :: rest)
            = b.map (fun p => p.id) ++ flushedIds rest from by
          simp [flushedIds, flushedItems, flushBatches],
        List.append_assoc]

lemma wnf_extend (tr ys : List Ev) (hA : wmNamesFlushed [] tr = true)
    (hy : wmNamesFlushed (flushedIds tr) ys = true) :
    wmNamesFlushed [] (tr ++ ys) = true := by
  rw [wmNF_append, hA]
  simpa using hy

lemma contains_of_mem {l : List String} {a : String} (h : a ∈ l) :
    l.contains a = true :=
  List.elem_eq_true_of_mem h

lemma wnf_flushWm (acc : List String) (tid : String) (db : DB) (batch : List PostData)
    (wm : Option String)
    (h : optTruthy wm = true →
      (acc ++ batch.map (fun p => p.id)).contains (wm.getD "") = true) :
    wmNamesFlushed acc (flushWm tid db batch wm).2.2 = true := by
  rw [flushWm_events]
  by_cases ht : optTruthy wm = true
  · rw [if_pos ht, wnf_fb, wnf_wm, h ht, wnf_nil]
    rfl
  · rw [if_neg ht, wnf_fb, wnf_nil]

/-- Naming invariant of the reverse loop: the trace so far passes the check, an unset
newest means nothing buffered, and a set newest is a nonempty id already flushed or
carried by the buffer head. -/
def RevNmInv (st : CState) : Prop :=
  wmNamesFlushed [] st.trace = true ∧
  (st.newest_post_id = none → st.buffer = []) ∧
  (∀ d0, st.newest_post_id = some d0 → ¬ d0 = "" ∧
    (d0 ∈ flushedIds st.trace ∨ ∃ q, st.buffer.head? = some q ∧ q.id = d0))

lemma collect_ids_ne (db : DB) (tid : String) (lp : Option String)
    {pp : List PostData} {web : Nat → Option (List PostData)} {p : Nat}
    (hid : ∀ p l, web p = some l → ∀ q ∈ l, ¬ q.id = "") (hw : web p = some pp) :
    ∀ q ∈ (collect_posts_from_page db pp tid lp).posts_list, ¬ q.id = "" := by
  intro q hq
  have hmem := (collect_page_sublist db pp tid lp).subset hq
  rw [List.mem_reverse] at hmem
  obtain ⟨q0, hq0, hstamp⟩ := List.mem_map.mp hmem
  have hqid : q.id = q0.id := by rw [← hstamp]; rfl
  rw [hqid]
  exact hid p pp hw q0 hq0

lemma head_append_some {α : Type} {l l2 : List α} {q : α}
    (h : l.head? = some q) : (l ++ l2).head? = some q := by
  cases l with
  | nil => simp at h
  | cons x xs => simpa using h

lemma revNm_clauses (st : CState) (T : List PostData)
    (hnone : st.newest_post_id = none → st.buffer = [])
    (hsome : ∀ d0, st.newest_post_id = some d0 → ¬ d0 = "" ∧
      (d0 ∈ flushedIds st.trace ∨ ∃ q, st.buffer.head? = some q ∧ q.id = d0))
    (hids : ∀ q ∈ T, ¬ q.id = "") :
    (revNewest st.newest_post_id T = none → st.buffer ++ T = []) ∧
    (∀ d0, revNewest st.newest_post_id T = some d0 → ¬ d0 = "" ∧
      (d0 ∈ flushedIds st.trace ∨
        ∃ q, (st.buffer ++ T).head? = some q ∧ q.id = d0)) := by
  cases hnew : st.newest_post_id with
  | none =>
    have hbe : st.buffer = [] := hnone hnew
    cases hTc : T with
    | nil =>
      constructor
      · intro _
        rw [hbe]
        rfl
      · intro d0 hd
        simp [revNewest, optTruthy, headIdOr] at hd
    | cons q qs =>
      constructor
      · intro hd
        simp [revNewest, optTruthy, headIdOr] at hd
      · intro d0 hd
        have hd' : q.id = d0 := by
          simpa [revNewest, optTruthy, headIdOr] using hd
        refine ⟨by rw [← hd']; exact hids q (by rw [hTc]; simp), Or.inr ?_⟩
        refine ⟨q, ?_, hd'⟩
        rw [hbe]
        rfl
  | some d0' =>
    obtain ⟨hne', hloc'⟩ := hsome d0' hnew
    have htr : optTruthy (some d0') = true := by simp [optTruthy, hne']
    have hrev : revNewest (some d0') T = some d0' := revNewest_of_truthy htr T
    constructor
    · intro hd
      rw [hrev] at hd
      simp at hd
    · intro d0 hd
      rw [hrev] at hd
      have heq : d0' = d0 := by injection hd
      subst heq
      refine ⟨hne', ?_⟩
      rcases hloc' with hf | ⟨q, hq, hqid⟩
      · exact Or.inl hf
      · exact Or.inr ⟨q, head_append_some hq, hqid⟩

lemma revNm_step (cfg : Config) (tid : String) (web : Nat → Option (List PostData))
    (lp : Option String) (hB : 1 ≤ cfg.batch_size)
    (hid : ∀ p l, web p = some l → ∀ q ∈ l, ¬ q.id = "")
    (st : CState) (p : Nat) (h : RevNmInv st) :
    RevNmInv (revStep cfg tid web lp st p) := by
  obtain ⟨hA, hnone, hsome⟩ := h
  by_cases h0 : st.stopped = true
  · rw [revStep_stopped cfg tid web lp st p h0]
    exact ⟨hA, hnone, hsome⟩
  · replace h0 : st.stopped = false := by simpa using h0
    cases hw : web p with
    | none =>
      rw [revStep_none cfg tid web lp st p h0 hw]
      refine ⟨wnf_extend _ _ hA rfl, hnone, ?_⟩
      intro d0 hd
      obtain ⟨hne, hloc⟩ := hsome d0 hd
      refine ⟨hne, ?_⟩
      rcases hloc with hf | hq
      · left
        dsimp only
        rw [flushedIds_append]
        exact List.mem_append.mpr (Or.inl hf)
      · exact Or.inr hq
    | some pp =>
      have hids := collect_ids_ne st.db tid lp hid hw
      have hcl := revNm_clauses st (collect_posts_from_page st.db pp tid lp).posts_list
        hnone hsome hids
      by_cases hf : (collect_posts_from_page st.db pp tid lp).found_last_post = true
      · rw [revStep_boundary cfg tid web lp st p pp h0 hw hf]
        refine ⟨wnf_extend _ _ hA rfl, ?_, ?_⟩
        · intro hd
          exact hcl.1 hd
        · intro d0 hd
          obtain ⟨hne, hloc⟩ := hcl.2 d0 hd
          refine ⟨hne, ?_⟩
          rcases hloc with hf2 | hq
          · left
            dsimp only
            rw [flushedIds_append]
            exact List.mem_append.mpr (Or.inl hf2)
          · exact Or.inr hq
      · replace hf : (collect_posts_from_page st.db pp tid lp).found_last_post = false :=
          by simpa using hf
        by_cases hlen : cfg.batch_size ≤
            (st.buffer ++ (collect_posts_from_page st.db pp tid lp).posts_list).length
        · rw [revStep_flush cfg tid web lp st p pp h0 hw hf hlen]
          have hd0mem : ∀ d0,
              revNewest st.newest_post_id
                (collect_posts_from_page st.db pp tid lp).posts_list = some d0 →
              d0 ∈ flushedIds st.trace ∨
                d0 ∈ ((st.buffer ++
                  (collect_posts_from_page st.db pp tid lp).posts_list).take
                    cfg.batch_size).map (fun q => q.id) := by
            intro d0 hd
            obtain ⟨_, hloc⟩ := hcl.2 d0 hd
            rcases hloc with hf2 | ⟨q, hq, hqid⟩
            · exact Or.inl hf2
            · right
              refine List.mem_map.mpr ⟨q, ?_, hqid⟩
              obtain ⟨t, hxt⟩ : ∃ t,
                  st.buffer ++ (collect_posts_from_page st.db pp tid lp).posts_list
                    = q :: t := by
                cases hb : st.buffer ++
                    (collect_posts_from_page st.db pp tid lp).posts_list with
                | nil =>
                  rw [hb] at hq
                  simp at hq
                | cons x xs =>
                  rw [hb] at hq
                  have hxq : x = q := by simpa using hq
                  exact ⟨xs, by rw [hxq]⟩
              obtain ⟨B', hB'⟩ : ∃ B', cfg.batch_size = B' + 1 :=
                ⟨cfg.batch_size - 1, by omega⟩
              rw [hxt, hB', List.take_succ_cons]
              simp
          refine ⟨?_, ?_, ?_⟩
          · dsimp only
            refine wnf_extend _ _ (wnf_extend _ _ hA rfl) ?_
            refine wnf_flushWm _ _ _ _ _ ?_
            intro ht
            have hsm : ∃ d0, revNewest st.newest_post_id
                (collect_posts_from_page st.db pp tid lp).posts_list = some d0 := by
              cases hrn : revNewest st.newest_post_id
                  (collect_posts_from_page st.db pp tid lp).posts_list with
              | none =>
                rw [hrn] at ht
                simp [optTruthy] at ht
              | some d0 => exact ⟨d0, rfl⟩
            obtain ⟨d0, hd0⟩ := hsm
            rw [hd0]
            refine contains_of_mem ?_
            rcases hd0mem d0 hd0 with hf2 | hb2
            · refine List.mem_append.mpr (Or.inl ?_)
              rw [flushedIds_append]
              exact List.mem_append.mpr (Or.inl hf2)
            · exact List.mem_append.mpr (Or.inr hb2)
          · intro hd
            dsimp only at hd
            have := hcl.1 hd
            rw [this] at hlen
            simp at hlen
            omega
          · intro d0 hd
            dsimp only at hd
            obtain ⟨hne, _⟩ := hcl.2 d0 hd
            refine ⟨hne, Or.inl ?_⟩
            dsimp only
            rw [flushedIds_append, flushedIds_append, flushedIds_flushWm]
            rcases hd0mem d0 hd with hf2 | hb2
            · exact List.mem_append.mpr (Or.inl (List.mem_append.mpr (Or.inl hf2)))
            · exact List.mem_append.mpr (Or.inr hb2)
        · rw [revStep_small cfg tid web lp st p pp h0 hw hf hlen]
          refine ⟨wnf_extend _ _ hA rfl, ?_, ?_⟩
          · intro hd
            exact hcl.1 hd
          · intro d0 hd
            obtain ⟨hne, hloc⟩ := hcl.2 d0 hd
            refine ⟨hne, ?_⟩
            rcases hloc with hf2 | hq
            · left
              dsimp only
              rw [flushedIds_append]
              exact List.mem_append.mpr (Or.inl hf2)
            · exact Or.inr hq

lemma revNm_final (tid : String) (st : CState) (h : RevNmInv st) :
    wmNamesFlushed [] (finalFlush tid true st).trace = true := by
  obtain ⟨hA, _, hsome⟩ := h
  by_cases hb : st.buffer.isEmpty = true
  · rw [finalFlush_empty tid true st hb]
    exact hA
  · replace hb : st.buffer.isEmpty = false := by simpa using hb
    rw [finalFlush_ne tid true st hb]
    dsimp only
    refine wnf_extend _ _ hA ?_
    refine wnf_flushWm _ _ _ _ _ ?_
    intro ht
    have hwmv : (if true then st.newest_post_id else st.last_crawled_post_id)
        = st.newest_post_id := rfl
    rw [hwmv] at ht ⊢
    cases hnew : st.newest_post_id with
    | none =>
      rw [hnew] at ht
      simp [optTruthy] at ht
    | some d0 =>
      obtain ⟨_, hloc⟩ := hsome d0 hnew
      rw [Option.getD_some]
      refine contains_of_mem ?_
      rcases hloc with hf | ⟨q, hq, hqid⟩
      · exact List.mem_append.mpr (Or.inl hf)
      · refine List.mem_append.mpr (Or.inr (List.mem_map.mpr ⟨q, ?_, hqid⟩))
        cases hbuf : st.buffer with
        | nil =>
          rw [hbuf] at hq
          simp at hq
        | cons x xs =>
          rw [hbuf] at hq
          have hxq : x = q := by simpa using hq
          rw [← hxq]
          simp

lemma wnf_rev_collect (cfg : Config) (db0 : DB) (url : String) (isNew : Option Bool)
    (web : Nat → Option (List PostData)) (N : Nat)
    (hte : threadExistsFlag db0 url isNew = true) (hB : 1 ≤ cfg.batch_size)
    (hid : ∀ p l, web p = some l → ∀ q ∈ l, ¬ q.id = "") :
    wmNamesFlushed [] (collect_thread_posts cfg db0 url isNew web N).trace = true := by
  cases hw : web 1 with
  | none =>
    rw [collect_none cfg db0 url isNew web N hw]
    rfl
  | some s =>
    rw [collect_rev cfg db0 url isNew web N s hw hte]
    dsimp only
    refine revNm_final _ _ ?_
    refine runPages_invariant _ RevNmInv
      (fun st p hp => revNm_step cfg _ web _ hB hid st p hp) _ _ ?_
    refine ⟨rfl, fun _ => rfl, ?_⟩
    intro d0 hd
    simp at hd


lemma take_all_of_len_le {α : Type} : ∀ (l : List α) (n : Nat),
    l.length ≤ n → l.take n = l := by
  intro l
  induction l with
  | nil => intro n _; simp
  | cons a t ih =>
    intro n h
    cases n with
    | zero => simp at h
    | succ m =>
      rw [List.take_succ_cons, ih m (by simp at h; omega)]

/-- Naming invariant of the forward loop under the per-page bound: the trace passes the
check, the buffer stays under the batch size, and the tracked `last_crawled_post_id` is
a nonempty id already flushed or still buffered. -/
def FwdNmInv (cfg : Config) (st : CState) : Prop :=
  wmNamesFlushed [] st.trace = true ∧
  st.buffer.length < cfg.batch_size ∧
  (∀ d0, st.last_crawled_post_id = some d0 → ¬ d0 = "" ∧
    (d0 ∈ flushedIds st.trace ∨ d0 ∈ st.buffer.map (fun q => q.id)))

lemma fwdNm_step (cfg : Config) (tid : String) (web : Nat → Option (List PostData))
    (hid : ∀ p l, web p = some l → ∀ q ∈ l, ¬ q.id = "")
    (hpg : ∀ p l, web p = some l → l.length ≤ cfg.batch_size)
    (st : CState) (p : Nat) (h : FwdNmInv cfg st) :
    FwdNmInv cfg (fwdStep cfg tid web st p) := by
  obtain ⟨hA, hbl, hlc⟩ := h
  cases hw : web p with
  | none =>
    rw [fwdStep_none cfg tid web st p hw]
    refine ⟨wnf_extend _ _ hA rfl, hbl, ?_⟩
    intro d0 hd
    obtain ⟨hne, hloc⟩ := hlc d0 hd
    refine ⟨hne, ?_⟩
    rcases hloc with hf | hq
    · left
      dsimp only
      rw [flushedIds_append]
      exact List.mem_append.mpr (Or.inl hf)
    · exact Or.inr hq
  | some pp =>
    have hids := collect_ids_ne st.db tid none hid hw
    have hTlen : (collect_posts_from_page st.db pp tid none).posts_list.length
        ≤ cfg.batch_size := by
      have h1 := (collect_page_sublist st.db pp tid none).length_le
      rw [List.length_reverse, List.length_map] at h1
      exact le_trans h1 (hpg p pp hw)
    by_cases hlen : cfg.batch_size ≤
        (st.buffer ++ (collect_posts_from_page st.db pp tid none).posts_list).length
    · rw [fwdStep_flush cfg tid web st p pp hw hlen]
      cases hTc : (collect_posts_from_page st.db pp tid none).posts_list with
      | nil =>
        exfalso
        rw [hTc] at hlen
        simp at hlen
        omega
      | cons q t =>
        rw [hTc] at hlen hTlen
        have hq_ne : ¬ q.id = "" := hids q (by rw [hTc]; simp)
        have hq_batch : q ∈ (st.buffer ++ q :: t).take cfg.batch_size := by
          have hsplit : (st.buffer ++ q :: t).take cfg.batch_size
              = st.buffer ++ (q :: t).take (cfg.batch_size - st.buffer.length) := by
            rw [List.take_append_eq_append_take,
              take_all_of_len_le _ _ (le_of_lt hbl)]
          rw [hsplit]
          refine List.mem_append.mpr (Or.inr ?_)
          have hpos : cfg.batch_size - st.buffer.length
              = (cfg.batch_size - st.buffer.length - 1) + 1 := by
            simp only [List.length_append, List.length_cons] at hlen
            omega
          rw [hpos, List.take_succ_cons]
          simp
        refine ⟨?_, ?_, ?_⟩
        · dsimp only
          refine wnf_extend _ _ (wnf_extend _ _ hA rfl) ?_
          refine wnf_flushWm _ _ _ _ _ ?_
          intro _
          rw [show headIdOr (q :: t) st.last_crawled_post_id = some q.id from rfl,
            Option.getD_some]
          refine contains_of_mem (List.mem_append.mpr (Or.inr ?_))
          exact List.mem_map.mpr ⟨q, hq_batch, rfl⟩
        · dsimp only
          rw [List.length_drop]
          simp only [List.length_append, List.length_cons] at hlen hTlen ⊢
          omega
        · intro d0 hd
          dsimp only at hd
          rw [show headIdOr (q :: t) st.last_crawled_post_id = some q.id from rfl] at hd
          have hqd : q.id = d0 := by injection hd
          refine ⟨by rw [← hqd]; exact hq_ne, Or.inl ?_⟩
          dsimp only
          rw [flushedIds_append, flushedIds_append, flushedIds_flushWm]
          refine List.mem_append.mpr (Or.inr ?_)
          rw [← hqd]
          exact List.mem_map.mpr ⟨q, hq_batch, rfl⟩
    · rw [fwdStep_small cfg tid web st p pp hw hlen]
      cases hTc : (collect_posts_from_page st.db pp tid none).posts_list with
      | nil =>
        refine ⟨wnf_extend _ _ hA rfl, ?_, ?_⟩
        · dsimp only
          simpa using hbl
        · intro d0 hd
          dsimp only at hd
          rw [show headIdOr ([] : List PostData) st.last_crawled_post_id
              = st.last_crawled_post_id from rfl] at hd
          obtain ⟨hne, hloc⟩ := hlc d0 hd
          refine ⟨hne, ?_⟩
          rcases hloc with hf | hq
          · left
            dsimp only
            rw [flushedIds_append]
            exact List.mem_append.mpr (Or.inl hf)
          · right
            dsimp only
            simpa using hq
      | cons q t =>
        rw [hTc] at hlen
        have hq_ne : ¬ q.id = "" := hids q (by rw [hTc]; simp)
        refine ⟨wnf_extend _ _ hA rfl, ?_, ?_⟩
        · dsimp only
          simp only [List.length_append, List.length_cons] at hlen ⊢
          omega
        · intro d0 hd
          dsimp only at hd
          rw [show headIdOr (q :: t) st.last_crawled_post_id = some q.id from rfl] at hd
          have hqd : q.id = d0 := by injection hd
          refine ⟨by rw [← hqd]; exact hq_ne, Or.inr ?_⟩
          dsimp only
          rw [← hqd]
          exact List.mem_map.mpr ⟨q, List.mem_append.mpr (Or.inr (by simp)), rfl⟩

lemma fwdNm_final (cfg : Config) (tid : String) (st : CState) (h : FwdNmInv cfg st) :
    wmNamesFlushed [] (finalFlush tid false st).trace = true := by
  obtain ⟨hA, _, hlc⟩ := h
  by_cases hb : st.buffer.isEmpty = true
  · rw [finalFlush_empty tid false st hb]
    exact hA
  · replace hb : st.buffer.isEmpty = false := by simpa using hb
    rw [finalFlush_ne tid false st hb]
    dsimp only
    refine wnf_extend _ _ hA ?_
    refine wnf_flushWm _ _ _ _ _ ?_
    intro ht
    have hwmv : (if false then st.newest_post_id else st.last_crawled_post_id)
        = st.last_crawled_post_id := rfl
    rw [hwmv] at ht ⊢
    cases hnew : st.last_crawled_post_id with
    | none =>
      rw [hnew] at ht
      simp [optTruthy] at ht
    | some d0 =>
      obtain ⟨_, hloc⟩ := hlc d0 hnew
      rw [Option.getD_some]
      refine contains_of_mem ?_
      rcases hloc with hf | hm
      · exact List.mem_append.mpr (Or.inl hf)
      · exact List.mem_append.mpr (Or.inr hm)

lemma wnf_fwd_collect (cfg : Config) (db0 : DB) (url : String) (isNew : Option Bool)
    (web : Nat → Option (List PostData)) (N : Nat)
    (hte : threadExistsFlag db0 url isNew = false) (hB : 1 ≤ cfg.batch_size)
    (hid : ∀ p l, web p = some l → ∀ q ∈ l, ¬ q.id = "")
    (hpg : ∀ p l, web p = some l → l.length ≤ cfg.batch_size) :
    wmNamesFlushed [] (collect_thread_posts cfg db0 url isNew web N).trace = true := by
  cases hw : web 1 with
  | none =>
    rw [collect_none cfg db0 url isNew web N hw]
    rfl
  | some s =>
    rw [collect_fwd cfg db0 url isNew web N s hw hte]
    dsimp only
    refine fwdNm_final cfg _ _ ?_
    refine runPages_invariant _ (FwdNmInv cfg)
      (fun st p hp => fwdNm_step cfg _ web hid hpg st p hp) _ _ ?_
    refine ⟨rfl, by simp; omega, ?_⟩
    intro d0 hd
    simp at hd


/-- C1 (amended): watermark updates and persistence.  First conjunct (every run): a
watermark update is only ever emitted immediately after a batch flush, never before
one.  Second conjunct: in reverse mode (known container) the value written always
names an item carried by some already-submitted flush batch — the named item is
persisted before or by the very flush the update follows.  Third conjunct: the same
holds in forward mode PROVIDED no page yields more than `batch_size` items; without
that bound the forward watermark can name a still-buffered item (see the
counterexample). -/
theorem watermark_names_persisted (cfg : Config) (db0 : DB) (url : String)
    (isNew : Option Bool) (web : Nat → Option (List PostData)) (N : Nat) :
    wmAfterFlush (collect_thread_posts cfg db0 url isNew web N).trace = true ∧
    (threadExistsFlag db0 url isNew = true → 1 ≤ cfg.batch_size →
      (∀ p l, web p = some l → ∀ q ∈ l, ¬ q.id = "") →
      wmNamesFlushed [] (collect_thread_posts cfg db0 url isNew web N).trace = true) ∧
    (threadExistsFlag db0 url isNew = false → 1 ≤ cfg.batch_size →
      (∀ p l, web p = some l → ∀ q ∈ l, ¬ q.id = "") →
      (∀ p l, web p = some l → l.length ≤ cfg.batch_size) →
      wmNamesFlushed [] (collect_thread_posts cfg db0 url isNew web N).trace = true) :=
  ⟨waf_collect cfg db0 url isNew web N,
   fun hte hB hid => wnf_rev_collect cfg db0 url isNew web N hte hB hid,
   fun hte hB hid hpg => wnf_fwd_collect cfg db0 url isNew web N hte hB hid hpg⟩

/-- Pages for the counterexample: a five-item page followed by a three-item page. -/
def c1post (i : Nat) : PostData := ⟨"a" ++ toString i, "", "u", "", 0, "x"⟩

def c1ps : Nat → List PostData := fun p =>
  if p = 1 then [c1post 1, c1post 2, c1post 3, c1post 4, c1post 5]
  else if p = 2 then [c1post 6, c1post 7, c1post 8] else []

def c1web : Nat → Option (List PostData) := fun p => some (c1ps p)

/-- Counterexample to the claimed persistence of the watermark: a forward run with
batch size 2 over a 5-item page then a 3-item page flushes `[a3, a2]` on page 2 and
immediately writes watermark `a8` — an item still sitting in the buffer, not yet
persisted.  (The ordering half survives: the update still follows a flush.) -/
theorem watermark_unflushed_counterexample :
    wmNamesFlushed [] (collect_thread_posts ⟨2, false, ""⟩ ⟨[], [], false⟩
      "https://f319.com/threads/x.5/" (some true) c1web 2).trace = false ∧
    wmAfterFlush (collect_thread_posts ⟨2, false, ""⟩ ⟨[], [], false⟩
      "https://f319.com/threads/x.5/" (some true) c1web 2).trace = true := by
  refine ⟨by decide, by decide⟩

/-- Witness inputs: one single-post page, crawled once as a known container and once
as a first-seen container. -/
def c1wpost : PostData := ⟨"b1", "", "u", "", 0, "x"⟩

def c1wweb : Nat → Option (List PostData) := fun _ => some [c1wpost]

def c1wurl : String := "https://f319.com/threads/x.9/"

def c1wdb : DB := ⟨[⟨"9", "", "", "", "", c1wurl, "", "", none⟩], [], false⟩

theorem watermark_names_persisted_witness :
    wmAfterFlush (collect_thread_posts ⟨100, false, ""⟩ c1wdb c1wurl none
      c1wweb 1).trace = true ∧
    wmNamesFlushed [] (collect_thread_posts ⟨100, false, ""⟩ c1wdb c1wurl none
      c1wweb 1).trace = true ∧
    wmNamesFlushed [] (collect_thread_posts ⟨100, false, ""⟩ c1wdb c1wurl (some true)
      c1wweb 1).trace = true :=
  ⟨(watermark_names_persisted ⟨100, false, ""⟩ c1wdb c1wurl none c1wweb 1).1,
   (watermark_names_persisted ⟨100, false, ""⟩ c1wdb c1wurl none c1wweb 1).2.1
     (by decide) (by decide)
     (fun p l h q hq => by
       have hl := Option.some.inj h
       subst hl
       simp at hq
       subst hq
       decide),
   (watermark_names_persisted ⟨100, false, ""⟩ c1wdb c1wurl (some true) c1wweb 1).2.2
     (by decide) (by decide)
     (fun p l h q hq => by
       have hl := Option.some.inj h
       subst hl
       simp at hq
       subst hq
       decide)
     (fun p l h => by
       have hl := Option.some.inj h
       subst hl
       decide)⟩

end F319
